import Mathlib

set_option maxRecDepth 100000

/-!
Verification of the batch lifecycle coordinator in
`python-recipes/Large_Scale_Tasks_Recipe.py`.

The script is embedded shallowly: the filesystem is an explicit store of
directory and file entries, the remote task API is an oracle of pure
functions plus a counter for fresh task-group ids, CSV data frames are
header/rows tables, and every script function is a state-passing Lean
function mirroring the Python control flow (exceptions become an error
result that carries the state at the raise point, as Python exceptions do
not roll back side effects).  `while True` polling loops take explicit
fuel; running out of fuel is a distinguished error standing for
non-termination.

Modelling notes kept throughout:
* Python `str.rstrip(chars)` removes trailing characters *belonging to the
  set* `chars`, not the suffix `chars`; the embedding reproduces that
  faithfully (`rstrip`).
* `os.listdir` order is modelled as filesystem-entry insertion order, a
  fixed deterministic order (the real order is OS dependent but stable for
  an unchanged directory).
* `pandas.to_csv`/`read_csv` round-trips are modelled at the level of
  tables; `None` cells are serialized as empty strings, exactly as the
  CSV bytes would be.  `pd.DataFrame([])` yields a table with no columns,
  and reading a no-column CSV fails (pandas `EmptyDataError`).
* `time.sleep` and log formatting are irrelevant to the claims; log calls
  that the claims mention are recorded as events.
-/

namespace Recipe

/-! ### Strings and paths -/

/-- Python `str.rstrip(chars)`: drop trailing characters that are members
of the character set `chars` (not the suffix `chars`). -/
def rstrip (s : String) (chars : String) : String :=
  ⟨(s.data.reverse.dropWhile (fun c => chars.data.contains c)).reverse⟩

/-- Python `str.endswith(suffix)`. -/
def endsWithS (s suffix : String) : Bool :=
  suffix.data.isSuffixOf s.data

/-- `os.path.join(a, b)` for the simple relative-path usage in the script. -/
def pjoin (a b : String) : String :=
  ⟨a.data ++ '/' :: b.data⟩

/-- `os.path.basename`: the component after the last slash. -/
def basename (p : String) : String :=
  ⟨(p.data.reverse.takeWhile (fun c => c ≠ '/')).reverse⟩

/-- Strip a leading fixed character sequence, returning the rest. -/
def dropLead : List Char → List Char → Option (List Char)
  | [], rest => some rest
  | _, [] => none
  | c :: cs, d :: ds => if c = d then dropLead cs ds else none

/-- The name under which path `p` appears in `os.listdir d`, if `p` is a
direct child of directory `d`. -/
def childName (d p : String) : Option String :=
  match dropLead (d.data ++ ['/']) p.data with
  | none => none
  | some rest =>
    if rest.isEmpty then none
    else if rest.contains '/' then none
    else some ⟨rest⟩

/-! ### Filesystem model

A flat store of path entries in creation order.  Writing an existing file
replaces its first entry in place; new files and directories are appended,
so `os.listdir` order is stable for unchanged directories. -/

/-- Merge-key / run-id / task-group columns and artifact tables are CSV
tables: a header of column names plus data rows. -/
structure Table where
  header : List String
  rows : List (List String)
deriving DecidableEq, Repr

/-- A filesystem node: a directory or a file with parsed-or-malformed CSV
content.  `malformed` stands for bytes that `pandas.read_csv` rejects. -/
inductive Node where
  | dir
  | file (t : Table)
  | malformed
deriving DecidableEq, Repr

structure FS where
  entries : List (String × Node)
deriving DecidableEq, Repr

/-- First entry for a path, if any. -/
def lookupEnt (p : String) : List (String × Node) → Option Node
  | [] => none
  | e :: rest => if e.1 = p then some e.2 else lookupEnt p rest

def FS.lookup (fs : FS) (p : String) : Option Node :=
  lookupEnt p fs.entries

/-- `os.path.exists`. -/
def FS.existsP (fs : FS) (p : String) : Bool :=
  (fs.lookup p).isSome

/-- `os.makedirs` (call sites guard on non-existence, so this is only the
append case; re-creating an existing path is never attempted). -/
def FS.mkdir (fs : FS) (p : String) : FS :=
  ⟨fs.entries ++ [(p, Node.dir)]⟩

/-- Replace the first entry for `p`, or append a new one. -/
def writeEntries (p : String) (n : Node) : List (String × Node) → List (String × Node)
  | [] => [(p, n)]
  | e :: rest => if e.1 = p then (p, n) :: rest else e :: writeEntries p n rest

/-- `DataFrame.to_csv(path)`: fails (Python `IsADirectoryError`) when the
target path is a directory. -/
def FS.write (fs : FS) (p : String) (t : Table) : Option FS :=
  match fs.lookup p with
  | some Node.dir => none
  | _ => some ⟨writeEntries p (Node.file t) fs.entries⟩

/-- `os.listdir`: names of the direct children, in entry order. -/
def FS.listdir (fs : FS) (d : String) : List String :=
  fs.entries.filterMap (fun e => childName d e.1)

/-- The `.csv`-named children of a directory (the files `iter_files`
yields, as bare names). -/
def csvNames (fs : FS) (d : String) : List String :=
  (fs.listdir d).filter (fun n => endsWithS n ".csv")

/-- `pandas.read_csv`: fails on a missing path, a directory, malformed
bytes, or a CSV with no columns (`EmptyDataError`). -/
def FS.parseCsv (fs : FS) (p : String) : Option Table :=
  match fs.lookup p with
  | some (Node.file t) => if t.header.isEmpty then none else some t
  | _ => none

/-- `pd.DataFrame(list_of_dicts)`: the header comes from the first row's
keys; an empty list yields a frame with no columns at all. -/
def mkTable (header : List String) (rows : List (List String)) : Table :=
  if rows.isEmpty then ⟨[], []⟩ else ⟨header, rows⟩

/-! ### Table operations used by the script -/

/-- Index of a named column. -/
def colIdx (header : List String) (c : String) : Option Nat :=
  List.findIdx? (fun h => h = c) header

/-- `row[c]` / `row.c` for a data row under a header; `none` is Python's
`KeyError` / `AttributeError`. -/
def cellOf (header : List String) (row : List String) (c : String) : Option String :=
  match colIdx header c with
  | none => none
  | some i => row.get? i

/-- `pd.merge(t1, t2, on = key, how = "left")`: every left row paired with
each matching right row; unmatched left rows padded with empty cells
(pandas `NaN`, which serializes to the empty CSV field).  Fails
(`KeyError`) when either frame lacks the key column.  Overlapping non-key
column names (pandas suffixing) do not occur in this pipeline's frames
and are not modelled. -/
def leftJoin (t1 t2 : Table) (key : String) : Option Table :=
  match colIdx t1.header key, colIdx t2.header key with
  | some i1, some i2 =>
    some ⟨t1.header ++ t2.header.eraseIdx i2,
      (t1.rows.map (fun r =>
        let k := (r.get? i1).getD ""
        let ms := t2.rows.filter (fun r2 => (r2.get? i2).getD "" = k)
        if ms.isEmpty then [r ++ (t2.header.eraseIdx i2).map (fun _ => "")]
        else ms.map (fun m => r ++ m.eraseIdx i2))).flatten⟩
  | _, _ => none

/-- `pd.concat(df_list)`: raises `ValueError` on an empty list.  Column
alignment across heterogeneous frames is not needed by this pipeline and
is not modelled beyond keeping the first frame's header. -/
def concatTables : List Table → Option Table
  | [] => none
  | t :: ts => some ⟨t.header, ((t :: ts).map Table.rows).flatten⟩

/-! ### Errors, events, state -/

/-- The script's error taxonomy: `ValidationError`, `NonRetryableError`,
and every other Python exception (`generic`).  Exhausting loop fuel is the
distinguished marker for a polling loop that never exits. -/
inductive PyErr where
  | validation (msg : String)
  | nonRetryable (msg : String)
  | generic (msg : String)
  | fuelOut
deriving DecidableEq, Repr

/-- A computation result carrying the Python exception, if one escaped. -/
inductive Res (α : Type) where
  | ok (a : α)
  | err (e : PyErr)
deriving DecidableEq, Repr

instance {ε α : Type} [DecidableEq ε] [DecidableEq α] : DecidableEq (Except ε α) :=
  fun x y =>
    match x, y with
    | Except.error a, Except.error b =>
      if h : a = b then Decidable.isTrue (by rw [h])
      else Decidable.isFalse (by simp [h])
    | Except.error _, Except.ok _ => Decidable.isFalse (by simp)
    | Except.ok _, Except.error _ => Decidable.isFalse (by simp)
    | Except.ok a, Except.ok b =>
      if h : a = b then Decidable.isTrue (by rw [h])
      else Decidable.isFalse (by simp [h])

/-- Observable actions: remote API calls and the log lines the claims
mention. -/
inductive Event where
  | createdGroup (tgid : String)
  | addedRuns (tgid : String) (count : Nat)
  | statusQuery (tgid : String)
  | resultFetch (runId : String)
  | warnRunFailed (runId : String) (file : String)
  | warnNotJson (runId : String) (file : String)
  | infoSkipEnqueued (file : String)
  | infoSkipFetched (file : String)
  | infoStillActive (file : String)
  | infoSkipMerge (file : String)
  | warnSkipInvalid (file : String)
  | errorLogged (file : String)
deriving DecidableEq, Repr

/-- Mutable world state: the filesystem, the fresh task-group counter, the
log of task groups the script created remotely, and the event trace. -/
structure St where
  fs : FS
  nextGroupId : Nat
  created : List String
  events : List Event
deriving DecidableEq, Repr

def St.logEv (s : St) (e : Event) : St :=
  { s with events := s.events ++ [e] }

/-- The remote task's structured output: either the expected
`TaskRunJsonOutput` with a content dictionary, or some other output
shape. -/
inductive RunOutput where
  | json (content : List (String × String))
  | nonJson
deriving DecidableEq, Repr

/-- The remote API as a deterministic environment: `add_runs` answers,
`task_group.retrieve(...).status.is_active` answers, and
`task_run.result` answers.  An `Except.error` models the call raising. -/
structure Oracle where
  runIdsFor : String → Nat → Except String (List String)
  isActive : String → Except String Bool
  runResult : String → Except String RunOutput

/-- Operator-facing controls (`--input-dir`, `--output-dir`,
`--processor`, `--dry-run`, `--skip-invalid`), threaded explicitly
instead of the script's module globals. -/
structure Config where
  inputDir : String
  outputDir : String
  processor : String
  dryRun : Bool
  skipInvalid : Bool

/-! ### Script constants -/

def RUN_STATE_FILE_SUFFIX : String := "_tgrp_runs.csv"

def RESULT_STATE_FILE_SUFFIX : String := "_results.csv"

def OUTPUT_COLS : List String :=
  ["match_1", "match_2", "match_3", "match_4", "match_5"]

def SOURCE_ROOTDOMAIN_NAME : String := "Wayfair"

def taskGroupIdCol : String := "TaskGroupID"

def runIdCol : String := "RunId"

def mergeIdCol : String := "ManufacturerPartNumber"

def FILE_LENGTH_LIMIT : Nat := 1000

/-- The columns `create_run_payloads` reads for the per-row `product_data`
dictionary, in attribute-access order. -/
def PRODUCT_COLS : List String :=
  ["ManufacturerPartID", "SKU", "ManufacturerPartNumber", "OptionName",
   "UPC", "AdditionalUPC", "PrName", "ProductDescription",
   "MarketingCategory", "Class", "Manufacturer", "URL"]

/-- The competitor-domain columns read into `row_domains`. -/
def COMPETITOR_COLS : List String :=
  ["competitor1", "competitor2", "competitor3", "competitor4", "competitor5"]

/-- The task spec is a large static dictionary determined by the row's
domains and the source root-domain name; the claims never inspect its
JSON, so it is represented by its determinants. -/
structure TaskSpec where
  domains : List String
  sourceRootdomainName : String
deriving DecidableEq, Repr

/-- `build_task_spec`: raises `ValidationError` when the domain count does
not match the output columns. -/
def build_task_spec (domains : List String) (source_rootdomain_name : String) :
    Res TaskSpec :=
  if domains.length ≠ OUTPUT_COLS.length then
    Res.err (PyErr.validation "Number of domains does not match number of output columns")
  else Res.ok ⟨domains, source_rootdomain_name⟩

/-- `BetaRunInputParam` as built per row. -/
structure RunPayload where
  productData : List (String × String)
  domains : List String
  processor : String
  taskSpec : TaskSpec
  metadataMpid : String
deriving DecidableEq, Repr

/-! ### File catalog and state store -/

/-- `iter_files`: all `.csv`-named entries of the directory, joined to the
directory path.  `ValidationError` when the directory is missing or holds
no CSV file.  (The Python generator is consumed whole by every caller, so
the eager list is equivalent.) -/
def iter_files (input_dir : String) (fs : FS) : Res (List String) :=
  if ¬ fs.existsP input_dir then
    Res.err (PyErr.validation "Directory does not exist.")
  else
    let names := csvNames fs input_dir
    if names.isEmpty then Res.err (PyErr.validation "No CSV files found.")
    else Res.ok (names.map (fun n => pjoin input_dir n))

inductive Stage where
  | runs
  | results
deriving DecidableEq, Repr

def stageStr : Stage → String
  | Stage.runs => "runs"
  | Stage.results => "results"

/-- The pure part of `FileManager.output_file_path`: base name stripped
with Python `rstrip` semantics, plus stage suffix, inside the stage
subdirectory. -/
def pathOf (output_dir input_filename : String) (stage : Stage) : String :=
  let base :=
    if endsWithS input_filename RUN_STATE_FILE_SUFFIX then
      rstrip (basename input_filename) RUN_STATE_FILE_SUFFIX
    else
      rstrip (basename input_filename) ".csv"
  let filename :=
    match stage with
    | Stage.results => base ++ RESULT_STATE_FILE_SUFFIX
    | Stage.runs => base ++ RUN_STATE_FILE_SUFFIX
  pjoin (pjoin output_dir (stageStr stage)) filename

def ensureDir (s : St) (d : String) : St :=
  if s.fs.existsP d then s else { s with fs := s.fs.mkdir d }

/-- `FileManager.output_file_path`: computes the artifact path and — as a
side effect of the path computation — creates the stage subdirectory when
missing (`os.makedirs` guarded by `os.path.exists`). -/
def output_file_path (output_dir input_filename : String) (stage : Stage) (s : St) :
    String × St :=
  (pathOf output_dir input_filename stage,
   ensureDir s (pjoin output_dir (stageStr stage)))

/-- `FileManager.validate_file`. -/
def validate_file (file : String) (fs : FS) : Res Unit :=
  if ¬ fs.existsP file then
    Res.err (PyErr.validation "File does not exist.")
  else
    match fs.parseCsv file with
    | none => Res.err (PyErr.nonRetryable "Incorrect csv file")
    | some t =>
      if t.rows.length > FILE_LENGTH_LIMIT then
        Res.err (PyErr.validation "File has more than FILE_LENGTH_LIMIT rows.")
      else Res.ok ()

/-- `FileManager.already_enqueued`. -/
def already_enqueued (output_dir input_file_name : String) (s : St) : Bool × St :=
  let (run_file_name, s) := output_file_path output_dir input_file_name Stage.runs s
  (s.fs.existsP run_file_name, s)

/-- `FileManager.already_fetched`. -/
def already_fetched (output_dir run_file_name : String) (s : St) : Bool × St :=
  let (result_file_name, s) := output_file_path output_dir run_file_name Stage.results s
  (s.fs.existsP result_file_name, s)

/-- `FileManager.get_output_dir`. -/
def get_output_dir (output_dir : String) (stage : Stage) : String :=
  pjoin output_dir (stageStr stage)

/-! ### Submission stage -/

/-- One iteration of the `create_run_payloads` row loop: attribute reads
(`AttributeError` when a column is missing), the `build_task_spec` call,
and the payload construction. -/
def buildPayload (header row : List String) (source_rootdomain_name processor : String) :
    Res (String × RunPayload) :=
  match COMPETITOR_COLS.mapM (fun c => cellOf header row c) with
  | none => Res.err (PyErr.generic "AttributeError: competitor column")
  | some row_domains =>
    match PRODUCT_COLS.mapM (fun c => cellOf header row c) with
    | none => Res.err (PyErr.generic "AttributeError: product column")
    | some vals =>
      let product_data := PRODUCT_COLS.zip vals
      let mpn_str := (cellOf header row mergeIdCol).getD ""
      match build_task_spec row_domains source_rootdomain_name with
      | Res.err e => Res.err e
      | Res.ok task_spec =>
        Res.ok (mpn_str,
          { productData := product_data
            domains := row_domains
            processor := processor
            taskSpec := task_spec
            metadataMpid := (cellOf header row "ManufacturerPartID").getD "" })

/-- Python `dict` insertion: an existing key keeps its position and takes
the new value; a new key is appended. -/
def dictInsert (m : List (String × RunPayload)) (k : String) (v : RunPayload) :
    List (String × RunPayload) :=
  if m.any (fun p => p.1 = k) then
    m.map (fun p => if p.1 = k then (k, v) else p)
  else m ++ [(k, v)]

def createRunPayloadsGo (header : List String)
    (source_rootdomain_name processor : String) :
    List (List String) → List (String × RunPayload) → Res (List (String × RunPayload))
  | [], run_map => Res.ok run_map
  | row :: rest, run_map =>
    match buildPayload header row source_rootdomain_name processor with
    | Res.err e => Res.err e
    | Res.ok (k, v) =>
      createRunPayloadsGo header source_rootdomain_name processor rest
        (dictInsert run_map k v)

/-- `create_run_payloads`: insertion-ordered map from `str(mpn)` to the
row's payload; a later row with the same key overwrites the earlier
payload in place. -/
def create_run_payloads (chunk_df : Table)
    (source_rootdomain_name processor : String) : Res (List (String × RunPayload)) :=
  createRunPayloadsGo chunk_df.header source_rootdomain_name processor chunk_df.rows []

/-- `client.beta.task_group.create()`: a fresh group id, recorded in the
created-groups log. -/
def createGroup (s : St) : String × St :=
  let tgid := "tg" ++ toString s.nextGroupId
  (tgid,
   { s with
      nextGroupId := s.nextGroupId + 1
      created := s.created ++ [tgid]
      events := s.events ++ [Event.createdGroup tgid] })

/-- The `for i, run_key in enumerate(input_map): run_responses.run_ids[i]`
state-map construction; `none` is the `IndexError` raised when fewer run
ids than keys came back. -/
def buildStateRows (run_ids : List String) (tgid : String) :
    List (String × RunPayload) → Nat → Option (List (List String))
  | [], _ => some []
  | (run_key, _) :: rest, i =>
    match run_ids.get? i with
    | none => none
    | some rid =>
      (buildStateRows run_ids tgid rest (i + 1)).map
        (fun tl => [run_key, rid, tgid] :: tl)

def stateHeader : List String := [mergeIdCol, runIdCol, taskGroupIdCol]

/-- `_enqueue_one`. -/
def enqueue_one_raw (o : Oracle) (cfg : Config) (filepath : String) (s : St) :
    Res Bool × St :=
  match validate_file filepath s.fs with
  | Res.err (PyErr.nonRetryable _) =>
    if ¬ cfg.skipInvalid then
      (Res.err (PyErr.validation "File failed ."), s)
    else
      (Res.ok true, s.logEv (Event.warnSkipInvalid filepath))
  | Res.err (PyErr.validation _) =>
    (Res.err (PyErr.validation
      "Files failed validation. Please check logs for more details."), s)
  | Res.err e => (Res.err e, s)
  | Res.ok () =>
    match s.fs.parseCsv filepath with
    | none => (Res.err (PyErr.generic "load_csv failed"), s)
    | some input_df =>
      if cfg.dryRun then (Res.ok true, s)
      else
        match create_run_payloads input_df SOURCE_ROOTDOMAIN_NAME cfg.processor with
        | Res.err e => (Res.err e, s)
        | Res.ok input_map =>
          let (tgid, s) := createGroup s
          let s := s.logEv (Event.addedRuns tgid input_map.length)
          match o.runIdsFor tgid input_map.length with
          | Except.error _ => (Res.err (PyErr.generic "add_runs failed"), s)
          | Except.ok run_ids =>
            match buildStateRows run_ids tgid input_map 0 with
            | none => (Res.err (PyErr.generic "IndexError: run_ids"), s)
            | some state_map =>
              let (path, s) := output_file_path cfg.outputDir filepath Stage.runs s
              match s.fs.write path (mkTable stateHeader state_map) with
              | none => (Res.err (PyErr.generic "to_csv failed"), s)
              | some fs' => (Res.ok true, { s with fs := fs' })

/-- `enqueue_one`: re-raises `ValidationError`, converts every other
exception into a logged `False` (retry later). -/
def enqueue_one (o : Oracle) (cfg : Config) (filepath : String) (s : St) :
    Res Bool × St :=
  match enqueue_one_raw o cfg filepath s with
  | (Res.err (PyErr.validation m), s') => (Res.err (PyErr.validation m), s')
  | (Res.err _, s') => (Res.ok false, s'.logEv (Event.errorLogged filepath))
  | (Res.ok b, s') => (Res.ok b, s')

/-- One full pass of the `for file in iter_files(...)` loop inside
`enqueue_all`; the returned boolean is `all_completed`. -/
def enqueuePass (o : Oracle) (cfg : Config) :
    List String → St → Res Bool × St
  | [], s => (Res.ok true, s)
  | file :: rest, s =>
    let (enq, s) := already_enqueued cfg.outputDir file s
    if enq then
      enqueuePass o cfg rest (s.logEv (Event.infoSkipEnqueued file))
    else
      match enqueue_one o cfg file s with
      | (Res.err e, s') => (Res.err e, s')
      | (Res.ok completed, s') =>
        match enqueuePass o cfg rest s' with
        | (Res.ok allRest, s'') => (Res.ok (completed && allRest), s'')
        | (Res.err e, s'') => (Res.err e, s'')

/-- `enqueue_all`: repeat full passes until a pass completes every file;
dry-run mode stops after one pass regardless. -/
def enqueue_all (o : Oracle) (cfg : Config) : Nat → St → Res Unit × St
  | 0, s => (Res.err PyErr.fuelOut, s)
  | Nat.succ fuel, s =>
    match iter_files cfg.inputDir s.fs with
    | Res.err e => (Res.err e, s)
    | Res.ok files =>
      match enqueuePass o cfg files s with
      | (Res.err e, s') => (Res.err e, s')
      | (Res.ok true, s') => (Res.ok (), s')
      | (Res.ok false, s') =>
        if cfg.dryRun then (Res.ok (), s')
        else enqueue_all o cfg fuel s'

/-! ### Polling / fetch stage -/

/-- The `{OUTPUT_COLS[i]: result.output.content.get(OUTPUT_COLS[i], None) ...}`
output dictionary of a kept result row; an absent key's `None` serializes
to the empty CSV field. -/
def outputCells (content : List (String × String)) : List String :=
  OUTPUT_COLS.map (fun c =>
    ((content.find? (fun kv => kv.1 = c)).map (fun kv => kv.2)).getD "")

/-- The `for _, row in run_df.iterrows()` result-collection loop of
`_fetch_one`: per run, fetch the result (a raised error means the run
failed and drops the row with a warning), check the output shape (a
non-JSON output drops the row with a warning), otherwise keep the row.
The column reads sit outside the per-run `try`, so a missing column
raises out of the loop. -/
def collectResults (o : Oracle) (run_file : String) (header : List String)
    (tgid : String) : List (List String) → St → Res (List (List String)) × St
  | [], s => (Res.ok [], s)
  | row :: rest, s =>
    match cellOf header row runIdCol with
    | none => (Res.err (PyErr.generic "KeyError: RunId"), s)
    | some run_id =>
      let s := s.logEv (Event.resultFetch run_id)
      match o.runResult run_id with
      | Except.error _ =>
        collectResults o run_file header tgid rest
          (s.logEv (Event.warnRunFailed run_id run_file))
      | Except.ok RunOutput.nonJson =>
        collectResults o run_file header tgid rest
          (s.logEv (Event.warnNotJson run_id run_file))
      | Except.ok (RunOutput.json content) =>
        match cellOf header row mergeIdCol with
        | none => (Res.err (PyErr.generic "KeyError: merge id"), s)
        | some mk =>
          match collectResults o run_file header tgid rest s with
          | (Res.ok tl, s') =>
            (Res.ok (([mk, run_id, tgid] ++ outputCells content) :: tl), s')
          | (Res.err e, s') => (Res.err e, s')

def resultsHeader : List String :=
  [mergeIdCol, runIdCol, taskGroupIdCol] ++ OUTPUT_COLS

/-- `_fetch_one`. -/
def fetch_one_raw (o : Oracle) (output_dir run_file : String) (s : St) :
    Res Bool × St :=
  match s.fs.parseCsv run_file with
  | none => (Res.err (PyErr.generic "load_csv failed"), s)
  | some run_df =>
    match colIdx run_df.header taskGroupIdCol with
    | none => (Res.err (PyErr.generic "KeyError: TaskGroupID"), s)
    | some ci =>
      match run_df.rows.head? with
      | none => (Res.err (PyErr.generic "KeyError: row 0"), s)
      | some row0 =>
        match row0.get? ci with
        | none => (Res.err (PyErr.generic "KeyError: row 0"), s)
        | some tgroup_id =>
          let s := s.logEv (Event.statusQuery tgroup_id)
          match o.isActive tgroup_id with
          | Except.error _ => (Res.err (PyErr.generic "retrieve failed"), s)
          | Except.ok true =>
            (Res.ok false, s.logEv (Event.infoStillActive run_file))
          | Except.ok false =>
            match collectResults o run_file run_df.header tgroup_id run_df.rows s with
            | (Res.err e, s') => (Res.err e, s')
            | (Res.ok results, s') =>
              let (path, s') := output_file_path output_dir run_file Stage.results s'
              match s'.fs.write path (mkTable resultsHeader results) with
              | none => (Res.err (PyErr.generic "to_csv failed"), s')
              | some fs' => (Res.ok true, { s' with fs := fs' })

/-- `fetch_one`: converts every exception into a logged `False`. -/
def fetch_one (o : Oracle) (output_dir run_file : String) (s : St) :
    Res Bool × St :=
  match fetch_one_raw o output_dir run_file s with
  | (Res.err _, s') => (Res.ok false, s'.logEv (Event.errorLogged run_file))
  | (Res.ok b, s') => (Res.ok b, s')

/-- One pass of the fetch loop: already-fetched files are skipped; the
pass breaks out at the first file whose fetch reports `False` (batch
still active, or the fetch raised).  The returned boolean is
`all_completed`. -/
def fetchPass (o : Oracle) (output_dir : String) :
    List String → St → Res Bool × St
  | [], s => (Res.ok true, s)
  | file :: rest, s =>
    let (fetched, s) := already_fetched output_dir file s
    if fetched then
      fetchPass o output_dir rest (s.logEv (Event.infoSkipFetched file))
    else
      match fetch_one o output_dir file s with
      | (Res.err e, s') => (Res.err e, s')
      | (Res.ok true, s') => fetchPass o output_dir rest s'
      | (Res.ok false, s') => (Res.ok false, s')

/-- `fetch_all`: repeat passes (sleeping between them) until one pass
finds every file fetched. -/
def fetch_all (o : Oracle) (output_dir : String) : Nat → St → Res Unit × St
  | 0, s => (Res.err PyErr.fuelOut, s)
  | Nat.succ fuel, s =>
    match iter_files (get_output_dir output_dir Stage.runs) s.fs with
    | Res.err e => (Res.err e, s)
    | Res.ok files =>
      match fetchPass o output_dir files s with
      | (Res.err e, s') => (Res.err e, s')
      | (Res.ok true, s') => (Res.ok (), s')
      | (Res.ok false, s') => fetch_all o output_dir fuel s'

/-! ### Merge stage -/

/-- The `for input_file in iter_files(input_dir)` accumulation loop of
`merge_results`: skip unfetched files with a log line, otherwise left-join
the input rows with the results rows on the merge key. -/
def mergeCollect (output_dir : String) :
    List String → St → Res (List Table) × St
  | [], s => (Res.ok [], s)
  | input_file :: rest, s =>
    let (fetched, s) := already_fetched output_dir input_file s
    if ¬ fetched then
      mergeCollect output_dir rest (s.logEv (Event.infoSkipMerge input_file))
    else
      let (result_path, s) := output_file_path output_dir input_file Stage.results s
      match s.fs.parseCsv result_path with
      | none => (Res.err (PyErr.generic "load_csv failed"), s)
      | some result_df =>
        match s.fs.parseCsv input_file with
        | none => (Res.err (PyErr.generic "load_csv failed"), s)
        | some input_df =>
          match leftJoin input_df result_df mergeIdCol with
          | none => (Res.err (PyErr.generic "KeyError: merge key"), s)
          | some merged_df =>
            match mergeCollect output_dir rest s with
            | (Res.ok tl, s') => (Res.ok (merged_df :: tl), s')
            | (Res.err e, s') => (Res.err e, s')

/-- `merge_results`. -/
def merge_results (input_dir output_dir : String) (s : St) : Res Unit × St :=
  match iter_files input_dir s.fs with
  | Res.err e => (Res.err e, s)
  | Res.ok files =>
    match mergeCollect output_dir files s with
    | (Res.err e, s') => (Res.err e, s')
    | (Res.ok df_list, s') =>
      match concatTables df_list with
      | none => (Res.err (PyErr.generic "ValueError: No objects to concatenate"), s')
      | some merged_df =>
        let (path, s') := output_file_path output_dir "merged" Stage.results s'
        match s'.fs.write path merged_df with
        | none => (Res.err (PyErr.generic "to_csv failed"), s')
        | some fs' => (Res.ok (), { s' with fs := fs' })

/-! ### Orchestrator -/

/-- `run_batch`: enqueue everything, then (outside dry-run mode) fetch
everything, then merge. -/
def run_batch (o : Oracle) (cfg : Config) (fuel : Nat) (s : St) : Res Unit × St :=
  match enqueue_all o cfg fuel s with
  | (Res.err e, s') => (Res.err e, s')
  | (Res.ok (), s') =>
    if cfg.dryRun then (Res.ok (), s')
    else
      match fetch_all o cfg.outputDir fuel s' with
      | (Res.err e, s'') => (Res.err e, s'')
      | (Res.ok (), s'') => merge_results cfg.inputDir cfg.outputDir s''

/-! ### Derived notions used in the statements and proofs -/

/-- The per-run classification outcome of the fetch loop, as a pure
function: `none` when the row is dropped (result fetch raised, or output
not JSON), otherwise the results-artifact row.  Requires the row's
columns to be present (guaranteed by the theorems' hypotheses). -/
def keptRow (o : Oracle) (tgid : String) (header row : List String) :
    Option (List String) :=
  match cellOf header row runIdCol with
  | none => none
  | some rid =>
    match o.runResult rid with
    | Except.error _ => none
    | Except.ok RunOutput.nonJson => none
    | Except.ok (RunOutput.json content) =>
      match cellOf header row mergeIdCol with
      | none => none
      | some mk => some ([mk, rid, tgid] ++ outputCells content)

/-- The merge-key column of every row of a table (empty string when the
column is missing; the submission theorems' hypotheses rule that out). -/
def keysOf (t : Table) : List String :=
  t.rows.map (fun r => (cellOf t.header r mergeIdCol).getD "")

/-- Association-list lookup in a run map. -/
def lookupA (m : List (String × RunPayload)) (k : String) : Option RunPayload :=
  ((m.find? (fun p => p.1 = k)).map (fun p => p.2))

/-- The last row of a table carrying a given merge key. -/
def lastRowWith (t : Table) (k : String) : Option (List String) :=
  (t.rows.filter (fun r => (cellOf t.header r mergeIdCol).getD "" = k)).getLast?

/-- Key insertion into a first-occurrence-ordered key list. -/
def insKey (acc : List String) (x : String) : List String :=
  if x ∈ acc then acc else acc ++ [x]

/-- Deduplication keeping the first occurrence of each element — the key
order of a Python `dict` built by repeated insertion. -/
def firstDedup (l : List String) : List String :=
  l.foldl insKey []

/-- Concrete witness fixtures: an input-table header and rows carrying
only a merge key, and the payload `create_run_payloads` builds for such a
row. -/
def wHdr : List String := PRODUCT_COLS ++ COMPETITOR_COLS

def wRow (k : String) : List String :=
  ["", "", k, "", "", "", "", "", "", "", "", "", "", "", "", "", ""]

def wPayload (k : String) : RunPayload :=
  { productData :=
      [("ManufacturerPartID", ""), ("SKU", ""), ("ManufacturerPartNumber", k),
       ("OptionName", ""), ("UPC", ""), ("AdditionalUPC", ""), ("PrName", ""),
       ("ProductDescription", ""), ("MarketingCategory", ""), ("Class", ""),
       ("Manufacturer", ""), ("URL", "")]
    domains := ["", "", "", "", ""]
    processor := "p"
    taskSpec := ⟨["", "", "", "", ""], "Wayfair"⟩
    metadataMpid := "" }

/-- Paths a pipeline stage may create or overwrite: a given stage
directory or a direct (slash-free-named) child of it. -/
def TouchedBy (d p : String) : Prop :=
  p = d ∨ ∃ n : String, ('/' ∉ n.data) ∧ p = pjoin d n

/-- `EntShift T old new`: the entry list `new` is `old` with values
changed only at `T`-paths (keys and their order untouched) followed by
newly appended entries, all at `T`-paths.  This is the footprint shape of
every filesystem mutation the script performs. -/
inductive EntShift (T : String → Prop) :
    List (String × Node) → List (String × Node) → Prop
  | nil : EntShift T [] []
  | ext {l'} (e : String × Node) : T e.1 → EntShift T [] l' →
      EntShift T [] (e :: l')
  | keep (e : String × Node) {l l'} : EntShift T l l' →
      EntShift T (e :: l) (e :: l')
  | touch {e e' : String × Node} {l l'} : e'.1 = e.1 → T e.1 →
      EntShift T l l' → EntShift T (e :: l) (e' :: l')

/-- Filesystem-level locality. -/
def Keeps (T : String → Prop) (a b : FS) : Prop :=
  EntShift T a.entries b.entries

/-- The two equivalent terminal situations of a file after a completed
enqueue pass: its run-state artifact exists, or it was marked done by the
skip-invalid leniency policy (and will be re-skipped identically). -/
def GoodEnq (cfg : Config) (fs : FS) (f : String) : Prop :=
  fs.existsP (pathOf cfg.outputDir f Stage.runs) = true ∨
  (cfg.skipInvalid = true ∧
    ∃ m, validate_file f fs = Res.err (PyErr.nonRetryable m))

/-- Equality of the observable world: filesystem, created remote groups,
and group counter (the event log may differ — re-runs re-log skips). -/
def SameCore (s s' : St) : Prop :=
  s'.fs = s.fs ∧ s'.created = s.created ∧ s'.nextGroupId = s.nextGroupId

/-- The per-file contribution of `merge_results`: the left join of the
input rows with the results rows, for a fetched file; `none` for an
unfetched (skipped) file. -/
def mergeTableFor (fs : FS) (output_dir f : String) : Option Table :=
  if fs.existsP (pathOf output_dir f Stage.results) then
    match fs.parseCsv (pathOf output_dir f Stage.results), fs.parseCsv f with
    | some result_df, some input_df => leftJoin input_df result_df mergeIdCol
    | _, _ => none
  else none

/-- The merge-collection loop as a pure function of the filesystem (its
outcome, including which per-file load fails first — the loop performs no
filesystem mutation beyond the lazily-ensured stage directory). -/
def mergeCollectFs (fs : FS) (output_dir : String) : List String → Res (List Table)
  | [] => Res.ok []
  | f :: rest =>
    if fs.existsP (pathOf output_dir f Stage.results) = false then
      mergeCollectFs fs output_dir rest
    else
      match fs.parseCsv (pathOf output_dir f Stage.results) with
      | none => Res.err (PyErr.generic "load_csv failed")
      | some result_df =>
        match fs.parseCsv f with
        | none => Res.err (PyErr.generic "load_csv failed")
        | some input_df =>
          match leftJoin input_df result_df mergeIdCol with
          | none => Res.err (PyErr.generic "KeyError: merge key")
          | some merged_df =>
            match mergeCollectFs fs output_dir rest with
            | Res.ok tl => Res.ok (merged_df :: tl)
            | Res.err e => Res.err e

/-- Concrete end-to-end witness fixtures: a happy-path oracle, a
configuration, an input table, and two starting worlds (one with a
well-named input file, one whose input file is named `merged.csv`). -/
def wOracle : Oracle :=
  { runIdsFor := fun _ n => Except.ok ((List.range n).map (fun i => "r" ++ toString i))
    isActive := fun _ => Except.ok false
    runResult := fun _ => Except.ok (RunOutput.json [("match_1", "x")]) }

def wCfg : Config :=
  { inputDir := "in", outputDir := "out", processor := "p",
    dryRun := false, skipInvalid := false }

def wInputTable : Table := ⟨wHdr, [wRow "K"]⟩

def wSt : St :=
  { fs := ⟨[("in", Node.dir), ("in/a.csv", Node.file wInputTable), ("out", Node.dir)]⟩
    nextGroupId := 0, created := [], events := [] }

def wStMerged : St :=
  { fs := ⟨[("in", Node.dir), ("in/merged.csv", Node.file wInputTable),
            ("out", Node.dir)]⟩
    nextGroupId := 0, created := [], events := [] }

/-- The world after one full happy-path batch over `wSt`. -/
def wS1 : St := (run_batch wOracle wCfg 2 wSt).2

/-! ## Basic lemmas about paths and the filesystem model -/

theorem pjoin_data (a b : String) : (pjoin a b).data = a.data ++ '/' :: b.data := rfl

theorem pjoin_ne_left (a b : String) : pjoin a b ≠ a := by
  intro h
  have hd : (pjoin a b).data = a.data := by rw [h]
  rw [pjoin_data] at hd
  have := congrArg List.length hd
  simp at this

theorem lookupEnt_append (p : String) (l₁ l₂ : List (String × Node)) :
    lookupEnt p (l₁ ++ l₂) =
      match lookupEnt p l₁ with
      | some n => some n
      | none => lookupEnt p l₂ := by
  induction l₁ with
  | nil => simp [lookupEnt]
  | cons e rest ih =>
    by_cases he : e.1 = p
    · simp [lookupEnt, he]
    · simp [lookupEnt, he, ih]

theorem lookup_mkdir (fs : FS) (d p : String) :
    (fs.mkdir d).lookup p =
      match fs.lookup p with
      | some n => some n
      | none => if d = p then some Node.dir else none := by
  show lookupEnt p (fs.entries ++ [(d, Node.dir)]) = _
  rw [lookupEnt_append]
  unfold FS.lookup
  rcases hl : lookupEnt p fs.entries with - | n <;> simp [hl, lookupEnt]

theorem lookup_writeEntries_self (p : String) (n : Node) (l : List (String × Node)) :
    lookupEnt p (writeEntries p n l) = some n := by
  induction l with
  | nil => simp [writeEntries, lookupEnt]
  | cons e rest ih =>
    by_cases he : e.1 = p
    · simp [writeEntries, he, lookupEnt]
    · simp [writeEntries, he, lookupEnt, ih]

theorem lookup_writeEntries_other (p q : String) (n : Node) (l : List (String × Node))
    (hq : q ≠ p) : lookupEnt q (writeEntries p n l) = lookupEnt q l := by
  have hpq : p ≠ q := fun h => hq h.symm
  induction l with
  | nil =>
    simp only [writeEntries, lookupEnt]
    rw [if_neg hpq]
  | cons e rest ih =>
    by_cases he : e.1 = p
    · simp only [writeEntries, if_pos he, lookupEnt]
      rw [if_neg hpq, if_neg (he ▸ hpq)]
    · simp only [writeEntries, if_neg he, lookupEnt]
      by_cases heq : e.1 = q
      · simp [heq]
      · simp [heq, ih]

theorem write_lookup_self (fs fs' : FS) (p : String) (t : Table)
    (h : fs.write p t = some fs') : fs'.lookup p = some (Node.file t) := by
  unfold FS.write at h
  rcases hl : fs.lookup p with - | n
  · rw [hl] at h
    simp only [Option.some.injEq] at h
    rw [← h]
    exact lookup_writeEntries_self p _ fs.entries
  · rw [hl] at h
    cases n with
    | dir => simp at h
    | file t' =>
      simp only [Option.some.injEq] at h
      rw [← h]
      exact lookup_writeEntries_self p _ fs.entries
    | malformed =>
      simp only [Option.some.injEq] at h
      rw [← h]
      exact lookup_writeEntries_self p _ fs.entries

theorem write_lookup_other (fs fs' : FS) (p q : String) (t : Table)
    (h : fs.write p t = some fs') (hq : q ≠ p) : fs'.lookup q = fs.lookup q := by
  unfold FS.write at h
  have : fs' = ⟨writeEntries p (Node.file t) fs.entries⟩ := by
    rcases hl : fs.lookup p with - | n
    · rw [hl] at h; simpa using h.symm
    · rw [hl] at h
      cases n with
      | dir => simp at h
      | file t' => simpa using h.symm
      | malformed => simpa using h.symm
  rw [this]
  exact lookup_writeEntries_other p q _ fs.entries hq

/-- Writing the content a file already holds changes nothing. -/
theorem writeEntries_noop (p : String) (n : Node) (l : List (String × Node))
    (h : lookupEnt p l = some n) : writeEntries p n l = l := by
  induction l with
  | nil => simp [lookupEnt] at h
  | cons e rest ih =>
    by_cases he : e.1 = p
    · simp only [lookupEnt, he, if_pos] at h
      simp only [writeEntries, he, if_pos]
      obtain ⟨e1, e2⟩ := e
      simp only at he
      simp only [Option.some.injEq] at h
      simp [he, h]
    · simp only [lookupEnt, he, if_neg, ite_false] at h
      simp [writeEntries, he, ih h]

theorem write_noop (fs : FS) (p : String) (t : Table)
    (h : fs.lookup p = some (Node.file t)) : fs.write p t = some fs := by
  unfold FS.write
  rw [h]
  have := writeEntries_noop p (Node.file t) fs.entries h
  simp [this]

theorem ensureDir_core (s : St) (d : String) :
    (ensureDir s d).created = s.created ∧ (ensureDir s d).nextGroupId = s.nextGroupId ∧
      (ensureDir s d).events = s.events := by
  unfold ensureDir
  split <;> simp

theorem ensureDir_lookup_other (s : St) (d p : String) (hp : p ≠ d) :
    (ensureDir s d).fs.lookup p = s.fs.lookup p := by
  unfold ensureDir
  split
  · rfl
  · rw [lookup_mkdir]
    rcases hl : s.fs.lookup p with - | n
    · simp only [hl]
      rw [if_neg (fun h : d = p => hp h.symm)]
    · simp only [hl]

theorem ensureDir_exists_self (s : St) (d : String) :
    (ensureDir s d).fs.existsP d = true := by
  unfold ensureDir
  split
  · next h => simpa using h
  · next h =>
    unfold FS.existsP
    rw [lookup_mkdir]
    rcases hl : s.fs.lookup d with - | n
    · simp [hl]
    · exact absurd (by unfold FS.existsP; rw [hl]; rfl) h

theorem ensureDir_fs_cases (s : St) (d : String) :
    (ensureDir s d).fs = s.fs ∨
      (s.fs.existsP d = false ∧ (ensureDir s d).fs = s.fs.mkdir d) := by
  unfold ensureDir
  split
  · exact Or.inl rfl
  · next h => exact Or.inr ⟨by simpa using h, rfl⟩

theorem ensureDir_noop (s : St) (d : String) (h : s.fs.existsP d = true) :
    ensureDir s d = s := by
  unfold ensureDir
  rw [if_pos h]

theorem ensureDir_idem (s : St) (d : String) :
    ensureDir (ensureDir s d) d = ensureDir s d :=
  ensureDir_noop (ensureDir s d) d (ensureDir_exists_self s d)

theorem ensureDir_exists_other (s : St) (d p : String) (hp : p ≠ d) :
    (ensureDir s d).fs.existsP p = s.fs.existsP p := by
  unfold FS.existsP
  rw [ensureDir_lookup_other s d p hp]

/-! ## C4 — artifact path mapping (`output_file_path`)

The spec describes the mapping as pure suffix removal (drop `".csv"`, add
the stage suffix) and asserts that the results path computed from the
input file name agrees with the results path computed from the file's own
runs-artifact name.  The code uses Python `str.rstrip`, which strips a
trailing *character set*, so both assertions fail whenever the base name
ends in a character of the strip set: for input `part.csv` the fetch
stage derives `pa_results.csv` from the runs artifact while the merge
stage looks for `part_results.csv` — the fetched artifact is never found
again.  The intent (constants named `..._FILE_SUFFIX`, the module
docstring's `{input_file_name}_results.csv` naming) makes this a slip in
the code, not in the spec. -/

/-- C4: evaluation of the code's path mapping at the failing input
`part.csv`: the runs artifact is `part_tgrp_runs.csv`, the results path
derived from the input name is `part_results.csv`, but the results path
derived from the runs-artifact name is `pa_results.csv` — `rstrip` also
consumed the trailing `rt` of `part`.  The two results paths the pipeline
uses for the same file disagree, contradicting the spec's pure
suffix-removal mapping. -/
theorem c4_rstrip_path_divergence :
    pathOf "out" "part.csv" Stage.runs = "out/runs/part_tgrp_runs.csv" ∧
    pathOf "out" "part.csv" Stage.results = "out/results/part_results.csv" ∧
    pathOf "out" (pathOf "out" "part.csv" Stage.runs) Stage.results =
      "out/results/pa_results.csv" ∧
    pathOf "out" (pathOf "out" "part.csv" Stage.runs) Stage.results ≠
      pathOf "out" "part.csv" Stage.results := by
  refine ⟨by decide, by decide, by decide, by decide⟩

/-! ## C5 — the File Catalog (`iter_files`) -/

/-- C5 counterexample: a directory whose only entry is named with the
run-state artifact suffix.  The claim says such files are excluded and
(the directory then holding zero eligible files) a `ValidationError` is
raised; the code performs no suffix-based exclusion and happily yields
the file. -/
theorem c5_counterexample :
    iter_files "d"
        ⟨[("d", Node.dir), ("d/x_tgrp_runs.csv", Node.file ⟨["A"], [["1"]]⟩)]⟩ =
      Res.ok ["d/x_tgrp_runs.csv"] ∧
    endsWithS "x_tgrp_runs.csv" RUN_STATE_FILE_SUFFIX = true := by
  refine ⟨by decide, by decide⟩

/-- C5 (amended): `iter_files` yields exactly the `.csv`-named entries of
the directory — run-state artifacts included, no suffix-based exclusion —
and raises `ValidationError` precisely when the directory does not exist
or contains no `.csv`-named entry. -/
theorem c5_iter_files_characterization (d : String) (fs : FS) :
    (fs.existsP d = false →
      iter_files d fs = Res.err (PyErr.validation "Directory does not exist.")) ∧
    (fs.existsP d = true → csvNames fs d = [] →
      iter_files d fs = Res.err (PyErr.validation "No CSV files found.")) ∧
    (fs.existsP d = true → csvNames fs d ≠ [] →
      iter_files d fs = Res.ok ((csvNames fs d).map (fun n => pjoin d n))) := by
  refine ⟨fun he => ?_, fun he hn => ?_, fun he hn => ?_⟩
  · unfold iter_files
    rw [if_pos (by simp [he])]
  · unfold iter_files
    rw [if_neg (by simp [he])]
    simp [hn]
  · unfold iter_files
    rw [if_neg (by simp [he])]
    simp only [List.isEmpty_iff]
    rw [if_neg hn]

/-- C5 witness: the characterization applied to a concrete directory with
one plain `.csv` file and one run-state-suffixed file: both are yielded. -/
theorem c5_witness :
    (FS.existsP ⟨[("d", Node.dir), ("d/a.csv", Node.file ⟨["A"], []⟩),
        ("d/a_tgrp_runs.csv", Node.file ⟨["A"], []⟩)]⟩ "d" = true) ∧
    iter_files "d"
        ⟨[("d", Node.dir), ("d/a.csv", Node.file ⟨["A"], []⟩),
          ("d/a_tgrp_runs.csv", Node.file ⟨["A"], []⟩)]⟩ =
      Res.ok ["d/a.csv", "d/a_tgrp_runs.csv"] := by
  refine ⟨by decide, ?_⟩
  have h := (c5_iter_files_characterization "d"
    ⟨[("d", Node.dir), ("d/a.csv", Node.file ⟨["A"], []⟩),
      ("d/a_tgrp_runs.csv", Node.file ⟨["A"], []⟩)]⟩).2.2 (by decide) (by decide)
  rw [h]
  decide

/-! ## C8 — `validate_file` -/

/-- C8: `validate_file` raises `ValidationError` iff the file is missing
or parses to more than 1000 rows; raises `NonRetryableError` iff the file
exists but does not parse; succeeds iff the file exists, parses and has
at most 1000 rows (so exactly 1000 rows pass). -/
theorem c8_validate_file_characterization (f : String) (fs : FS) :
    ((∃ m, validate_file f fs = Res.err (PyErr.validation m)) ↔
      fs.existsP f = false ∨ ∃ t, fs.parseCsv f = some t ∧ 1000 < t.rows.length) ∧
    ((∃ m, validate_file f fs = Res.err (PyErr.nonRetryable m)) ↔
      fs.existsP f = true ∧ fs.parseCsv f = none) ∧
    (validate_file f fs = Res.ok () ↔
      fs.existsP f = true ∧ ∃ t, fs.parseCsv f = some t ∧ t.rows.length ≤ 1000) := by
  unfold validate_file
  rcases he : fs.existsP f with - | -
  · simp [he]
  · rw [if_neg (by simp [he])]
    rcases hp : fs.parseCsv f with - | t
    · simp [he, hp]
    · simp only [hp]
      by_cases hl : t.rows.length > FILE_LENGTH_LIMIT
      · rw [if_pos hl]
        have hl' : 1000 < t.rows.length := hl
        refine ⟨?_, ?_, ?_⟩
        · constructor
          · intro _
            exact Or.inr ⟨t, rfl, hl'⟩
          · intro _
            exact ⟨"File has more than FILE_LENGTH_LIMIT rows.", rfl⟩
        · constructor
          · rintro ⟨m, hm⟩
            simp at hm
          · rintro ⟨-, h⟩
            simp at h
        · constructor
          · intro h
            simp at h
          · rintro ⟨-, t', ht', hle⟩
            rw [Option.some.injEq] at ht'
            subst ht'
            exfalso
            omega
      · rw [if_neg hl]
        have hl' : t.rows.length ≤ 1000 := Nat.le_of_not_lt hl
        refine ⟨?_, ?_, ?_⟩
        · constructor
          · rintro ⟨m, hm⟩
            simp at hm
          · rintro (h | ⟨t', ht', hgt⟩)
            · simp at h
            · rw [Option.some.injEq] at ht'
              subst ht'
              exfalso
              omega
        · constructor
          · rintro ⟨m, hm⟩
            simp at hm
          · rintro ⟨-, h⟩
            simp at h
        · constructor
          · intro _
            exact ⟨trivial, t, rfl, hl'⟩
          · intro _
            rfl

/-! ## Fetch stage: per-run classification and the pass short-circuit -/

theorem write_spec (fs : FS) (p : String) (t : Table)
    (h : fs.lookup p ≠ some Node.dir) :
    ∃ fs', fs.write p t = some fs' ∧ fs'.lookup p = some (Node.file t) ∧
      ∀ q, q ≠ p → fs'.lookup q = fs.lookup q := by
  have hw : fs.write p t = some ⟨writeEntries p (Node.file t) fs.entries⟩ := by
    unfold FS.write
    rcases hl : fs.lookup p with - | n
    · rfl
    · cases n with
      | dir => exact absurd hl h
      | file t' => rfl
      | malformed => rfl
  refine ⟨_, hw, ?_, ?_⟩
  · exact lookup_writeEntries_self p (Node.file t) fs.entries
  · intro q hq
    exact lookup_writeEntries_other p q (Node.file t) fs.entries hq

theorem collectResults_spec (o : Oracle) (run_file : String) (header : List String)
    (tgid : String) :
    ∀ (rows : List (List String)) (s : St),
      (∀ r ∈ rows, ∃ rid, cellOf header r runIdCol = some rid ∧
        (∀ content, o.runResult rid = Except.ok (RunOutput.json content) →
          (cellOf header r mergeIdCol).isSome = true)) →
      ∃ evs, collectResults o run_file header tgid rows s =
          (Res.ok (rows.filterMap (keptRow o tgid header)), { s with events := evs }) ∧
        s.events <+: evs ∧
        ∀ r ∈ rows, ∀ rid, cellOf header r runIdCol = some rid →
          ((∃ em, o.runResult rid = Except.error em) →
            Event.warnRunFailed rid run_file ∈ evs) ∧
          (o.runResult rid = Except.ok RunOutput.nonJson →
            Event.warnNotJson rid run_file ∈ evs) := by
  intro rows
  induction rows with
  | nil =>
    intro s _
    exact ⟨s.events, rfl, List.prefix_rfl, fun r hr => absurd hr (List.not_mem_nil r)⟩
  | cons row rest ih =>
    intro s h
    obtain ⟨rid, hrid, hmk⟩ := h row (List.mem_cons_self row rest)
    have hrest := fun r hr => h r (List.mem_cons_of_mem row hr)
    rcases hro : o.runResult rid with em | out
    · -- result fetch raised: the row is dropped with a warning
      obtain ⟨evs, hc, hpre, hws⟩ :=
        ih ((s.logEv (Event.resultFetch rid)).logEv
          (Event.warnRunFailed rid run_file)) hrest
      have hk : keptRow o tgid header row = none := by
        simp only [keptRow, hrid, hro]
      refine ⟨evs, ?_, ?_, ?_⟩
      · simp only [collectResults, hrid, hro, hc, List.filterMap_cons, hk]
        rfl
      · refine List.IsPrefix.trans ?_ hpre
        show s.events <+:
          (s.events ++ [Event.resultFetch rid]) ++ [Event.warnRunFailed rid run_file]
        rw [List.append_assoc]
        exact List.prefix_append _ _
      · intro r hr rid' hrid'
        rcases List.mem_cons.mp hr with rfl | hr'
        · have heq : rid = rid' := by
            rw [hrid] at hrid'
            exact (Option.some.injEq _ _).mp hrid'
          subst heq
          constructor
          · intro _
            exact hpre.subset (by simp [St.logEv])
          · intro hnj
            rw [hro] at hnj
            exact Except.noConfusion hnj
        · exact hws r hr' rid' hrid'
    · cases out with
      | nonJson =>
        obtain ⟨evs, hc, hpre, hws⟩ :=
          ih ((s.logEv (Event.resultFetch rid)).logEv
            (Event.warnNotJson rid run_file)) hrest
        have hk : keptRow o tgid header row = none := by
          simp only [keptRow, hrid, hro]
        refine ⟨evs, ?_, ?_, ?_⟩
        · simp only [collectResults, hrid, hro, hc, List.filterMap_cons, hk]
          rfl
        · refine List.IsPrefix.trans ?_ hpre
          show s.events <+:
            (s.events ++ [Event.resultFetch rid]) ++ [Event.warnNotJson rid run_file]
          rw [List.append_assoc]
          exact List.prefix_append _ _
        · intro r hr rid' hrid'
          rcases List.mem_cons.mp hr with rfl | hr'
          · have heq : rid = rid' := by
              rw [hrid] at hrid'
              exact (Option.some.injEq _ _).mp hrid'
            subst heq
            constructor
            · rintro ⟨em, hem⟩
              rw [hro] at hem
              exact Except.noConfusion hem
            · intro _
              exact hpre.subset (by simp [St.logEv])
          · exact hws r hr' rid' hrid'
      | json content =>
        obtain ⟨mk, hmkv⟩ := Option.isSome_iff_exists.mp (hmk content hro)
        obtain ⟨evs, hc, hpre, hws⟩ := ih (s.logEv (Event.resultFetch rid)) hrest
        have hk : keptRow o tgid header row =
            some ([mk, rid, tgid] ++ outputCells content) := by
          simp only [keptRow, hrid, hro, hmkv]
        refine ⟨evs, ?_, ?_, ?_⟩
        · simp only [collectResults, hrid, hro, hmkv, hc, List.filterMap_cons, hk]
          rfl
        · exact List.IsPrefix.trans (List.prefix_append _ _) hpre
        · intro r hr rid' hrid'
          rcases List.mem_cons.mp hr with rfl | hr'
          · have heq : rid = rid' := by
              rw [hrid] at hrid'
              exact (Option.some.injEq _ _).mp hrid'
            subst heq
            constructor
            · rintro ⟨em, hem⟩
              rw [hro] at hem
              exact Except.noConfusion hem
            · intro hnj
              rw [hro] at hnj
              simp at hnj
          · exact hws r hr' rid' hrid'

/-- C7: for a run-state file whose batch is no longer active, the fetch
stage classifies each recorded run individually: rows whose result fetch
raises or whose output is not the structured-JSON shape are dropped with
a warning and no exception, every other row is written to the results
artifact. -/
theorem c7_fetch_per_run_classification (o : Oracle) (od run_file : String)
    (s : St) (t : Table) (ci : Nat) (row0 : List String) (tgid : String)
    (h1 : s.fs.parseCsv run_file = some t)
    (h2 : colIdx t.header taskGroupIdCol = some ci)
    (h3 : t.rows.head? = some row0)
    (h4 : row0.get? ci = some tgid)
    (h5 : o.isActive tgid = Except.ok false)
    (h6 : ∀ r ∈ t.rows, ∃ rid, cellOf t.header r runIdCol = some rid ∧
      (∀ content, o.runResult rid = Except.ok (RunOutput.json content) →
        (cellOf t.header r mergeIdCol).isSome = true))
    (h7 : s.fs.lookup (pathOf od run_file Stage.results) ≠ some Node.dir) :
    ∃ s', fetch_one_raw o od run_file s = (Res.ok true, s') ∧
      s'.fs.lookup (pathOf od run_file Stage.results) =
        some (Node.file (mkTable resultsHeader
          (t.rows.filterMap (keptRow o tgid t.header)))) ∧
      (∀ p, p ≠ pathOf od run_file Stage.results → p ≠ pjoin od "results" →
        s'.fs.lookup p = s.fs.lookup p) ∧
      ∀ r ∈ t.rows, ∀ rid, cellOf t.header r runIdCol = some rid →
        ((∃ em, o.runResult rid = Except.error em) →
          Event.warnRunFailed rid run_file ∈ s'.events) ∧
        (o.runResult rid = Except.ok RunOutput.nonJson →
          Event.warnNotJson rid run_file ∈ s'.events) := by
  obtain ⟨evs, hc, hpre, hws⟩ :=
    collectResults_spec o run_file t.header tgid t.rows
      (s.logEv (Event.statusQuery tgid)) h6
  have hσfs : ({ s.logEv (Event.statusQuery tgid) with events := evs } : St).fs = s.fs := rfl
  have hdirne : pathOf od run_file Stage.results ≠ pjoin od "results" := by
    unfold pathOf
    exact pjoin_ne_left _ _
  have hlock :
      (ensureDir { s.logEv (Event.statusQuery tgid) with events := evs }
        (pjoin od "results")).fs.lookup (pathOf od run_file Stage.results) =
        s.fs.lookup (pathOf od run_file Stage.results) := by
    rw [ensureDir_lookup_other _ _ _ hdirne, hσfs]
  obtain ⟨fs', hw, hwl, hwo⟩ :=
    write_spec (ensureDir { s.logEv (Event.statusQuery tgid) with events := evs }
        (pjoin od "results")).fs
      (pathOf od run_file Stage.results)
      (mkTable resultsHeader (t.rows.filterMap (keptRow o tgid t.header)))
      (by rw [hlock]; exact h7)
  refine ⟨{ ensureDir { s.logEv (Event.statusQuery tgid) with events := evs }
      (pjoin od "results") with fs := fs' }, ?_, ?_, ?_, ?_⟩
  · unfold fetch_one_raw
    simp only [h1, h2, h3, h4, h5, hc]
    unfold output_file_path
    simp only [stageStr, hw]
  · exact hwl
  · intro p hp hpd
    show fs'.lookup p = s.fs.lookup p
    rw [hwo p hp, ensureDir_lookup_other _ _ _ hpd, hσfs]
  · have hev : ({ ensureDir { s.logEv (Event.statusQuery tgid) with events := evs }
        (pjoin od "results") with fs := fs' } : St).events = evs := by
      show (ensureDir { s.logEv (Event.statusQuery tgid) with events := evs }
        (pjoin od "results")).events = evs
      rw [(ensureDir_core _ _).2.2]
    rw [hev]
    intro r hr rid hrid
    exact hws r hr rid hrid

/-- C7 witness: a finished batch of three runs where run 2's result fetch
raises: the results artifact holds exactly the two rows for runs 1 and 3,
and a warning was logged for run 2. -/
theorem c7_witness :
    ∃ s', fetch_one_raw
        { runIdsFor := fun _ _ => Except.error "unused"
          isActive := fun _ => Except.ok false
          runResult := fun rid =>
            if rid = "r2" then Except.error "run failed"
            else Except.ok (RunOutput.json [("match_1", "x")]) }
        "out" "out/runs/b_tgrp_runs.csv"
        ⟨⟨[("out", Node.dir), ("out/runs", Node.dir), ("out/results", Node.dir),
           ("out/runs/b_tgrp_runs.csv", Node.file
             ⟨["ManufacturerPartNumber", "RunId", "TaskGroupID"],
              [["A", "r1", "tg"], ["B", "r2", "tg"], ["C", "r3", "tg"]]⟩)]⟩,
         0, [], []⟩ = (Res.ok true, s') ∧
      s'.fs.lookup "out/results/b_results.csv" =
        some (Node.file
          ⟨["ManufacturerPartNumber", "RunId", "TaskGroupID",
            "match_1", "match_2", "match_3", "match_4", "match_5"],
           [["A", "r1", "tg", "x", "", "", "", ""],
            ["C", "r3", "tg", "x", "", "", "", ""]]⟩) ∧
      Event.warnRunFailed "r2" "out/runs/b_tgrp_runs.csv" ∈ s'.events := by
  obtain ⟨s', hrun, hlook, -, hwarn⟩ :=
    c7_fetch_per_run_classification
      { runIdsFor := fun _ _ => Except.error "unused"
        isActive := fun _ => Except.ok false
        runResult := fun rid =>
          if rid = "r2" then Except.error "run failed"
          else Except.ok (RunOutput.json [("match_1", "x")]) }
      "out" "out/runs/b_tgrp_runs.csv"
      ⟨⟨[("out", Node.dir), ("out/runs", Node.dir), ("out/results", Node.dir),
         ("out/runs/b_tgrp_runs.csv", Node.file
           ⟨["ManufacturerPartNumber", "RunId", "TaskGroupID"],
            [["A", "r1", "tg"], ["B", "r2", "tg"], ["C", "r3", "tg"]]⟩)]⟩,
       0, [], []⟩
      ⟨["ManufacturerPartNumber", "RunId", "TaskGroupID"],
       [["A", "r1", "tg"], ["B", "r2", "tg"], ["C", "r3", "tg"]]⟩
      2 ["A", "r1", "tg"] "tg"
      (by decide) (by decide) (by decide) (by decide) (by decide)
      (by
        intro r hr
        simp only [List.mem_cons, List.not_mem_nil, or_false] at hr
        rcases hr with rfl | rfl | rfl
        · exact ⟨"r1", by decide, fun content _ => by decide⟩
        · exact ⟨"r2", by decide, fun content _ => by decide⟩
        · exact ⟨"r3", by decide, fun content _ => by decide⟩)
      (by decide)
  refine ⟨s', by exact hrun, ?_, ?_⟩
  · rw [show ("out/results/b_results.csv" : String) =
      pathOf "out" "out/runs/b_tgrp_runs.csv" Stage.results from by decide]
    rw [hlook]
    congr 1
  · exact (hwarn ["B", "r2", "tg"] (by decide) "r2" (by decide)).1
      ⟨"run failed", by decide⟩

theorem fetchPass_append (o : Oracle) (od : String) :
    ∀ (pre rest : List String) (s s1 : St),
      fetchPass o od pre s = (Res.ok true, s1) →
      fetchPass o od (pre ++ rest) s = fetchPass o od rest s1 := by
  intro pre
  induction pre with
  | nil =>
    intro rest s s1 h
    simp only [fetchPass, Prod.mk.injEq, Res.ok.injEq] at h
    rw [List.nil_append, h.2]
  | cons f pre ih =>
    intro rest s s1 h
    rw [List.cons_append]
    simp only [fetchPass] at h ⊢
    rcases haf : already_fetched od f s with ⟨fetched, s2⟩
    rw [haf] at h
    cases fetched with
    | true =>
      simp only [if_pos rfl] at h ⊢
      exact ih rest _ s1 h
    | false =>
      simp only [Bool.false_eq_true, if_neg] at h ⊢
      rcases hfo : fetch_one o od f s2 with ⟨r, s3⟩
      rw [hfo] at h
      cases r with
      | ok b =>
        cases b with
        | true => exact ih rest s3 s1 h
        | false => exact absurd h (by simp)
      | err e => exact absurd h (by simp)

/-- C6: a fetch pass scans in listing order; after a prefix of
already-handled files, the first not-yet-fetched file ends the pass the
moment its fetch does not complete, in either of the two forms: (1) the
file's batch is still active — the final state records only the status
query and the skip-log for that file, so no individual run result was
fetched for it and no status query was issued for any later file in the
listing; (2) the file's fetch raises — the exception is converted into a
logged error and the pass ends in the state reached while processing that
file alone, again with no later file in the listing examined. -/
theorem c6_fetch_pass_short_circuit (o : Oracle) (od : String)
    (pre post : List String) (y : String) (s s1 : St)
    (hpre : fetchPass o od pre s = (Res.ok true, s1))
    (hdir : s1.fs.existsP (pjoin od "results") = true)
    (hnf : s1.fs.existsP (pathOf od y Stage.results) = false) :
    (∀ (t : Table) (ci : Nat) (row0 : List String) (tgid : String),
      s1.fs.parseCsv y = some t →
      colIdx t.header taskGroupIdCol = some ci →
      t.rows.head? = some row0 →
      row0.get? ci = some tgid →
      o.isActive tgid = Except.ok true →
      fetchPass o od (pre ++ y :: post) s =
        (Res.ok false,
         (s1.logEv (Event.statusQuery tgid)).logEv (Event.infoStillActive y))) ∧
    (∀ (e : PyErr) (sy : St),
      fetch_one_raw o od y s1 = (Res.err e, sy) →
      fetchPass o od (pre ++ y :: post) s =
        (Res.ok false, sy.logEv (Event.errorLogged y))) := by
  have haf : already_fetched od y s1 = (false, s1) := by
    have hsr : stageStr Stage.results = "results" := rfl
    unfold already_fetched output_file_path
    rw [hsr, ensureDir_noop s1 _ hdir, ← hnf]
  constructor
  · intro t ci row0 tgid h1 h2 h3 h4 h5
    rw [fetchPass_append o od pre (y :: post) s s1 hpre]
    have hraw : fetch_one_raw o od y s1 =
        (Res.ok false,
         (s1.logEv (Event.statusQuery tgid)).logEv (Event.infoStillActive y)) := by
      unfold fetch_one_raw
      simp only [h1, h2, h3, h4, h5]
    have hfo : fetch_one o od y s1 =
        (Res.ok false,
         (s1.logEv (Event.statusQuery tgid)).logEv (Event.infoStillActive y)) := by
      unfold fetch_one
      rw [hraw]
    simp only [fetchPass, haf, Bool.false_eq_true, if_neg, hfo]
    simp
  · intro e sy hraw
    rw [fetchPass_append o od pre (y :: post) s s1 hpre]
    have hfo : fetch_one o od y s1 =
        (Res.ok false, sy.logEv (Event.errorLogged y)) := by
      unfold fetch_one
      rw [hraw]
    simp only [fetchPass, haf, Bool.false_eq_true, if_neg, hfo]
    simp

/-- C6 witness, both stopping forms on three run-state files with file 1
already fetched: (1) file 2's batch is still active — the pass stops after
file 2's status query and file 3 is never examined; (2) file 2's run-state
file is unreadable, so its fetch raises — the pass logs the error and
stops, and file 3 is never examined. -/
theorem c6_witness :
    fetchPass
      { runIdsFor := fun _ _ => Except.error "unused"
        isActive := fun _ => Except.ok true
        runResult := fun _ => Except.error "unused" }
      "out"
      ["out/runs/a_tgrp_runs.csv", "out/runs/b_tgrp_runs.csv",
       "out/runs/c_tgrp_runs.csv"]
      ⟨⟨[("out", Node.dir), ("out/runs", Node.dir), ("out/results", Node.dir),
         ("out/runs/a_tgrp_runs.csv", Node.file
           ⟨["ManufacturerPartNumber", "RunId", "TaskGroupID"], [["A", "r1", "tgA"]]⟩),
         ("out/runs/b_tgrp_runs.csv", Node.file
           ⟨["ManufacturerPartNumber", "RunId", "TaskGroupID"], [["B", "r2", "tgB"]]⟩),
         ("out/runs/c_tgrp_runs.csv", Node.file
           ⟨["ManufacturerPartNumber", "RunId", "TaskGroupID"], [["C", "r3", "tgC"]]⟩),
         ("out/results/a_results.csv", Node.file ⟨["ManufacturerPartNumber"], [["A"]]⟩)]⟩,
       0, [], []⟩ =
      (Res.ok false,
       ⟨⟨[("out", Node.dir), ("out/runs", Node.dir), ("out/results", Node.dir),
          ("out/runs/a_tgrp_runs.csv", Node.file
            ⟨["ManufacturerPartNumber", "RunId", "TaskGroupID"], [["A", "r1", "tgA"]]⟩),
          ("out/runs/b_tgrp_runs.csv", Node.file
            ⟨["ManufacturerPartNumber", "RunId", "TaskGroupID"], [["B", "r2", "tgB"]]⟩),
          ("out/runs/c_tgrp_runs.csv", Node.file
            ⟨["ManufacturerPartNumber", "RunId", "TaskGroupID"], [["C", "r3", "tgC"]]⟩),
          ("out/results/a_results.csv", Node.file ⟨["ManufacturerPartNumber"], [["A"]]⟩)]⟩,
        0, [],
        [Event.infoSkipFetched "out/runs/a_tgrp_runs.csv",
         Event.statusQuery "tgB",
         Event.infoStillActive "out/runs/b_tgrp_runs.csv"]⟩) ∧
    fetchPass
      { runIdsFor := fun _ _ => Except.error "unused"
        isActive := fun _ => Except.ok true
        runResult := fun _ => Except.error "unused" }
      "out"
      ["out/runs/a_tgrp_runs.csv", "out/runs/b_tgrp_runs.csv",
       "out/runs/c_tgrp_runs.csv"]
      ⟨⟨[("out", Node.dir), ("out/runs", Node.dir), ("out/results", Node.dir),
         ("out/runs/a_tgrp_runs.csv", Node.file
           ⟨["ManufacturerPartNumber", "RunId", "TaskGroupID"], [["A", "r1", "tgA"]]⟩),
         ("out/runs/b_tgrp_runs.csv", Node.malformed),
         ("out/runs/c_tgrp_runs.csv", Node.file
           ⟨["ManufacturerPartNumber", "RunId", "TaskGroupID"], [["C", "r3", "tgC"]]⟩),
         ("out/results/a_results.csv", Node.file ⟨["ManufacturerPartNumber"], [["A"]]⟩)]⟩,
       0, [], []⟩ =
      (Res.ok false,
       ⟨⟨[("out", Node.dir), ("out/runs", Node.dir), ("out/results", Node.dir),
          ("out/runs/a_tgrp_runs.csv", Node.file
            ⟨["ManufacturerPartNumber", "RunId", "TaskGroupID"], [["A", "r1", "tgA"]]⟩),
          ("out/runs/b_tgrp_runs.csv", Node.malformed),
          ("out/runs/c_tgrp_runs.csv", Node.file
            ⟨["ManufacturerPartNumber", "RunId", "TaskGroupID"], [["C", "r3", "tgC"]]⟩),
          ("out/results/a_results.csv", Node.file ⟨["ManufacturerPartNumber"], [["A"]]⟩)]⟩,
        0, [],
        [Event.infoSkipFetched "out/runs/a_tgrp_runs.csv",
         Event.errorLogged "out/runs/b_tgrp_runs.csv"]⟩) := by
  constructor
  · exact (c6_fetch_pass_short_circuit
      { runIdsFor := fun _ _ => Except.error "unused"
        isActive := fun _ => Except.ok true
        runResult := fun _ => Except.error "unused" }
      "out"
      ["out/runs/a_tgrp_runs.csv"] ["out/runs/c_tgrp_runs.csv"]
      "out/runs/b_tgrp_runs.csv"
      ⟨⟨[("out", Node.dir), ("out/runs", Node.dir), ("out/results", Node.dir),
         ("out/runs/a_tgrp_runs.csv", Node.file
           ⟨["ManufacturerPartNumber", "RunId", "TaskGroupID"], [["A", "r1", "tgA"]]⟩),
         ("out/runs/b_tgrp_runs.csv", Node.file
           ⟨["ManufacturerPartNumber", "RunId", "TaskGroupID"], [["B", "r2", "tgB"]]⟩),
         ("out/runs/c_tgrp_runs.csv", Node.file
           ⟨["ManufacturerPartNumber", "RunId", "TaskGroupID"], [["C", "r3", "tgC"]]⟩),
         ("out/results/a_results.csv", Node.file ⟨["ManufacturerPartNumber"], [["A"]]⟩)]⟩,
       0, [], []⟩
      ⟨⟨[("out", Node.dir), ("out/runs", Node.dir), ("out/results", Node.dir),
         ("out/runs/a_tgrp_runs.csv", Node.file
           ⟨["ManufacturerPartNumber", "RunId", "TaskGroupID"], [["A", "r1", "tgA"]]⟩),
         ("out/runs/b_tgrp_runs.csv", Node.file
           ⟨["ManufacturerPartNumber", "RunId", "TaskGroupID"], [["B", "r2", "tgB"]]⟩),
         ("out/runs/c_tgrp_runs.csv", Node.file
           ⟨["ManufacturerPartNumber", "RunId", "TaskGroupID"], [["C", "r3", "tgC"]]⟩),
         ("out/results/a_results.csv", Node.file ⟨["ManufacturerPartNumber"], [["A"]]⟩)]⟩,
       0, [], [Event.infoSkipFetched "out/runs/a_tgrp_runs.csv"]⟩
      (by decide) (by decide) (by decide)).1
      ⟨["ManufacturerPartNumber", "RunId", "TaskGroupID"], [["B", "r2", "tgB"]]⟩
      2 ["B", "r2", "tgB"] "tgB"
      (by decide) (by decide) (by decide) (by decide) (by decide)
  · exact (c6_fetch_pass_short_circuit
      { runIdsFor := fun _ _ => Except.error "unused"
        isActive := fun _ => Except.ok true
        runResult := fun _ => Except.error "unused" }
      "out"
      ["out/runs/a_tgrp_runs.csv"] ["out/runs/c_tgrp_runs.csv"]
      "out/runs/b_tgrp_runs.csv"
      ⟨⟨[("out", Node.dir), ("out/runs", Node.dir), ("out/results", Node.dir),
         ("out/runs/a_tgrp_runs.csv", Node.file
           ⟨["ManufacturerPartNumber", "RunId", "TaskGroupID"], [["A", "r1", "tgA"]]⟩),
         ("out/runs/b_tgrp_runs.csv", Node.malformed),
         ("out/runs/c_tgrp_runs.csv", Node.file
           ⟨["ManufacturerPartNumber", "RunId", "TaskGroupID"], [["C", "r3", "tgC"]]⟩),
         ("out/results/a_results.csv", Node.file ⟨["ManufacturerPartNumber"], [["A"]]⟩)]⟩,
       0, [], []⟩
      ⟨⟨[("out", Node.dir), ("out/runs", Node.dir), ("out/results", Node.dir),
         ("out/runs/a_tgrp_runs.csv", Node.file
           ⟨["ManufacturerPartNumber", "RunId", "TaskGroupID"], [["A", "r1", "tgA"]]⟩),
         ("out/runs/b_tgrp_runs.csv", Node.malformed),
         ("out/runs/c_tgrp_runs.csv", Node.file
           ⟨["ManufacturerPartNumber", "RunId", "TaskGroupID"], [["C", "r3", "tgC"]]⟩),
         ("out/results/a_results.csv", Node.file ⟨["ManufacturerPartNumber"], [["A"]]⟩)]⟩,
       0, [], [Event.infoSkipFetched "out/runs/a_tgrp_runs.csv"]⟩
      (by decide) (by decide) (by decide)).2
      (PyErr.generic "load_csv failed")
      ⟨⟨[("out", Node.dir), ("out/runs", Node.dir), ("out/results", Node.dir),
         ("out/runs/a_tgrp_runs.csv", Node.file
           ⟨["ManufacturerPartNumber", "RunId", "TaskGroupID"], [["A", "r1", "tgA"]]⟩),
         ("out/runs/b_tgrp_runs.csv", Node.malformed),
         ("out/runs/c_tgrp_runs.csv", Node.file
           ⟨["ManufacturerPartNumber", "RunId", "TaskGroupID"], [["C", "r3", "tgC"]]⟩),
         ("out/results/a_results.csv", Node.file ⟨["ManufacturerPartNumber"], [["A"]]⟩)]⟩,
       0, [], [Event.infoSkipFetched "out/runs/a_tgrp_runs.csv"]⟩
      (by decide)


/-! ## C3 — `already_enqueued` / `already_fetched` -/

/-- C3 counterexample: on an output root whose `runs` subdirectory does
not yet exist, `already_enqueued` *creates* it (the guarded `os.makedirs`
inside `output_file_path`), so the filesystem is not identical before and
after the call. -/
theorem c3_counterexample :
    ((already_enqueued "out" "x.csv"
        ⟨⟨[("out", Node.dir)]⟩, 0, [], []⟩).2).fs ≠ (⟨[("out", Node.dir)]⟩ : FS) := by
  decide

/-- C3 (amended): the two checks are read-only on files and repeatable —
the boolean is stable, a second call changes nothing at all, and nothing
outside the stage subdirectory path is touched — but each call may, as its
single side effect, lazily create the stage subdirectory when it is
missing. -/
theorem c3_existence_checks_amended (od f g : String) (s t : St) (b c : Bool)
    (s' t' : St)
    (h1 : already_enqueued od f s = (b, s'))
    (h2 : already_fetched od g t = (c, t')) :
    (already_enqueued od f s' = (b, s') ∧
     s'.created = s.created ∧ s'.nextGroupId = s.nextGroupId ∧
     s'.events = s.events ∧
     (∀ p, p ≠ pjoin od "runs" → s'.fs.lookup p = s.fs.lookup p) ∧
     (s'.fs = s.fs ∨ (s.fs.existsP (pjoin od "runs") = false ∧
        s'.fs = s.fs.mkdir (pjoin od "runs")))) ∧
    (already_fetched od g t' = (c, t') ∧
     t'.created = t.created ∧ t'.nextGroupId = t.nextGroupId ∧
     t'.events = t.events ∧
     (∀ p, p ≠ pjoin od "results" → t'.fs.lookup p = t.fs.lookup p) ∧
     (t'.fs = t.fs ∨ (t.fs.existsP (pjoin od "results") = false ∧
        t'.fs = t.fs.mkdir (pjoin od "results")))) := by
  unfold already_enqueued output_file_path at h1
  unfold already_fetched output_file_path at h2
  simp only [Prod.mk.injEq] at h1 h2
  obtain ⟨hb, hs⟩ := h1
  obtain ⟨hc, ht⟩ := h2
  constructor
  · subst hs
    refine ⟨?_, (ensureDir_core s _).1, (ensureDir_core s _).2.1,
      (ensureDir_core s _).2.2, fun p hp => ensureDir_lookup_other s _ p hp, ?_⟩
    · unfold already_enqueued output_file_path
      rw [ensureDir_idem, ← hb]
    · exact ensureDir_fs_cases s _
  · subst ht
    refine ⟨?_, (ensureDir_core t _).1, (ensureDir_core t _).2.1,
      (ensureDir_core t _).2.2, fun p hp => ensureDir_lookup_other t _ p hp, ?_⟩
    · unfold already_fetched output_file_path
      rw [ensureDir_idem, ← hc]
    · exact ensureDir_fs_cases t _

/-- C3 witness: a concrete first call (which creates `out/runs`), then
its guaranteed-stable repeat. -/
theorem c3_witness :
    already_enqueued "out" "x.csv" ⟨⟨[("out", Node.dir)]⟩, 0, [], []⟩ =
      (false, ⟨⟨[("out", Node.dir), ("out/runs", Node.dir)]⟩, 0, [], []⟩) ∧
    already_enqueued "out" "x.csv"
        ⟨⟨[("out", Node.dir), ("out/runs", Node.dir)]⟩, 0, [], []⟩ =
      (false, ⟨⟨[("out", Node.dir), ("out/runs", Node.dir)]⟩, 0, [], []⟩) := by
  refine ⟨by decide, ?_⟩
  exact (c3_existence_checks_amended "out" "x.csv" "y.csv"
    ⟨⟨[("out", Node.dir)]⟩, 0, [], []⟩ ⟨⟨[("out", Node.dir)]⟩, 0, [], []⟩
    false false
    ⟨⟨[("out", Node.dir), ("out/runs", Node.dir)]⟩, 0, [], []⟩
    ⟨⟨[("out", Node.dir), ("out/results", Node.dir)]⟩, 0, [], []⟩
    (by decide) (by decide)).1.1

/-! ## C9 counterexample — merge with zero fetched files -/

/-- C9 counterexample: an input directory with one eligible file whose
results have not been fetched.  The claim says the Merge Stage completes
without raising even when no file has been fetched; in the code the
skipped file leaves `df_list` empty and `pd.concat([])` raises
`ValueError`. -/
theorem c9_counterexample :
    (merge_results "in" "out"
        ⟨⟨[("in", Node.dir), ("in/a.csv", Node.file ⟨["A"], [["1"]]⟩),
           ("out", Node.dir)]⟩, 0, [], []⟩).1 =
      Res.err (PyErr.generic "ValueError: No objects to concatenate") ∧
    iter_files "in"
        (⟨[("in", Node.dir), ("in/a.csv", Node.file ⟨["A"], [["1"]]⟩),
           ("out", Node.dir)]⟩ : FS) = Res.ok ["in/a.csv"] := by
  refine ⟨by decide, by decide⟩

/-! ## Submission stage: `create_run_payloads` and the state map -/

theorem buildPayload_key (header row : List String) (src proc k : String)
    (v : RunPayload) (h : buildPayload header row src proc = Res.ok (k, v)) :
    k = (cellOf header row mergeIdCol).getD "" := by
  unfold buildPayload at h
  rcases hc : COMPETITOR_COLS.mapM (fun c => cellOf header row c) with - | doms
  · simp only [hc] at h
    exact Res.noConfusion h
  · simp only [hc] at h
    rcases hp : PRODUCT_COLS.mapM (fun c => cellOf header row c) with - | vals
    · simp only [hp] at h
      exact Res.noConfusion h
    · simp only [hp] at h
      rcases ht : build_task_spec doms src with ts | e
      · simp only [ht, Res.ok.injEq, Prod.mk.injEq] at h
        exact h.1.symm
      · simp only [ht] at h
        exact Res.noConfusion h

theorem createRunPayloadsGo_inv (header : List String) (src proc : String) :
    ∀ (rows : List (List String)) (acc m : List (String × RunPayload)),
      createRunPayloadsGo header src proc rows acc = Res.ok m →
      ∃ ps, List.Forall₂ (fun r p => buildPayload header r src proc = Res.ok p) rows ps ∧
        m = ps.foldl (fun a p => dictInsert a p.1 p.2) acc := by
  intro rows
  induction rows with
  | nil =>
    intro acc m h
    simp only [createRunPayloadsGo, Res.ok.injEq] at h
    exact ⟨[], List.Forall₂.nil, h.symm⟩
  | cons r rest ih =>
    intro acc m h
    simp only [createRunPayloadsGo] at h
    rcases hb : buildPayload header r src proc with ⟨k, v⟩ | e
    · simp only [hb] at h
      obtain ⟨ps, hf, hm⟩ := ih (dictInsert acc k v) m h
      exact ⟨(k, v) :: ps, List.Forall₂.cons hb hf, by simpa using hm⟩
    · simp only [hb] at h
      exact Res.noConfusion h

theorem any_key_eq (m : List (String × RunPayload)) (k : String) :
    m.any (fun p => p.1 = k) = true ↔ k ∈ m.map Prod.fst := by
  rw [List.any_eq_true]
  constructor
  · rintro ⟨p, hp, he⟩
    exact List.mem_map.mpr ⟨p, hp, of_decide_eq_true he⟩
  · intro hk
    obtain ⟨p, hp, he⟩ := List.mem_map.mp hk
    exact ⟨p, hp, decide_eq_true he⟩

theorem dictInsert_not_mem (m : List (String × RunPayload)) (k : String)
    (v : RunPayload) (h : k ∉ m.map Prod.fst) :
    dictInsert m k v = m ++ [(k, v)] := by
  unfold dictInsert
  rw [if_neg (fun hc => h ((any_key_eq m k).mp hc))]

theorem dictInsert_keys (m : List (String × RunPayload)) (k : String) (v : RunPayload) :
    (dictInsert m k v).map Prod.fst = insKey (m.map Prod.fst) k := by
  unfold dictInsert insKey
  by_cases hm : k ∈ m.map Prod.fst
  · rw [if_pos ((any_key_eq m k).mpr hm), if_pos hm, List.map_map]
    apply List.map_congr_left
    intro p _
    by_cases hpk : p.1 = k
    · simp [hpk]
    · simp [hpk]
  · rw [if_neg (fun hc => hm ((any_key_eq m k).mp hc)), if_neg hm]
    simp

theorem foldl_dictInsert_keys (ps : List (String × RunPayload)) :
    ∀ acc, (ps.foldl (fun a p => dictInsert a p.1 p.2) acc).map Prod.fst =
      (ps.map Prod.fst).foldl insKey (acc.map Prod.fst) := by
  induction ps with
  | nil => intro acc; rfl
  | cons p ps ih =>
    intro acc
    rw [List.foldl_cons, List.map_cons, List.foldl_cons, ih, dictInsert_keys]

theorem foldl_dictInsert_of_nodup (ps : List (String × RunPayload)) :
    ∀ acc, (ps.map Prod.fst).Nodup →
      (∀ x ∈ ps.map Prod.fst, x ∉ acc.map Prod.fst) →
      ps.foldl (fun a p => dictInsert a p.1 p.2) acc = acc ++ ps := by
  induction ps with
  | nil =>
    intro acc _ _
    simp
  | cons p ps ih =>
    intro acc hnd hdisj
    have h1 : p.1 ∉ ps.map Prod.fst :=
      (List.nodup_cons.mp (by simpa using hnd)).1
    have h2 : (ps.map Prod.fst).Nodup :=
      (List.nodup_cons.mp (by simpa using hnd)).2
    rw [List.foldl_cons, dictInsert_not_mem acc p.1 p.2 (hdisj p.1 (by simp)),
      ih (acc ++ [(p.1, p.2)]) h2 ?_]
    · simp
    · intro x hx
      rw [List.map_append, List.mem_append]
      rintro (hxa | hxp)
      · exact hdisj x (by simp [hx]) hxa
      · simp only [List.map_cons, List.map_nil, List.mem_singleton] at hxp
        rw [hxp] at hx
        exact h1 hx

theorem forall2_payload_keys (header : List String) (src proc : String)
    (rows : List (List String)) (ps : List (String × RunPayload))
    (h : List.Forall₂ (fun r p => buildPayload header r src proc = Res.ok p) rows ps) :
    ps.map Prod.fst = rows.map (fun r => (cellOf header r mergeIdCol).getD "") := by
  induction h with
  | nil => rfl
  | @cons r p rest pst hrp _ ih =>
    rw [List.map_cons, List.map_cons, ih]
    congr 1
    exact buildPayload_key header r src proc p.1 p.2 hrp

theorem buildStateRows_spec (run_ids : List String) (tgid : String) :
    ∀ (m : List (String × RunPayload)) (i : Nat),
      i + m.length ≤ run_ids.length →
      ∃ srows, buildStateRows run_ids tgid m i = some srows ∧
        srows.length = m.length ∧
        ∀ j, j < m.length →
          srows.get? j = some [((m.get? j).map Prod.fst).getD "",
                               (run_ids.get? (i + j)).getD "", tgid] := by
  intro m
  induction m with
  | nil =>
    intro i _
    exact ⟨[], rfl, rfl, fun j hj => absurd hj (by simp)⟩
  | cons p rest ih =>
    intro i hb
    obtain ⟨k, v⟩ := p
    rcases hr : run_ids.get? i with - | rid
    · exact absurd (List.get?_eq_none.mp hr) (by simp at hb; omega)
    · obtain ⟨tl, htl, hlen, hget⟩ := ih (i + 1) (by simp at hb ⊢; omega)
      have hr2 : run_ids[i]? = some rid := by
        rw [← List.get?_eq_getElem?]
        exact hr
      refine ⟨[k, rid, tgid] :: tl, ?_, by simp [hlen], ?_⟩
      · simp [buildStateRows, hr2, htl]
      · intro j hj
        cases j with
        | zero =>
          simp [hr2]
        | succ j' =>
          simp only [List.get?_cons_succ]
          rw [hget j' (by simpa using hj)]
          have : i + 1 + j' = i + (j' + 1) := by omega
          rw [this]

/-- C2: for a file whose rows carry pairwise-distinct merge keys, when
the batched submission returns one run id per row in order, the run-state
rows pair row *i*'s merge key with run id *i*, for every *i*. -/
theorem c2_positional_correlation (t : Table) (proc : String)
    (m : List (String × RunPayload)) (run_ids : List String) (tgid : String)
    (h1 : create_run_payloads t SOURCE_ROOTDOMAIN_NAME proc = Res.ok m)
    (h2 : (keysOf t).Nodup)
    (h3 : run_ids.length = t.rows.length)
    (hN : 1 ≤ t.rows.length) :
    ∃ state_map, buildStateRows run_ids tgid m 0 = some state_map ∧
      state_map.length = t.rows.length ∧
      ∀ i, i < t.rows.length →
        state_map.get? i =
          some [((keysOf t).get? i).getD "", (run_ids.get? i).getD "", tgid] := by
  obtain ⟨ps, hf, hm⟩ :=
    createRunPayloadsGo_inv t.header SOURCE_ROOTDOMAIN_NAME proc t.rows [] m h1
  have hkeys : ps.map Prod.fst = keysOf t :=
    forall2_payload_keys t.header SOURCE_ROOTDOMAIN_NAME proc t.rows ps hf
  have hnd : (ps.map Prod.fst).Nodup := by rw [hkeys]; exact h2
  have hmps : m = ps := by
    rw [hm, foldl_dictInsert_of_nodup ps [] hnd (by simp)]
    simp
  subst hmps
  have hlen : m.length = t.rows.length := hf.length_eq.symm
  obtain ⟨sm, hsm, hsml, hsmg⟩ :=
    buildStateRows_spec run_ids tgid m 0 (by omega)
  refine ⟨sm, hsm, by omega, fun i hi => ?_⟩
  rw [hsmg i (by omega)]
  rw [← hkeys, List.get?_map]
  simp

theorem insKey_length_le (acc : List String) (x : String) :
    (insKey acc x).length ≤ acc.length + 1 := by
  unfold insKey
  split <;> simp

theorem mem_insKey_of_mem (acc : List String) (x y : String) (h : y ∈ acc) :
    y ∈ insKey acc x := by
  unfold insKey
  split
  · exact h
  · simp [h]

theorem mem_insKey_self (acc : List String) (x : String) : x ∈ insKey acc x := by
  unfold insKey
  split
  · assumption
  · simp

theorem foldl_insKey_length_le (l : List String) :
    ∀ acc, (l.foldl insKey acc).length ≤ acc.length + l.length := by
  induction l with
  | nil => intro acc; simp
  | cons x xs ih =>
    intro acc
    rw [List.foldl_cons]
    have h1 := ih (insKey acc x)
    have h2 := insKey_length_le acc x
    simp only [List.length_cons]
    omega

theorem foldl_insKey_length_lt_of_mem (l : List String) :
    ∀ acc, (∃ x ∈ l, x ∈ acc) → (l.foldl insKey acc).length < acc.length + l.length := by
  induction l with
  | nil =>
    rintro acc ⟨x, hx, -⟩
    simp at hx
  | cons y ys ih =>
    rintro acc ⟨x, hx, hacc⟩
    rw [List.foldl_cons]
    rcases List.mem_cons.mp hx with rfl | hxs
    · have he : insKey acc x = acc := by
        unfold insKey
        rw [if_pos hacc]
      rw [he]
      have := foldl_insKey_length_le ys acc
      simp only [List.length_cons]
      omega
    · have h2 := ih (insKey acc y) ⟨x, hxs, mem_insKey_of_mem acc y x hacc⟩
      have h3 := insKey_length_le acc y
      simp only [List.length_cons]
      omega

theorem foldl_insKey_length_lt_of_dup (l : List String) :
    ∀ acc, ¬ l.Nodup → (l.foldl insKey acc).length < acc.length + l.length := by
  induction l with
  | nil =>
    intro acc h
    exact absurd List.nodup_nil h
  | cons x xs ih =>
    intro acc h
    rw [List.foldl_cons]
    have hcase : x ∈ xs ∨ ¬ xs.Nodup := by
      rw [List.nodup_cons] at h
      push_neg at h
      by_cases hx : x ∈ xs
      · exact Or.inl hx
      · exact Or.inr (h hx)
    have h3 := insKey_length_le acc x
    rcases hcase with hx | hnd
    · have := foldl_insKey_length_lt_of_mem xs (insKey acc x)
        ⟨x, hx, mem_insKey_self acc x⟩
      simp only [List.length_cons]
      omega
    · have := ih (insKey acc x) hnd
      simp only [List.length_cons]
      omega

theorem firstDedup_length_lt (l : List String) (h : ¬ l.Nodup) :
    (firstDedup l).length < l.length := by
  have := foldl_insKey_length_lt_of_dup l [] h
  simpa [firstDedup] using this

theorem getLast?_mem {α : Type} : ∀ (l : List α) (a : α), l.getLast? = some a → a ∈ l
  | [], a, h => by simp at h
  | [x], a, h => by
    simp only [List.getLast?_singleton, Option.some.injEq] at h
    simp [h]
  | x :: y :: l, a, h => by
    rw [List.getLast?_cons_cons] at h
    exact List.mem_cons_of_mem x (getLast?_mem (y :: l) a h)

theorem getLast?_cons_some {α : Type} :
    ∀ (x : α) (l : List α), ∃ a, (x :: l).getLast? = some a
  | x, [] => ⟨x, by simp⟩
  | x, y :: l => by
    obtain ⟨a, ha⟩ := getLast?_cons_some y l
    exact ⟨a, by rw [List.getLast?_cons_cons]; exact ha⟩

theorem lookupA_dictInsert_self (m : List (String × RunPayload)) (k : String)
    (v : RunPayload) : lookupA (dictInsert m k v) k = some v := by
  unfold dictInsert
  by_cases hm : m.any (fun p => p.1 = k) = true
  · rw [if_pos hm]
    unfold lookupA
    have hk : k ∈ m.map Prod.fst := (any_key_eq m k).mp hm
    clear hm
    induction m with
    | nil => simp at hk
    | cons p rest ih =>
      rw [List.map_cons]
      by_cases hp : p.1 = k
      · rw [if_pos hp, List.find?_cons_of_pos _ (by simp)]
        rfl
      · rw [if_neg hp, List.find?_cons_of_neg _ (by simp [hp])]
        refine ih ?_
        rw [List.map_cons] at hk
        rcases List.mem_cons.mp hk with he | hrest
        · exact absurd he.symm hp
        · exact hrest
  · rw [if_neg hm]
    unfold lookupA
    rw [List.find?_append]
    have hnone : m.find? (fun p => p.1 = k) = none := by
      rw [List.find?_eq_none]
      intro p hp hpk
      exact hm (List.any_eq_true.mpr ⟨p, hp, hpk⟩)
    rw [hnone, List.find?_cons_of_pos _ (by simp)]
    rfl

theorem lookupA_dictInsert_other (m : List (String × RunPayload)) (k k' : String)
    (v : RunPayload) (h : k' ≠ k) :
    lookupA (dictInsert m k v) k' = lookupA m k' := by
  have hkk : ¬ (k = k') := fun hh => h hh.symm
  unfold dictInsert
  by_cases hm : m.any (fun p => p.1 = k) = true
  · rw [if_pos hm]
    unfold lookupA
    clear hm
    induction m with
    | nil => rfl
    | cons p rest ih =>
      rw [List.map_cons]
      by_cases hp : p.1 = k
      · rw [if_pos hp, List.find?_cons_of_neg _ (by simp [hkk]),
          List.find?_cons_of_neg _ (by simp [hp, hkk])]
        exact ih
      · by_cases hpk : p.1 = k'
        · rw [if_neg hp, List.find?_cons_of_pos _ (by simp [hpk]),
            List.find?_cons_of_pos _ (by simp [hpk])]
        · rw [if_neg hp, List.find?_cons_of_neg _ (by simp [hpk]),
            List.find?_cons_of_neg _ (by simp [hpk])]
          exact ih
  · rw [if_neg hm]
    unfold lookupA
    rw [List.find?_append, List.find?_cons_of_neg _ (by simp [hkk]), List.find?_nil]
    cases m.find? (fun p => p.1 = k') <;> rfl

theorem lookupA_foldl (ps : List (String × RunPayload)) :
    ∀ (acc : List (String × RunPayload)) (k : String),
      lookupA (ps.foldl (fun a p => dictInsert a p.1 p.2) acc) k =
        match (ps.filter (fun p => p.1 = k)).getLast? with
        | some q => some q.2
        | none => lookupA acc k := by
  induction ps with
  | nil => intro acc k; rfl
  | cons p ps ih =>
    intro acc k
    rw [List.foldl_cons, ih, List.filter_cons]
    by_cases hp : p.1 = k
    · rw [if_pos (by simpa using hp)]
      rcases hfl : ps.filter (fun q => q.1 = k) with - | ⟨q0, qs⟩
      · rw [hfl]
        subst hp
        simp [lookupA_dictInsert_self]
      · rw [hfl, List.getLast?_cons_cons]
        obtain ⟨qq, hq⟩ := getLast?_cons_some q0 qs
        rw [hq]
    · rw [if_neg (by simpa using hp)]
      rcases hfl : (ps.filter (fun q => q.1 = k)).getLast? with - | q
      · simp only [hfl]
        exact lookupA_dictInsert_other acc p.1 k p.2 (fun hh => hp hh.symm)
      · simp only [hfl]

theorem forall2_filter_key (header : List String) (src proc k : String)
    (rows : List (List String)) (ps : List (String × RunPayload))
    (h : List.Forall₂ (fun r p => buildPayload header r src proc = Res.ok p) rows ps) :
    List.Forall₂ (fun r p => buildPayload header r src proc = Res.ok p)
      (rows.filter (fun r => (cellOf header r mergeIdCol).getD "" = k))
      (ps.filter (fun p => p.1 = k)) := by
  induction h with
  | nil => exact List.Forall₂.nil
  | @cons r p rest pst hrp _ ih =>
    rw [List.filter_cons, List.filter_cons]
    have hk := buildPayload_key header r src proc p.1 p.2 hrp
    rw [← hk]
    by_cases hc : p.1 = k
    · rw [if_pos (by simpa using hc), if_pos (by simpa using hc)]
      exact List.Forall₂.cons hrp ih
    · rw [if_neg (by simpa using hc), if_neg (by simpa using hc)]
      exact ih

theorem forall2_getLast? {α β : Type} {R : α → β → Prop} :
    ∀ {la : List α} {lb : List β}, List.Forall₂ R la lb →
      ∀ {q : β}, lb.getLast? = some q → ∃ r, la.getLast? = some r ∧ R r q := by
  intro la lb h
  induction h with
  | nil =>
    intro q hq
    simp at hq
  | @cons r p rest pst hrp hrest ih =>
    intro q hq
    rcases pst with - | ⟨p', pst'⟩
    · have hre : rest = [] := List.forall₂_nil_right_iff.mp hrest
      subst hre
      simp only [List.getLast?_singleton, Option.some.injEq] at hq
      exact ⟨r, by simp, hq ▸ hrp⟩
    · rcases rest with - | ⟨r', rest'⟩
      · cases hrest
      · rw [List.getLast?_cons_cons] at hq
        obtain ⟨rr, hrr, hR⟩ := ih hq
        exact ⟨rr, by rw [List.getLast?_cons_cons]; exact hrr, hR⟩

/-- C10: when an input file holds duplicate merge keys, the submission
stage silently collapses them: the run map holds one entry per distinct
key (first-occurrence order), the payload of a key is the one built from
the *last* row carrying that key, and the run-state artifact has strictly
fewer rows than the file. -/
theorem c10_duplicate_merge_keys (t : Table) (proc : String)
    (m : List (String × RunPayload)) (run_ids : List String) (tgid : String)
    (h1 : create_run_payloads t SOURCE_ROOTDOMAIN_NAME proc = Res.ok m)
    (hdup : ¬ (keysOf t).Nodup)
    (h3 : run_ids.length = m.length) :
    m.map Prod.fst = firstDedup (keysOf t) ∧
    m.length < t.rows.length ∧
    (∀ k v, lookupA m k = some v →
      ∃ r, lastRowWith t k = some r ∧
        buildPayload t.header r SOURCE_ROOTDOMAIN_NAME proc = Res.ok (k, v)) ∧
    (∃ state_map, buildStateRows run_ids tgid m 0 = some state_map ∧
      state_map.length = m.length ∧ state_map.length < t.rows.length) := by
  obtain ⟨ps, hf, hm⟩ :=
    createRunPayloadsGo_inv t.header SOURCE_ROOTDOMAIN_NAME proc t.rows [] m h1
  have hkeys : ps.map Prod.fst = keysOf t :=
    forall2_payload_keys t.header SOURCE_ROOTDOMAIN_NAME proc t.rows ps hf
  have hk1 : m.map Prod.fst = firstDedup (keysOf t) := by
    rw [hm, foldl_dictInsert_keys, hkeys]
    rfl
  have hlen : m.length < t.rows.length := by
    have h4 : m.length = (firstDedup (keysOf t)).length := by
      rw [← List.length_map m Prod.fst, hk1]
    have h5 := firstDedup_length_lt (keysOf t) hdup
    have h6 : (keysOf t).length = t.rows.length := by
      simp [keysOf]
    omega
  refine ⟨hk1, hlen, ?_, ?_⟩
  · intro k v hkv
    rw [hm, lookupA_foldl] at hkv
    rcases hfl : (ps.filter (fun p => p.1 = k)).getLast? with - | q
    · rw [hfl] at hkv
      exact absurd hkv (by simp [lookupA])
    · rw [hfl] at hkv
      have hq2 : q.2 = v := by simpa using hkv
      have hmem : q ∈ ps.filter (fun p => p.1 = k) :=
        getLast?_mem (ps.filter (fun p => p.1 = k)) q hfl
      have hq1 : q.1 = k := of_decide_eq_true (List.mem_filter.mp hmem).2
      have hff := forall2_filter_key t.header SOURCE_ROOTDOMAIN_NAME proc k t.rows ps hf
      obtain ⟨r, hr, hR⟩ := forall2_getLast? hff hfl
      refine ⟨r, by simpa [lastRowWith] using hr, ?_⟩
      rw [show ((k, v) : String × RunPayload) = q from by rw [← hq1, ← hq2]]
      exact hR
  · obtain ⟨sm, hsm, hsml, -⟩ := buildStateRows_spec run_ids tgid m 0 (by omega)
    exact ⟨sm, hsm, hsml, by omega⟩

/-- C10 witness: a two-row file both of whose rows carry key `K`: the run
map holds one entry, its payload that of the last row, the state map one
row. -/
theorem c10_witness :
    (¬ (keysOf ⟨wHdr, [wRow "K", wRow "K"]⟩).Nodup) ∧
    create_run_payloads ⟨wHdr, [wRow "K", wRow "K"]⟩ SOURCE_ROOTDOMAIN_NAME "p" =
      Res.ok [("K", wPayload "K")] ∧
    [("K", wPayload "K")].map Prod.fst =
      firstDedup (keysOf ⟨wHdr, [wRow "K", wRow "K"]⟩) ∧
    (1 : Nat) < (Table.rows ⟨wHdr, [wRow "K", wRow "K"]⟩).length := by
  refine ⟨by decide, by decide, ?_, by decide⟩
  have h := c10_duplicate_merge_keys ⟨wHdr, [wRow "K", wRow "K"]⟩ "p"
    [("K", wPayload "K")] ["ra"] "tg" (by decide) (by decide) (by decide)
  exact h.1

/-- C2 witness: a two-row file with distinct keys `K`, `L` and run ids
`ra`, `rb`: the state map pairs `K` with `ra` and `L` with `rb`. -/
theorem c2_witness :
    (keysOf ⟨wHdr, [wRow "K", wRow "L"]⟩).Nodup ∧
    create_run_payloads ⟨wHdr, [wRow "K", wRow "L"]⟩ SOURCE_ROOTDOMAIN_NAME "p" =
      Res.ok [("K", wPayload "K"), ("L", wPayload "L")] ∧
    ∃ state_map,
      buildStateRows ["ra", "rb"] "tg" [("K", wPayload "K"), ("L", wPayload "L")] 0 =
        some state_map ∧
      state_map.length = 2 ∧
      ∀ i, i < 2 →
        state_map.get? i =
          some [((keysOf ⟨wHdr, [wRow "K", wRow "L"]⟩).get? i).getD "",
                (["ra", "rb"].get? i).getD "", "tg"] := by
  refine ⟨by decide, by decide, ?_⟩
  exact c2_positional_correlation ⟨wHdr, [wRow "K", wRow "L"]⟩ "p"
    [("K", wPayload "K"), ("L", wPayload "L")] ["ra", "rb"] "tg"
    (by decide) (by decide) (by decide) (by decide)

/-! ## C9 — the Merge Stage -/

theorem mergeCollect_spec (od : String) :
    ∀ (files : List String) (s : St),
      s.fs.existsP (pjoin od "results") = true →
      (∀ f ∈ files, s.fs.existsP (pathOf od f Stage.results) = false ∨
        ∃ rt it mt, s.fs.parseCsv (pathOf od f Stage.results) = some rt ∧
          s.fs.parseCsv f = some it ∧ leftJoin it rt mergeIdCol = some mt) →
      ∃ evs, mergeCollect od files s =
          (Res.ok (files.filterMap (mergeTableFor s.fs od)), { s with events := evs }) ∧
        s.events <+: evs ∧
        ∀ f ∈ files, s.fs.existsP (pathOf od f Stage.results) = false →
          Event.infoSkipMerge f ∈ evs := by
  intro files
  induction files with
  | nil =>
    intro s _ _
    exact ⟨s.events, rfl, List.prefix_rfl, fun f hf => absurd hf (List.not_mem_nil f)⟩
  | cons f rest ih =>
    intro s hres h
    have hsr : stageStr Stage.results = "results" := rfl
    have haf : already_fetched od f s = (s.fs.existsP (pathOf od f Stage.results), s) := by
      unfold already_fetched output_file_path
      rw [hsr, ensureDir_noop s _ hres]
    have hrest := fun g hg => h g (List.mem_cons_of_mem f hg)
    rcases hcase : s.fs.existsP (pathOf od f Stage.results) with - | -
    · -- not fetched: skipped with a log line, absent from the output
      obtain ⟨evs, hc, hpre, hsk⟩ := ih (s.logEv (Event.infoSkipMerge f)) hres hrest
      have hmt : mergeTableFor s.fs od f = none := by
        unfold mergeTableFor
        rw [hcase]
        rfl
      refine ⟨evs, ?_, ?_, ?_⟩
      · simp only [mergeCollect, haf, hcase, Bool.not_false, if_pos, hc,
          List.filterMap_cons, hmt]
        rfl
      · exact List.IsPrefix.trans (List.prefix_append _ _) hpre
      · intro g hg hgf
        rcases List.mem_cons.mp hg with rfl | hg'
        · exact hpre.subset (by simp [St.logEv])
        · exact hsk g hg' hgf
    · -- fetched: contributes the left join of input rows with results rows
      rcases h f (List.mem_cons_self f rest) with hno | ⟨rt, it, mt, hrt, hit, hj⟩
      · rw [hcase] at hno
        exact Bool.noConfusion hno
      · obtain ⟨evs, hc, hpre, hsk⟩ := ih s hres hrest
        have hmt : mergeTableFor s.fs od f = some mt := by
          unfold mergeTableFor
          rw [hcase, if_pos rfl, hrt, hit]
          exact hj
        refine ⟨evs, ?_, ?_, ?_⟩
        · simp only [mergeCollect, haf, hcase, Bool.not_true, if_neg, hsr,
            output_file_path, ensureDir_noop s _ hres, hrt, hit, hj, hc,
            List.filterMap_cons, hmt]
          simp
        · exact hpre
        · intro g hg hgf
          rcases List.mem_cons.mp hg with rfl | hg'
          · rw [hcase] at hgf
            exact Bool.noConfusion hgf
          · exact hsk g hg' hgf

theorem leftJoin_pad (it rt mt : Table) (i1 i2 : Nat)
    (hj : leftJoin it rt mergeIdCol = some mt)
    (h1 : colIdx it.header mergeIdCol = some i1)
    (h2 : colIdx rt.header mergeIdCol = some i2)
    (r : List String) (hr : r ∈ it.rows)
    (hnone : rt.rows.filter
      (fun r2 => (r2.get? i2).getD "" = (r.get? i1).getD "") = []) :
    (r ++ (rt.header.eraseIdx i2).map (fun _ => "")) ∈ mt.rows := by
  unfold leftJoin at hj
  simp only [h1, h2, Option.some.injEq] at hj
  rw [← hj]
  simp only [List.mem_flatten]
  refine ⟨[r ++ (rt.header.eraseIdx i2).map (fun _ => "")], ?_, by simp⟩
  refine List.mem_map.mpr ⟨r, hr, ?_⟩
  rw [hnone]
  simp

/-- C9 (amended): provided at least one eligible file has been fetched,
`merge_results` completes without raising: unfetched files are skipped
with a log line and are simply absent from the merged artifact, each
fetched file contributes the left join of its input rows with its results
rows on the merge key, and an input row with no matching result row
appears padded with empty output fields. -/
theorem c9_merge_amended (input_dir od : String) (s : St) (files : List String)
    (hres : s.fs.existsP (pjoin od "results") = true)
    (hfiles : iter_files input_dir s.fs = Res.ok files)
    (hok : ∀ f ∈ files, s.fs.existsP (pathOf od f Stage.results) = false ∨
      ∃ rt it mt, s.fs.parseCsv (pathOf od f Stage.results) = some rt ∧
        s.fs.parseCsv f = some it ∧ leftJoin it rt mergeIdCol = some mt)
    (hsome : ∃ f, f ∈ files ∧ s.fs.existsP (pathOf od f Stage.results) = true)
    (hmp : s.fs.lookup (pathOf od "merged" Stage.results) ≠ some Node.dir) :
    ∃ s' mt,
      concatTables (files.filterMap (mergeTableFor s.fs od)) = some mt ∧
      merge_results input_dir od s = (Res.ok (), s') ∧
      s'.fs.lookup (pathOf od "merged" Stage.results) = some (Node.file mt) ∧
      (∀ p, p ≠ pathOf od "merged" Stage.results → p ≠ pjoin od "results" →
        s'.fs.lookup p = s.fs.lookup p) ∧
      (∀ f ∈ files, s.fs.existsP (pathOf od f Stage.results) = false →
        Event.infoSkipMerge f ∈ s'.events) ∧
      ∀ it rt mt' i1 i2, leftJoin it rt mergeIdCol = some mt' →
        colIdx it.header mergeIdCol = some i1 →
        colIdx rt.header mergeIdCol = some i2 →
        ∀ r ∈ it.rows,
          rt.rows.filter
            (fun r2 => (r2.get? i2).getD "" = (r.get? i1).getD "") = [] →
          (r ++ (rt.header.eraseIdx i2).map (fun _ => "")) ∈ mt'.rows := by
  obtain ⟨evs, hc, hpre, hsk⟩ := mergeCollect_spec od files s hres hok
  have hne : files.filterMap (mergeTableFor s.fs od) ≠ [] := by
    obtain ⟨f, hf, hex⟩ := hsome
    rcases hok f hf with hno | ⟨rt, it, mt, hrt, hit, hj⟩
    · rw [hex] at hno
      exact Bool.noConfusion hno
    · have hmt : mergeTableFor s.fs od f = some mt := by
        unfold mergeTableFor
        rw [hex, if_pos rfl, hrt, hit]
        exact hj
      intro hemp
      have : mt ∈ files.filterMap (mergeTableFor s.fs od) :=
        List.mem_filterMap.mpr ⟨f, hf, hmt⟩
      rw [hemp] at this
      exact List.not_mem_nil mt this
  obtain ⟨t0, ts, hts⟩ : ∃ t0 ts, files.filterMap (mergeTableFor s.fs od) = t0 :: ts := by
    rcases hl : files.filterMap (mergeTableFor s.fs od) with - | ⟨t0, ts⟩
    · exact absurd hl hne
    · exact ⟨t0, ts, rfl⟩
  have hcat : concatTables (files.filterMap (mergeTableFor s.fs od)) =
      some ⟨t0.header, ((t0 :: ts).map Table.rows).flatten⟩ := by
    rw [hts]
    rfl
  have hsr : stageStr Stage.results = "results" := rfl
  have hlock : ({ s with events := evs } : St).fs.lookup
      (pathOf od "merged" Stage.results) ≠ some Node.dir := hmp
  obtain ⟨fs', hw, hwl, hwo⟩ :=
    write_spec (ensureDir { s with events := evs } (pjoin od "results")).fs
      (pathOf od "merged" Stage.results)
      ⟨t0.header, ((t0 :: ts).map Table.rows).flatten⟩
      (by
        rw [ensureDir_lookup_other _ _ _ (by unfold pathOf; exact pjoin_ne_left _ _)]
        exact hlock)
  refine ⟨{ ensureDir { s with events := evs } (pjoin od "results") with fs := fs' },
    ⟨t0.header, ((t0 :: ts).map Table.rows).flatten⟩, hcat, ?_, ?_, ?_, ?_, ?_⟩
  · unfold merge_results
    simp only [hfiles, hc, hts]
    unfold concatTables output_file_path
    simp only [hsr]
    have hens : ensureDir ({ s with events := evs } : St) (pjoin od "results") =
        { s with events := evs } := ensureDir_noop _ _ hres
    rw [hens] at hw ⊢
    simp only [hw]
  · exact hwl
  · intro p hp hpd
    show fs'.lookup p = s.fs.lookup p
    rw [hwo p hp, ensureDir_lookup_other _ _ _ hpd]
  · intro f hf hgf
    have hev : ({ ensureDir { s with events := evs } (pjoin od "results")
        with fs := fs' } : St).events = evs := by
      show (ensureDir { s with events := evs } (pjoin od "results")).events = evs
      rw [(ensureDir_core _ _).2.2]
    rw [hev]
    exact hsk f hf hgf
  · intro it rt mt' i1 i2 hj h1 h2 r hr hn
    exact leftJoin_pad it rt mt' i1 i2 hj h1 h2 r hr hn

/-- C9 witness: one fetched file with input rows `A`, `B` and a results
artifact holding only `A`: the merged artifact has both rows, `B` with an
empty output field; a second unfetched file is skipped and absent. -/
theorem c9_witness :
    concatTables
      ((["in/a.csv", "in/b.csv"].filterMap (mergeTableFor
        ⟨[("in", Node.dir),
          ("in/a.csv", Node.file ⟨["ManufacturerPartNumber", "other"],
            [["A", "1"], ["B", "2"]]⟩),
          ("in/b.csv", Node.file ⟨["ManufacturerPartNumber"], [["C"]]⟩),
          ("out", Node.dir), ("out/results", Node.dir),
          ("out/results/a_results.csv", Node.file
            ⟨["ManufacturerPartNumber", "match_1"], [["A", "x"]]⟩)]⟩ "out"))) =
      some ⟨["ManufacturerPartNumber", "other", "match_1"],
            [["A", "1", "x"], ["B", "2", ""]]⟩ ∧
    ∃ s' mt,
      concatTables
        ((["in/a.csv", "in/b.csv"].filterMap (mergeTableFor
          ⟨[("in", Node.dir),
            ("in/a.csv", Node.file ⟨["ManufacturerPartNumber", "other"],
              [["A", "1"], ["B", "2"]]⟩),
            ("in/b.csv", Node.file ⟨["ManufacturerPartNumber"], [["C"]]⟩),
            ("out", Node.dir), ("out/results", Node.dir),
            ("out/results/a_results.csv", Node.file
              ⟨["ManufacturerPartNumber", "match_1"], [["A", "x"]]⟩)]⟩ "out"))) =
        some mt ∧
      merge_results "in" "out"
        ⟨⟨[("in", Node.dir),
           ("in/a.csv", Node.file ⟨["ManufacturerPartNumber", "other"],
             [["A", "1"], ["B", "2"]]⟩),
           ("in/b.csv", Node.file ⟨["ManufacturerPartNumber"], [["C"]]⟩),
           ("out", Node.dir), ("out/results", Node.dir),
           ("out/results/a_results.csv", Node.file
             ⟨["ManufacturerPartNumber", "match_1"], [["A", "x"]]⟩)]⟩,
         0, [], []⟩ = (Res.ok (), s') ∧
      s'.fs.lookup (pathOf "out" "merged" Stage.results) = some (Node.file mt) ∧
      (∀ p, p ≠ pathOf "out" "merged" Stage.results → p ≠ pjoin "out" "results" →
        s'.fs.lookup p =
          (⟨[("in", Node.dir),
             ("in/a.csv", Node.file ⟨["ManufacturerPartNumber", "other"],
               [["A", "1"], ["B", "2"]]⟩),
             ("in/b.csv", Node.file ⟨["ManufacturerPartNumber"], [["C"]]⟩),
             ("out", Node.dir), ("out/results", Node.dir),
             ("out/results/a_results.csv", Node.file
               ⟨["ManufacturerPartNumber", "match_1"], [["A", "x"]]⟩)]⟩ : FS).lookup p) ∧
      (∀ f ∈ ["in/a.csv", "in/b.csv"],
        (⟨[("in", Node.dir),
           ("in/a.csv", Node.file ⟨["ManufacturerPartNumber", "other"],
             [["A", "1"], ["B", "2"]]⟩),
           ("in/b.csv", Node.file ⟨["ManufacturerPartNumber"], [["C"]]⟩),
           ("out", Node.dir), ("out/results", Node.dir),
           ("out/results/a_results.csv", Node.file
             ⟨["ManufacturerPartNumber", "match_1"], [["A", "x"]]⟩)]⟩ : FS).existsP
          (pathOf "out" f Stage.results) = false →
        Event.infoSkipMerge f ∈ s'.events) ∧
      ∀ it rt mt' i1 i2, leftJoin it rt mergeIdCol = some mt' →
        colIdx it.header mergeIdCol = some i1 →
        colIdx rt.header mergeIdCol = some i2 →
        ∀ r ∈ it.rows,
          rt.rows.filter
            (fun r2 => (r2.get? i2).getD "" = (r.get? i1).getD "") = [] →
          (r ++ (rt.header.eraseIdx i2).map (fun _ => "")) ∈ mt'.rows := by
  refine ⟨by decide, ?_⟩
  exact c9_merge_amended "in" "out"
    ⟨⟨[("in", Node.dir),
       ("in/a.csv", Node.file ⟨["ManufacturerPartNumber", "other"],
         [["A", "1"], ["B", "2"]]⟩),
       ("in/b.csv", Node.file ⟨["ManufacturerPartNumber"], [["C"]]⟩),
       ("out", Node.dir), ("out/results", Node.dir),
       ("out/results/a_results.csv", Node.file
         ⟨["ManufacturerPartNumber", "match_1"], [["A", "x"]]⟩)]⟩,
     0, [], []⟩
    ["in/a.csv", "in/b.csv"]
    (by decide) (by decide)
    (by
      intro f hf
      simp only [List.mem_cons, List.not_mem_nil, or_false] at hf
      rcases hf with rfl | rfl
      · exact Or.inr ⟨⟨["ManufacturerPartNumber", "match_1"], [["A", "x"]]⟩,
          ⟨["ManufacturerPartNumber", "other"], [["A", "1"], ["B", "2"]]⟩,
          ⟨["ManufacturerPartNumber", "other", "match_1"],
           [["A", "1", "x"], ["B", "2", ""]]⟩,
          by decide, by decide, by decide⟩
      · exact Or.inl (by decide))
    ⟨"in/a.csv", by decide, by decide⟩
    (by decide)

/-- C8 witness: a 1000-row file passes validation, a 1001-row file raises
`ValidationError`, a malformed file raises `NonRetryableError`. -/
theorem c8_witness :
    validate_file "f"
        ⟨[("f", Node.file ⟨["A"], List.replicate 1000 ["1"]⟩)]⟩ = Res.ok () ∧
    (∃ m, validate_file "f"
        ⟨[("f", Node.file ⟨["A"], List.replicate 1001 ["1"]⟩)]⟩ =
      Res.err (PyErr.validation m)) ∧
    (∃ m, validate_file "f" ⟨[("f", Node.malformed)]⟩ =
      Res.err (PyErr.nonRetryable m)) := by
  refine ⟨?_, ?_, ?_⟩
  · exact (c8_validate_file_characterization "f"
      ⟨[("f", Node.file ⟨["A"], List.replicate 1000 ["1"]⟩)]⟩).2.2.mpr
      ⟨by decide, ⟨["A"], List.replicate 1000 ["1"]⟩, by decide, by simp⟩
  · exact (c8_validate_file_characterization "f"
      ⟨[("f", Node.file ⟨["A"], List.replicate 1001 ["1"]⟩)]⟩).1.mpr
      (Or.inr ⟨⟨["A"], List.replicate 1001 ["1"]⟩, by decide, by simp⟩)
  · exact (c8_validate_file_characterization "f" ⟨[("f", Node.malformed)]⟩).2.1.mpr
      ⟨by decide, by decide⟩


/-! ## Path algebra for the locality argument -/

theorem string_data_eq {a b : String} (h : a.data = b.data) : a = b := by
  cases a
  cases b
  exact congrArg String.mk (by simpa using h)

theorem mem_takeWhile_pred {α : Type} (p : α → Bool) :
    ∀ (l : List α) (a : α), a ∈ l.takeWhile p → p a = true
  | [], a, h => by simp [List.takeWhile] at h
  | x :: l, a, h => by
    rw [List.takeWhile_cons] at h
    by_cases hx : p x = true
    · rw [if_pos hx] at h
      rcases List.mem_cons.mp h with rfl | h'
      · exact hx
      · exact mem_takeWhile_pred p l a h'
    · rw [if_neg hx] at h
      simp at h

theorem mem_dropWhile_mem {α : Type} (p : α → Bool) :
    ∀ (l : List α) (a : α), a ∈ l.dropWhile p → a ∈ l
  | [], a, h => by simp [List.dropWhile] at h
  | x :: l, a, h => by
    rw [List.dropWhile_cons] at h
    by_cases hx : p x = true
    · rw [if_pos hx] at h
      exact List.mem_cons_of_mem x (mem_dropWhile_mem p l a h)
    · rw [if_neg hx] at h
      exact h

theorem basename_no_slash (p : String) : '/' ∉ (basename p).data := by
  intro h
  unfold basename at h
  rw [List.mem_reverse] at h
  have := mem_takeWhile_pred _ _ _ h
  simp at this

theorem rstrip_no_slash (s chars : String) (h : '/' ∉ s.data) :
    '/' ∉ (rstrip s chars).data := by
  intro hc
  unfold rstrip at hc
  rw [List.mem_reverse] at hc
  exact h (by rw [← List.mem_reverse]; exact mem_dropWhile_mem _ _ _ hc)

theorem string_append_data (a b : String) : (a ++ b).data = a.data ++ b.data := rfl

theorem contains_eq_false_iff (l : List Char) (c : Char) :
    l.contains c = false ↔ c ∉ l := by
  constructor
  · intro h hm
    have := List.elem_iff.mpr hm
    rw [show l.contains c = l.elem c from rfl] at h
    rw [this] at h
    exact Bool.noConfusion h
  · intro h
    rcases he : l.elem c with - | -
    · exact he
    · exact absurd (List.elem_iff.mp he) h

/-- First-occurrence splitting: `u ++ c :: t₁ = v ++ c :: t₂` with `c`
absent from `u` and `v` forces `u = v` and `t₁ = t₂`. -/
theorem first_occ_inj {α : Type} (c : α) :
    ∀ (u v t₁ t₂ : List α), c ∉ u → c ∉ v → u ++ c :: t₁ = v ++ c :: t₂ →
      u = v ∧ t₁ = t₂
  | [], [], t₁, t₂, _, _, h => by
    simp only [List.nil_append, List.cons.injEq] at h
    exact ⟨rfl, h.2⟩
  | [], y :: v, t₁, t₂, _, hv, h => by
    simp only [List.nil_append, List.cons_append, List.cons.injEq] at h
    exact absurd (h.1 ▸ List.mem_cons_self y v) hv
  | x :: u, [], t₁, t₂, hu, _, h => by
    simp only [List.nil_append, List.cons_append, List.cons.injEq] at h
    exact absurd (h.1 ▸ List.mem_cons_self x u) (by rw [← h.1] at hu ⊢; exact hu)
  | x :: u, y :: v, t₁, t₂, hu, hv, h => by
    simp only [List.cons_append, List.cons.injEq] at h
    obtain ⟨rfl, h2⟩ := h
    obtain ⟨h3, h4⟩ := first_occ_inj c u v t₁ t₂
      (fun hm => hu (List.mem_cons_of_mem x hm))
      (fun hm => hv (List.mem_cons_of_mem x hm)) h2
    exact ⟨by rw [h3], h4⟩

/-- The last path component determines the split: `pjoin` is injective on
slash-free file names. -/
theorem pjoin_inj (a b m n : String) (hm : '/' ∉ m.data) (hn : '/' ∉ n.data)
    (h : pjoin a m = pjoin b n) : a = b ∧ m = n := by
  have hd : a.data ++ '/' :: m.data = b.data ++ '/' :: n.data := congrArg String.data h
  have hr : m.data.reverse ++ '/' :: a.data.reverse =
      n.data.reverse ++ '/' :: b.data.reverse := by
    have := congrArg List.reverse hd
    simpa [List.reverse_append] using this
  obtain ⟨h1, h2⟩ := first_occ_inj '/' _ _ _ _
    (fun hc => hm (List.mem_reverse.mp hc))
    (fun hc => hn (List.mem_reverse.mp hc)) hr
  constructor
  · exact string_data_eq (List.reverse_injective h2)
  · exact string_data_eq (List.reverse_injective h1)

theorem runs_ne_results (od : String) : pjoin od "runs" ≠ pjoin od "results" := by
  intro h
  have := (pjoin_inj od od "runs" "results" (by decide) (by decide) h).2
  exact absurd this (by decide)

theorem ne_pjoin_self (od x : String) : od ≠ pjoin od x :=
  fun h => pjoin_ne_left od x h.symm

theorem stripBase_no_slash (f chars : String) :
    '/' ∉ (rstrip (basename f) chars).data :=
  rstrip_no_slash _ _ (basename_no_slash f)

/-- Every artifact path is the stage directory joined with a slash-free
file name. -/
theorem pathOf_shape (od f : String) (st : Stage) :
    ∃ nm : String, ('/' ∉ nm.data) ∧
      pathOf od f st = pjoin (pjoin od (stageStr st)) nm := by
  unfold pathOf
  by_cases hb : endsWithS f RUN_STATE_FILE_SUFFIX = true
  · cases st with
    | runs =>
      refine ⟨rstrip (basename f) RUN_STATE_FILE_SUFFIX ++ RUN_STATE_FILE_SUFFIX, ?_, by
        rw [if_pos hb]⟩
      rw [string_append_data]
      intro hc
      rcases List.mem_append.mp hc with hc | hc
      · exact stripBase_no_slash f _ hc
      · exact absurd hc (by decide)
    | results =>
      refine ⟨rstrip (basename f) RUN_STATE_FILE_SUFFIX ++ RESULT_STATE_FILE_SUFFIX, ?_, by
        rw [if_pos hb]⟩
      rw [string_append_data]
      intro hc
      rcases List.mem_append.mp hc with hc | hc
      · exact stripBase_no_slash f _ hc
      · exact absurd hc (by decide)
  · cases st with
    | runs =>
      refine ⟨rstrip (basename f) ".csv" ++ RUN_STATE_FILE_SUFFIX, ?_, by
        rw [if_neg hb]⟩
      rw [string_append_data]
      intro hc
      rcases List.mem_append.mp hc with hc | hc
      · exact stripBase_no_slash f _ hc
      · exact absurd hc (by decide)
    | results =>
      refine ⟨rstrip (basename f) ".csv" ++ RESULT_STATE_FILE_SUFFIX, ?_, by
        rw [if_neg hb]⟩
      rw [string_append_data]
      intro hc
      rcases List.mem_append.mp hc with hc | hc
      · exact stripBase_no_slash f _ hc
      · exact absurd hc (by decide)

theorem dropLead_eq : ∀ (pre l rest : List Char), dropLead pre l = some rest →
    l = pre ++ rest
  | [], l, rest, h => by
    simp only [dropLead, Option.some.injEq] at h
    simp [h]
  | c :: cs, [], rest, h => by
    simp [dropLead] at h
  | c :: cs, d :: ds, rest, h => by
    unfold dropLead at h
    by_cases hc : c = d
    · rw [if_pos hc] at h
      have := dropLead_eq cs ds rest h
      rw [List.cons_append, ← hc, this]
    · rw [if_neg hc] at h
      exact Option.noConfusion h

theorem dropLead_refl_append : ∀ (pre rest : List Char),
    dropLead pre (pre ++ rest) = some rest
  | [], rest => by simp [dropLead]
  | c :: cs, rest => by
    rw [List.cons_append]
    unfold dropLead
    rw [if_pos rfl]
    exact dropLead_refl_append cs rest

theorem childName_some (d p m : String) (h : childName d p = some m) :
    p = pjoin d m ∧ '/' ∉ m.data ∧ m ≠ "" := by
  unfold childName at h
  rcases hdl : dropLead (d.data ++ ['/']) p.data with - | rest
  · simp only [hdl] at h
    exact Option.noConfusion h
  · simp only [hdl] at h
    by_cases he : rest.isEmpty = true
    · rw [if_pos he] at h
      exact Option.noConfusion h
    · rw [if_neg he] at h
      by_cases hs : rest.contains '/' = true
      · rw [if_pos hs] at h
        exact Option.noConfusion h
      · rw [if_neg hs] at h
        have hm : (⟨rest⟩ : String) = m := (Option.some.injEq _ _).mp h
        have hslash : '/' ∉ rest :=
          (contains_eq_false_iff rest '/').mp (by
            rcases hcc : rest.contains '/' with - | -
            · rfl
            · exact absurd hcc hs)
        refine ⟨?_, ?_, ?_⟩
        · apply string_data_eq
          rw [dropLead_eq _ _ _ hdl, pjoin_data, ← hm]
          simp
        · rw [← hm]
          exact hslash
        · intro hem
          rw [← hm] at hem
          have : rest = [] := congrArg String.data hem
          rw [this] at he
          simp at he

theorem childName_pjoin (d n : String) (hn : '/' ∉ n.data) (hne : n ≠ "") :
    childName d (pjoin d n) = some n := by
  unfold childName
  have hdl : dropLead (d.data ++ ['/']) (pjoin d n).data = some n.data := by
    rw [pjoin_data]
    have : d.data ++ '/' :: n.data = (d.data ++ ['/']) ++ n.data := by simp
    rw [this]
    exact dropLead_refl_append _ _
  simp only [hdl]
  rw [if_neg (by
    intro he
    exact hne (string_data_eq (by simpa using List.isEmpty_iff.mp he)))]
  rw [if_neg (by
    intro hc
    exact hn (List.elem_iff.mp hc))]


/-! ## The filesystem-footprint relation `EntShift` -/

theorem entShift_refl (T : String → Prop) : ∀ l, EntShift T l l
  | [] => EntShift.nil
  | e :: l => EntShift.keep e (entShift_refl T l)

theorem entShift_of_all (T : String → Prop) :
    ∀ l', (∀ e ∈ l', T e.1) → EntShift T [] l'
  | [], _ => EntShift.nil
  | e :: l', h =>
    EntShift.ext e (h e (List.mem_cons_self e l'))
      (entShift_of_all T l' (fun x hx => h x (List.mem_cons_of_mem e hx)))

theorem entShift_all_T (T : String → Prop) {b c : List (String × Node)}
    (h : EntShift T b c) : (∀ e ∈ b, T e.1) → ∀ e ∈ c, T e.1 := by
  induction h with
  | nil =>
    intro _ e he
    exact absurd he (List.not_mem_nil e)
  | ext e hT _ ih =>
    intro hb e' he'
    rcases List.mem_cons.mp he' with rfl | he''
    · exact hT
    · exact ih hb e' he''
  | keep e _ ih =>
    intro hb e' he'
    rcases List.mem_cons.mp he' with rfl | he''
    · exact hb e' (List.mem_cons_self _ _)
    · exact ih (fun x hx => hb x (List.mem_cons_of_mem e hx)) e' he''
  | @touch e e2 l l' hk hT _ ih =>
    intro hb e' he'
    rcases List.mem_cons.mp he' with rfl | he''
    · rw [hk]
      exact hT
    · exact ih (fun x hx => hb x (List.mem_cons_of_mem e hx)) e' he''

theorem entShift_trans (T : String → Prop) {a b c : List (String × Node)}
    (hab : EntShift T a b) (hbc : EntShift T b c) : EntShift T a c := by
  induction hab generalizing c with
  | nil => exact hbc
  | @ext l' e hT htail ih =>
    have htailT : ∀ x ∈ l', T x.1 :=
      entShift_all_T T htail (fun x hx => absurd hx (List.not_mem_nil x))
    have hbT : ∀ x ∈ e :: l', T x.1 := by
      intro x hx
      rcases List.mem_cons.mp hx with rfl | hx'
      · exact hT
      · exact htailT x hx'
    exact entShift_of_all T c (entShift_all_T T hbc hbT)
  | keep e _ ih =>
    cases hbc with
    | keep _ h2 => exact EntShift.keep e (ih h2)
    | touch hk2 hT2 h2 => exact EntShift.touch hk2 hT2 (ih h2)
  | @touch e e2 l l' hk hT _ ih =>
    cases hbc with
    | keep _ h2 => exact EntShift.touch hk hT (ih h2)
    | touch hk2 hT2 h2 => exact EntShift.touch (hk2.trans hk) hT (ih h2)

theorem entShift_keys (T : String → Prop) {a b : List (String × Node)}
    (h : EntShift T a b) :
    ∃ ex, b.map Prod.fst = a.map Prod.fst ++ ex ∧ ∀ k ∈ ex, T k := by
  induction h with
  | nil => exact ⟨[], rfl, fun k hk => absurd hk (List.not_mem_nil k)⟩
  | ext e hT _ ih =>
    obtain ⟨ex, hex, hT'⟩ := ih
    refine ⟨e.1 :: ex, by simp [hex], ?_⟩
    intro k hk
    rcases List.mem_cons.mp hk with rfl | hk'
    · exact hT
    · exact hT' k hk'
  | keep e _ ih =>
    obtain ⟨ex, hex, hT'⟩ := ih
    exact ⟨ex, by simp [hex], hT'⟩
  | @touch e e2 l l' hk _ _ ih =>
    obtain ⟨ex, hex, hT'⟩ := ih
    exact ⟨ex, by simp [hex, hk], hT'⟩

theorem lookupEnt_isSome_iff (p : String) :
    ∀ l : List (String × Node),
      (lookupEnt p l).isSome = true ↔ p ∈ l.map Prod.fst := by
  intro l
  induction l with
  | nil => simp [lookupEnt]
  | cons e rest ih =>
    by_cases he : e.1 = p
    · simp [lookupEnt, he]
    · simp only [lookupEnt, if_neg he, List.map_cons, List.mem_cons]
      rw [ih]
      constructor
      · exact Or.inr
      · rintro (h | h)
        · exact absurd h.symm he
        · exact h

theorem entShift_lookup_eq (T : String → Prop) {a b : List (String × Node)}
    (h : EntShift T a b) (p : String) (hp : ¬ T p) :
    lookupEnt p b = lookupEnt p a := by
  induction h with
  | nil => rfl
  | ext e hT _ ih =>
    simp only [lookupEnt]
    rw [if_neg (fun he : e.1 = p => hp (he ▸ hT))]
    exact ih
  | keep e _ ih =>
    simp only [lookupEnt]
    by_cases he : e.1 = p
    · rw [if_pos he, if_pos he]
    · rw [if_neg he, if_neg he]
      exact ih
  | @touch e e2 l l' hk hT _ ih =>
    simp only [lookupEnt]
    rw [if_neg (fun he : e2.1 = p => hp ((hk.symm.trans he) ▸ hT)),
      if_neg (fun he : e.1 = p => hp (he ▸ hT))]
    exact ih

theorem entShift_exists_mono (T : String → Prop) {a b : List (String × Node)}
    (h : EntShift T a b) (p : String)
    (hp : (lookupEnt p a).isSome = true) : (lookupEnt p b).isSome = true := by
  rw [lookupEnt_isSome_iff] at hp ⊢
  obtain ⟨ex, hex, -⟩ := entShift_keys T h
  rw [hex]
  exact List.mem_append_left _ hp

theorem entShift_csvNames (T : String → Prop) (d : String)
    (hT : ∀ k m, T k → childName d k = some m → endsWithS m ".csv" = false)
    {a b : List (String × Node)} (h : EntShift T a b) :
    (b.filterMap (fun e => childName d e.1)).filter (fun n => endsWithS n ".csv") =
      (a.filterMap (fun e => childName d e.1)).filter (fun n => endsWithS n ".csv") := by
  induction h with
  | nil => rfl
  | ext e hTe _ ih =>
    rcases hcn : childName d e.1 with - | m
    · simp only [List.filterMap_cons, hcn]
      exact ih
    · simp only [List.filterMap_cons, hcn, List.filter_cons, hT e.1 m hTe hcn,
        Bool.false_eq_true, if_neg]
      exact ih
  | keep e _ ih =>
    rcases hcn : childName d e.1 with - | m
    · simp only [List.filterMap_cons, hcn]
      exact ih
    · simp only [List.filterMap_cons, hcn, List.filter_cons]
      rw [ih]
  | @touch e e2 l l' hk _ _ ih =>
    have hsame : childName d e2.1 = childName d e.1 := by rw [hk]
    rcases hcn : childName d e.1 with - | m
    · simp only [List.filterMap_cons, hsame, hcn]
      exact ih
    · simp only [List.filterMap_cons, hsame, hcn, List.filter_cons]
      rw [ih]

/-! ### `Keeps` corollaries at the `FS` level -/

theorem keeps_refl (T : String → Prop) (a : FS) : Keeps T a a :=
  entShift_refl T a.entries

theorem keeps_trans (T : String → Prop) {a b c : FS} (h1 : Keeps T a b)
    (h2 : Keeps T b c) : Keeps T a c :=
  entShift_trans T h1 h2

theorem entShift_mono {T T' : String → Prop} (hT : ∀ p, T p → T' p)
    {la lb : List (String × Node)} (h : EntShift T la lb) : EntShift T' la lb := by
  induction h with
  | nil => exact EntShift.nil
  | ext e hTe _ ih => exact EntShift.ext e (hT _ hTe) ih
  | keep e _ ih => exact EntShift.keep e ih
  | touch hk hTe _ ih => exact EntShift.touch hk (hT _ hTe) ih

theorem keeps_mono {T T' : String → Prop} (hT : ∀ p, T p → T' p) {a b : FS}
    (h : Keeps T a b) : Keeps T' a b :=
  entShift_mono hT h

theorem keeps_lookup_eq {T : String → Prop} {a b : FS} (h : Keeps T a b)
    (p : String) (hp : ¬ T p) : b.lookup p = a.lookup p :=
  entShift_lookup_eq T h p hp

theorem keeps_exists_mono {T : String → Prop} {a b : FS} (h : Keeps T a b)
    (p : String) (hp : a.existsP p = true) : b.existsP p = true :=
  entShift_exists_mono T h p hp

theorem keeps_csvNames {T : String → Prop} (d : String)
    (hT : ∀ k m, T k → childName d k = some m → endsWithS m ".csv" = false)
    {a b : FS} (h : Keeps T a b) : csvNames b d = csvNames a d :=
  entShift_csvNames T d hT h

theorem csv_hyp_dir (dirT d : String) (hne : d ≠ dirT)
    (hlast : ∀ m, pjoin d m = dirT → '/' ∉ m.data → endsWithS m ".csv" = false) :
    ∀ k m, TouchedBy dirT k → childName d k = some m →
      endsWithS m ".csv" = false := by
  intro k m hk hcn
  obtain ⟨hp, hs, -⟩ := childName_some d k m hcn
  rcases hk with rfl | ⟨n, hn, rfl⟩
  · exact hlast m hp.symm hs
  · obtain ⟨hd, -⟩ := pjoin_inj d dirT m n hs hn hp.symm
    exact absurd hd hne

theorem csv_hyp_runs (od d : String) (hne : d ≠ pjoin od "runs") :
    ∀ k m, TouchedBy (pjoin od "runs") k → childName d k = some m →
      endsWithS m ".csv" = false := by
  apply csv_hyp_dir _ _ hne
  intro m hm hs
  obtain ⟨-, hm2⟩ := pjoin_inj d od m "runs" hs (by decide) hm
  rw [hm2]
  decide

theorem csv_hyp_results (od d : String) (hne : d ≠ pjoin od "results") :
    ∀ k m, TouchedBy (pjoin od "results") k → childName d k = some m →
      endsWithS m ".csv" = false := by
  apply csv_hyp_dir _ _ hne
  intro m hm hs
  obtain ⟨-, hm2⟩ := pjoin_inj d od m "results" hs (by decide) hm
  rw [hm2]
  decide


/-! ## Footprints of the pipeline functions -/

theorem entShift_append_one (T : String → Prop) (e : String × Node) (hT : T e.1) :
    ∀ l, EntShift T l (l ++ [e])
  | [] => EntShift.ext e hT EntShift.nil
  | x :: xs => EntShift.keep x (entShift_append_one T e hT xs)

theorem keeps_mkdir (T : String → Prop) (fs : FS) (d : String) (hT : T d) :
    Keeps T fs (fs.mkdir d) :=
  entShift_append_one T (d, Node.dir) hT fs.entries

theorem keeps_ensureDir (T : String → Prop) (s : St) (d : String) (hT : T d) :
    Keeps T s.fs (ensureDir s d).fs := by
  unfold ensureDir
  split
  · exact keeps_refl T s.fs
  · exact keeps_mkdir T s.fs d hT

theorem entShift_writeEntries (T : String → Prop) (p : String) (n : Node)
    (hT : T p) : ∀ l, EntShift T l (writeEntries p n l)
  | [] => EntShift.ext (p, n) hT EntShift.nil
  | e :: l => by
    unfold writeEntries
    by_cases he : e.1 = p
    · rw [if_pos he]
      exact EntShift.touch he.symm (he ▸ hT) (entShift_refl T l)
    · rw [if_neg he]
      exact EntShift.keep e (entShift_writeEntries T p n hT l)

theorem keeps_write (T : String → Prop) {fs fs' : FS} (p : String) (t : Table)
    (hT : T p) (h : fs.write p t = some fs') : Keeps T fs fs' := by
  unfold FS.write at h
  rcases hl : fs.lookup p with - | nd
  · rw [hl] at h
    simp only [Option.some.injEq] at h
    rw [← h]
    exact entShift_writeEntries T p (Node.file t) hT fs.entries
  · rw [hl] at h
    cases nd with
    | dir => exact Option.noConfusion h
    | file t' =>
      simp only [Option.some.injEq] at h
      rw [← h]
      exact entShift_writeEntries T p (Node.file t) hT fs.entries
    | malformed =>
      simp only [Option.some.injEq] at h
      rw [← h]
      exact entShift_writeEntries T p (Node.file t) hT fs.entries

theorem touchedBy_self (d : String) : TouchedBy d d := Or.inl rfl

theorem touchedBy_child (d n : String) (hn : '/' ∉ n.data) :
    TouchedBy d (pjoin d n) := Or.inr ⟨n, hn, rfl⟩

theorem pathOf_touched (od f : String) (st : Stage) :
    TouchedBy (pjoin od (stageStr st)) (pathOf od f st) := by
  obtain ⟨nm, hnm, he⟩ := pathOf_shape od f st
  rw [he]
  exact touchedBy_child _ nm hnm

theorem keeps_already_enqueued (od f : String) (s : St) :
    Keeps (TouchedBy (pjoin od "runs")) s.fs ((already_enqueued od f s).2).fs :=
  keeps_ensureDir _ s (pjoin od "runs") (touchedBy_self _)

theorem keeps_already_fetched (od f : String) (s : St) :
    Keeps (TouchedBy (pjoin od "results")) s.fs ((already_fetched od f s).2).fs :=
  keeps_ensureDir _ s (pjoin od "results") (touchedBy_self _)

theorem keeps_enqueue_one_raw (o : Oracle) (cfg : Config) (f : String) (s : St) :
    Keeps (TouchedBy (pjoin cfg.outputDir "runs")) s.fs
      ((enqueue_one_raw o cfg f s).2).fs := by
  rcases hv : validate_file f s.fs with ⟨⟩ | e
  · rcases hp : s.fs.parseCsv f with - | df
    · simp only [enqueue_one_raw, hv, hp]
      exact keeps_refl _ _
    · by_cases hd : cfg.dryRun = true
      · simp only [enqueue_one_raw, hv, hp]
        rw [if_pos hd]
        exact keeps_refl _ _
      · rcases hc : create_run_payloads df SOURCE_ROOTDOMAIN_NAME cfg.processor with m | e2
        · rcases hr : o.runIdsFor ("tg" ++ toString s.nextGroupId) m.length with em | rids
          · simp only [enqueue_one_raw, hv, hp, hc, createGroup, St.logEv, hr]
            rw [if_neg hd]
            exact keeps_refl _ _
          · rcases hb : buildStateRows rids ("tg" ++ toString s.nextGroupId) m 0 with - | srows
            · simp only [enqueue_one_raw, hv, hp, hc, createGroup, St.logEv, hr, hb]
              rw [if_neg hd]
              exact keeps_refl _ _
            · rcases hw : (ensureDir
                  { s with
                    nextGroupId := s.nextGroupId + 1
                    created := s.created ++ ["tg" ++ toString s.nextGroupId]
                    events := (s.events ++
                      [Event.createdGroup ("tg" ++ toString s.nextGroupId)]) ++
                      [Event.addedRuns ("tg" ++ toString s.nextGroupId) m.length] }
                  (pjoin cfg.outputDir (stageStr Stage.runs))).fs.write
                  (pathOf cfg.outputDir f Stage.runs)
                  (mkTable stateHeader srows) with - | fs'
              · simp only [enqueue_one_raw, hv, hp, hc, createGroup, St.logEv, hr, hb,
                  output_file_path, hw]
                rw [if_neg hd]
                exact keeps_ensureDir (TouchedBy (pjoin cfg.outputDir "runs"))
                  { s with
                    nextGroupId := s.nextGroupId + 1
                    created := s.created ++ ["tg" ++ toString s.nextGroupId]
                    events := (s.events ++
                      [Event.createdGroup ("tg" ++ toString s.nextGroupId)]) ++
                      [Event.addedRuns ("tg" ++ toString s.nextGroupId) m.length] }
                  (pjoin cfg.outputDir (stageStr Stage.runs)) (touchedBy_self _)
              · simp only [enqueue_one_raw, hv, hp, hc, createGroup, St.logEv, hr, hb,
                  output_file_path, hw]
                rw [if_neg hd]
                exact keeps_trans _
                  (keeps_ensureDir (TouchedBy (pjoin cfg.outputDir "runs"))
                    { s with
                      nextGroupId := s.nextGroupId + 1
                      created := s.created ++ ["tg" ++ toString s.nextGroupId]
                      events := (s.events ++
                        [Event.createdGroup ("tg" ++ toString s.nextGroupId)]) ++
                        [Event.addedRuns ("tg" ++ toString s.nextGroupId) m.length] }
                    (pjoin cfg.outputDir (stageStr Stage.runs)) (touchedBy_self _))
                  (keeps_write _ _ _ (pathOf_touched cfg.outputDir f Stage.runs) hw)
        · simp only [enqueue_one_raw, hv, hp, hc]
          rw [if_neg hd]
          exact keeps_refl _ _
  · cases e with
    | validation m =>
      simp only [enqueue_one_raw, hv]
      exact keeps_refl _ _
    | nonRetryable m =>
      by_cases hs : cfg.skipInvalid = true
      · simp only [enqueue_one_raw, hv]
        rw [if_neg (not_not_intro hs)]
        exact keeps_refl _ _
      · simp only [enqueue_one_raw, hv]
        rw [if_pos hs]
        exact keeps_refl _ _
    | generic m =>
      simp only [enqueue_one_raw, hv]
      exact keeps_refl _ _
    | fuelOut =>
      simp only [enqueue_one_raw, hv]
      exact keeps_refl _ _

theorem keeps_enqueue_one (o : Oracle) (cfg : Config) (f : String) (s : St) :
    Keeps (TouchedBy (pjoin cfg.outputDir "runs")) s.fs
      ((enqueue_one o cfg f s).2).fs := by
  rcases hr : enqueue_one_raw o cfg f s with ⟨r, s1⟩
  have hk := keeps_enqueue_one_raw o cfg f s
  rw [hr] at hk
  simp only [enqueue_one, hr]
  cases r with
  | ok b => exact hk
  | err e =>
    cases e with
    | validation m => exact hk
    | nonRetryable m => exact hk
    | generic m => exact hk
    | fuelOut => exact hk

theorem keeps_enqueuePass (o : Oracle) (cfg : Config) :
    ∀ (files : List String) (s : St),
      Keeps (TouchedBy (pjoin cfg.outputDir "runs")) s.fs
        ((enqueuePass o cfg files s).2).fs := by
  intro files
  induction files with
  | nil =>
    intro s
    exact keeps_refl _ _
  | cons f rest ih =>
    intro s
    rcases haf : already_enqueued cfg.outputDir f s with ⟨b, s2⟩
    have hk1 := keeps_already_enqueued cfg.outputDir f s
    rw [haf] at hk1
    simp only [enqueuePass, haf]
    cases b with
    | true =>
      rw [if_pos rfl]
      exact keeps_trans _ hk1 (ih (s2.logEv (Event.infoSkipEnqueued f)))
    | false =>
      rw [if_neg (show ¬(false = true) from fun h => Bool.noConfusion h)]
      split
      next e s3 heq =>
        have hk2 := keeps_enqueue_one o cfg f s2
        rw [heq] at hk2
        exact keeps_trans _ hk1 hk2
      next completed s3 heq =>
        have hk2 := keeps_enqueue_one o cfg f s2
        rw [heq] at hk2
        split
        next allRest s4 heq2 =>
          have hk3 := ih s3
          rw [heq2] at hk3
          exact keeps_trans _ hk1 (keeps_trans _ hk2 hk3)
        next e2 s4 heq2 =>
          have hk3 := ih s3
          rw [heq2] at hk3
          exact keeps_trans _ hk1 (keeps_trans _ hk2 hk3)

theorem keeps_enqueue_all (o : Oracle) (cfg : Config) :
    ∀ (fuel : Nat) (s : St),
      Keeps (TouchedBy (pjoin cfg.outputDir "runs")) s.fs
        ((enqueue_all o cfg fuel s).2).fs := by
  intro fuel
  induction fuel with
  | zero =>
    intro s
    exact keeps_refl _ _
  | succ n ih =>
    intro s
    rcases hi : iter_files cfg.inputDir s.fs with files | e
    · simp only [enqueue_all, hi]
      split
      next e s2 heq =>
        have hk := keeps_enqueuePass o cfg files s
        rw [heq] at hk
        exact hk
      next s2 heq =>
        have hk := keeps_enqueuePass o cfg files s
        rw [heq] at hk
        exact hk
      next s2 heq =>
        have hk := keeps_enqueuePass o cfg files s
        rw [heq] at hk
        by_cases hd : cfg.dryRun = true
        · rw [if_pos hd]
          exact hk
        · rw [if_neg hd]
          exact keeps_trans _ hk (ih s2)
    · simp only [enqueue_all, hi]
      exact keeps_refl _ _

theorem collectResults_core (o : Oracle) (rf : String) (hdr : List String)
    (tgid : String) :
    ∀ (rows : List (List String)) (s : St),
      ((collectResults o rf hdr tgid rows s).2).fs = s.fs ∧
      ((collectResults o rf hdr tgid rows s).2).created = s.created ∧
      ((collectResults o rf hdr tgid rows s).2).nextGroupId = s.nextGroupId := by
  intro rows
  induction rows with
  | nil =>
    intro s
    exact ⟨rfl, rfl, rfl⟩
  | cons row rest ih =>
    intro s
    rcases hr : cellOf hdr row runIdCol with - | rid
    · simp only [collectResults, hr]
      exact ⟨trivial, trivial, trivial⟩
    · rcases ho : o.runResult rid with em | out
      · simp only [collectResults, hr, ho]
        exact ih _
      · cases out with
        | nonJson =>
          simp only [collectResults, hr, ho]
          exact ih _
        | json content =>
          rcases hm : cellOf hdr row mergeIdCol with - | mk
          · simp only [collectResults, hr, ho, hm]
            exact ⟨rfl, rfl, rfl⟩
          · rcases hc : collectResults o rf hdr tgid rest
                (s.logEv (Event.resultFetch rid)) with ⟨r2, s2⟩
            have hrec := ih (s.logEv (Event.resultFetch rid))
            rw [hc] at hrec
            simp only [collectResults, hr, ho, hm, hc]
            cases r2 with
            | ok tl => exact hrec
            | err e => exact hrec

theorem keeps_fetch_one_raw (o : Oracle) (od f : String) (s : St) :
    Keeps (TouchedBy (pjoin od "results")) s.fs
      ((fetch_one_raw o od f s).2).fs := by
  rcases hp : s.fs.parseCsv f with - | t
  · simp only [fetch_one_raw, hp]
    exact keeps_refl _ _
  · rcases hci : colIdx t.header taskGroupIdCol with - | ci
    · simp only [fetch_one_raw, hp, hci]
      exact keeps_refl _ _
    · rcases hh : t.rows.head? with - | row0
      · simp only [fetch_one_raw, hp, hci, hh]
        exact keeps_refl _ _
      · rcases hg : row0.get? ci with - | tgid
        · simp only [fetch_one_raw, hp, hci, hh, hg]
          exact keeps_refl _ _
        · rcases ha : o.isActive tgid with em | act
          · simp only [fetch_one_raw, hp, hci, hh, hg, ha]
            exact keeps_refl _ _
          · cases act with
            | true =>
              simp only [fetch_one_raw, hp, hci, hh, hg, ha]
              exact keeps_refl _ _
            | false =>
              rcases hc : collectResults o f t.header tgid t.rows
                  (s.logEv (Event.statusQuery tgid)) with ⟨r, s1⟩
              have hcf := collectResults_core o f t.header tgid t.rows
                (s.logEv (Event.statusQuery tgid))
              rw [hc] at hcf
              have h1 : s1.fs = s.fs := hcf.1
              cases r with
              | err e =>
                simp only [fetch_one_raw, hp, hci, hh, hg, ha, hc]
                have hgoal : Keeps (TouchedBy (pjoin od "results")) s.fs s1.fs := by
                  rw [h1]
                  exact keeps_refl _ _
                exact hgoal
              | ok results =>
                simp only [fetch_one_raw, hp, hci, hh, hg, ha, hc, output_file_path]
                rcases hw : (ensureDir s1 (pjoin od (stageStr Stage.results))).fs.write
                    (pathOf od f Stage.results)
                    (mkTable resultsHeader results) with - | fs2
                · simp only [hw]
                  have hke : Keeps (TouchedBy (pjoin od "results")) s1.fs
                      (ensureDir s1 (pjoin od (stageStr Stage.results))).fs :=
                    keeps_ensureDir _ s1 _ (touchedBy_self _)
                  rw [h1] at hke
                  exact hke
                · simp only [hw]
                  have hke : Keeps (TouchedBy (pjoin od "results")) s1.fs
                      (ensureDir s1 (pjoin od (stageStr Stage.results))).fs :=
                    keeps_ensureDir _ s1 _ (touchedBy_self _)
                  rw [h1] at hke
                  exact keeps_trans _ hke
                    (keeps_write _ _ _ (pathOf_touched od f Stage.results) hw)

theorem keeps_fetch_one (o : Oracle) (od f : String) (s : St) :
    Keeps (TouchedBy (pjoin od "results")) s.fs
      ((fetch_one o od f s).2).fs := by
  rcases hr : fetch_one_raw o od f s with ⟨r, s1⟩
  have hk := keeps_fetch_one_raw o od f s
  rw [hr] at hk
  simp only [fetch_one, hr]
  cases r with
  | ok b => exact hk
  | err e => exact hk

theorem keeps_fetchPass (o : Oracle) (od : String) :
    ∀ (files : List String) (s : St),
      Keeps (TouchedBy (pjoin od "results")) s.fs
        ((fetchPass o od files s).2).fs := by
  intro files
  induction files with
  | nil =>
    intro s
    exact keeps_refl _ _
  | cons f rest ih =>
    intro s
    rcases haf : already_fetched od f s with ⟨b, s2⟩
    have hk1 := keeps_already_fetched od f s
    rw [haf] at hk1
    simp only [fetchPass, haf]
    cases b with
    | true =>
      rw [if_pos rfl]
      exact keeps_trans _ hk1 (ih (s2.logEv (Event.infoSkipFetched f)))
    | false =>
      rw [if_neg (show ¬(false = true) from fun h => Bool.noConfusion h)]
      split
      next e s3 heq =>
        have hk2 := keeps_fetch_one o od f s2
        rw [heq] at hk2
        exact keeps_trans _ hk1 hk2
      next s3 heq =>
        have hk2 := keeps_fetch_one o od f s2
        rw [heq] at hk2
        exact keeps_trans _ hk1 (keeps_trans _ hk2 (ih s3))
      next s3 heq =>
        have hk2 := keeps_fetch_one o od f s2
        rw [heq] at hk2
        exact keeps_trans _ hk1 hk2

theorem keeps_fetch_all (o : Oracle) (od : String) :
    ∀ (fuel : Nat) (s : St),
      Keeps (TouchedBy (pjoin od "results")) s.fs
        ((fetch_all o od fuel s).2).fs := by
  intro fuel
  induction fuel with
  | zero =>
    intro s
    exact keeps_refl _ _
  | succ n ih =>
    intro s
    rcases hi : iter_files (get_output_dir od Stage.runs) s.fs with files | e
    · rcases hps : fetchPass o od files s with ⟨r, s2⟩
      have hk := keeps_fetchPass o od files s
      rw [hps] at hk
      simp only [fetch_all, hi, hps]
      cases r with
      | err e => exact hk
      | ok b =>
        cases b with
        | true => exact hk
        | false => exact keeps_trans _ hk (ih s2)
    · simp only [fetch_all, hi]
      exact keeps_refl _ _

theorem keeps_mergeCollect (od : String) :
    ∀ (files : List String) (s : St),
      Keeps (TouchedBy (pjoin od "results")) s.fs
        ((mergeCollect od files s).2).fs := by
  intro files
  induction files with
  | nil =>
    intro s
    exact keeps_refl _ _
  | cons f rest ih =>
    intro s
    rcases haf : already_fetched od f s with ⟨b, s2⟩
    have hk1 := keeps_already_fetched od f s
    rw [haf] at hk1
    simp only [mergeCollect, haf]
    cases b with
    | false =>
      rw [if_pos (show ¬(false = true) from fun h => Bool.noConfusion h)]
      exact keeps_trans _ hk1 (ih (s2.logEv (Event.infoSkipMerge f)))
    | true =>
      rw [if_neg (not_not_intro (rfl : true = true))]
      simp only [output_file_path]
      have hk2 : Keeps (TouchedBy (pjoin od "results")) s.fs
          (ensureDir s2 (pjoin od (stageStr Stage.results))).fs :=
        keeps_trans _ hk1 (keeps_ensureDir _ s2 _ (touchedBy_self _))
      rcases hrt : (ensureDir s2 (pjoin od (stageStr Stage.results))).fs.parseCsv
          (pathOf od f Stage.results) with - | rt
      · simp only [hrt]
        exact hk2
      · simp only [hrt]
        rcases hit : (ensureDir s2 (pjoin od (stageStr Stage.results))).fs.parseCsv f
          with - | it
        · simp only [hit]
          exact hk2
        · simp only [hit]
          rcases hj : leftJoin it rt mergeIdCol with - | mt
          · simp only [hj]
            exact hk2
          · simp only [hj]
            split
            next tl s3 heq =>
              have hk3 := ih (ensureDir s2 (pjoin od (stageStr Stage.results)))
              rw [heq] at hk3
              exact keeps_trans _ hk2 hk3
            next e s3 heq =>
              have hk3 := ih (ensureDir s2 (pjoin od (stageStr Stage.results)))
              rw [heq] at hk3
              exact keeps_trans _ hk2 hk3

theorem keeps_merge_results (input_dir od : String) (s : St) :
    Keeps (TouchedBy (pjoin od "results")) s.fs
      ((merge_results input_dir od s).2).fs := by
  rcases hi : iter_files input_dir s.fs with files | e
  · simp only [merge_results, hi]
    split
    next e s2 heq =>
      have hk1 := keeps_mergeCollect od files s
      rw [heq] at hk1
      exact hk1
    next dfs s2 heq =>
      have hk1 := keeps_mergeCollect od files s
      rw [heq] at hk1
      split
      next heq2 =>
        exact hk1
      next mt heq2 =>
        simp only [output_file_path]
        split
        next heq3 =>
          exact keeps_trans _ hk1 (keeps_ensureDir _ s2 _ (touchedBy_self _))
        next fs2 heq3 =>
          exact keeps_trans _
            (keeps_trans _ hk1 (keeps_ensureDir _ s2 _ (touchedBy_self _)))
            (keeps_write _ _ _ (pathOf_touched od "merged" Stage.results) heq3)
  · simp only [merge_results, hi]
    exact keeps_refl _ _

/-! ## Inversion and stability of `iter_files` -/

theorem iter_files_ok {d : String} {fs : FS} {files : List String}
    (h : iter_files d fs = Res.ok files) :
    fs.existsP d = true ∧ csvNames fs d ≠ [] ∧
    files = (csvNames fs d).map (fun n => pjoin d n) := by
  simp only [iter_files] at h
  by_cases he : fs.existsP d = true
  · rw [if_neg (not_not_intro he)] at h
    by_cases hn : (csvNames fs d).isEmpty = true
    · rw [if_pos hn] at h
      exact absurd h (fun hh => Res.noConfusion hh)
    · rw [if_neg hn] at h
      refine ⟨he, ?_, ?_⟩
      · intro hnil
        apply hn
        rw [hnil]
        rfl
      · injection h with h2
        exact h2.symm
  · rw [if_pos he] at h
    exact absurd h (fun hh => Res.noConfusion hh)

theorem csvNames_mem {fs : FS} {d n : String} (h : n ∈ csvNames fs d) :
    '/' ∉ n.data ∧ n ≠ "" ∧ endsWithS n ".csv" = true := by
  unfold csvNames at h
  obtain ⟨hl, hcsv⟩ := List.mem_filter.mp h
  unfold FS.listdir at hl
  obtain ⟨e, he, hcn⟩ := List.mem_filterMap.mp hl
  obtain ⟨-, hslash, hne⟩ := childName_some d e.1 n hcn
  exact ⟨hslash, hne, hcsv⟩

theorem iter_files_mem {d : String} {fs : FS} {files : List String}
    (h : iter_files d fs = Res.ok files) {f : String} (hf : f ∈ files) :
    ∃ n, '/' ∉ n.data ∧ n ≠ "" ∧ endsWithS n ".csv" = true ∧ f = pjoin d n := by
  obtain ⟨-, -, hmap⟩ := iter_files_ok h
  rw [hmap] at hf
  obtain ⟨n, hn, hfe⟩ := List.mem_map.mp hf
  obtain ⟨h1, h2, h3⟩ := csvNames_mem hn
  exact ⟨n, h1, h2, h3, hfe.symm⟩

theorem iter_files_stable {T : String → Prop} {a b : FS} {d : String}
    {files : List String} (h : Keeps T a b)
    (hT : ∀ k m, T k → childName d k = some m → endsWithS m ".csv" = false)
    (hit : iter_files d a = Res.ok files) :
    iter_files d b = Res.ok files := by
  obtain ⟨hex, hne, hmap⟩ := iter_files_ok hit
  have hcsv : csvNames b d = csvNames a d := keeps_csvNames d hT h
  have hexb : b.existsP d = true := keeps_exists_mono h d hex
  simp only [iter_files]
  rw [if_neg (not_not_intro hexb), hcsv,
    if_neg (fun hemp : (csvNames a d).isEmpty = true =>
      hne (List.isEmpty_iff.mp hemp)), hmap]

theorem stageStr_no_slash (st : Stage) : '/' ∉ (stageStr st).data := by
  cases st <;> decide

theorem stageStr_not_csv (st : Stage) : endsWithS (stageStr st) ".csv" = false := by
  cases st <;> decide

/-- A `.csv`-named direct child of a directory other than a stage
directory is never on that stage's write footprint. -/
theorem listed_not_touched {od d n : String} (hn : '/' ∉ n.data)
    (hcsv : endsWithS n ".csv" = true) (st : Stage)
    (hne : d ≠ pjoin od (stageStr st)) :
    ¬ TouchedBy (pjoin od (stageStr st)) (pjoin d n) := by
  rintro (heq | ⟨m, hm, heq⟩)
  · obtain ⟨-, hn2⟩ := pjoin_inj d od n (stageStr st) hn (stageStr_no_slash st) heq
    rw [hn2, stageStr_not_csv st] at hcsv
    exact Bool.noConfusion hcsv
  · obtain ⟨hd, -⟩ := pjoin_inj d (pjoin od (stageStr st)) n m hn hm heq
    exact hne hd

/-! ## Lookup-congruence of the read-only operations -/

theorem existsP_congr {a b : FS} (p : String) (h : b.lookup p = a.lookup p) :
    b.existsP p = a.existsP p := by
  unfold FS.existsP
  rw [h]

theorem parseCsv_congr {a b : FS} (p : String) (h : b.lookup p = a.lookup p) :
    b.parseCsv p = a.parseCsv p := by
  unfold FS.parseCsv
  rw [h]

theorem validate_file_congr {a b : FS} (f : String) (h : b.lookup f = a.lookup f) :
    validate_file f b = validate_file f a := by
  unfold validate_file
  rw [existsP_congr f h, parseCsv_congr f h]

theorem mergeCollectFs_congr {a b : FS} (od : String) :
    ∀ files : List String,
      (∀ f ∈ files, b.lookup f = a.lookup f ∧
        b.lookup (pathOf od f Stage.results) = a.lookup (pathOf od f Stage.results)) →
      mergeCollectFs b od files = mergeCollectFs a od files := by
  intro files
  induction files with
  | nil =>
    intro h
    rfl
  | cons f rest ih =>
    intro h
    have hf := h f (List.mem_cons_self f rest)
    have hrest := fun g hg => h g (List.mem_cons_of_mem f hg)
    simp only [mergeCollectFs]
    rw [existsP_congr _ hf.2, parseCsv_congr _ hf.2, parseCsv_congr _ hf.1, ih hrest]

/-! ## Run-1 extraction: what a successful enqueue stage guarantees -/

theorem already_enqueued_spec (od f : String) (s : St) :
    already_enqueued od f s =
      ((ensureDir s (pjoin od "runs")).fs.existsP (pathOf od f Stage.runs),
        ensureDir s (pjoin od "runs")) := rfl

theorem already_fetched_spec (od f : String) (s : St) :
    already_fetched od f s =
      ((ensureDir s (pjoin od "results")).fs.existsP (pathOf od f Stage.results),
        ensureDir s (pjoin od "results")) := rfl

theorem goodEnq_keeps {cfg : Config} {T : String → Prop} {a b : FS} {f : String}
    (h : Keeps T a b) (hnt : ¬ T f) (hg : GoodEnq cfg a f) : GoodEnq cfg b f := by
  rcases hg with hex | ⟨hs, m, hv⟩
  · exact Or.inl (keeps_exists_mono h _ hex)
  · refine Or.inr ⟨hs, m, ?_⟩
    rw [validate_file_congr f (keeps_lookup_eq h f hnt)]
    exact hv

theorem enqueue_one_raw_true {o : Oracle} {cfg : Config} {f : String} {s s' : St}
    (hd : cfg.dryRun = false)
    (h : enqueue_one_raw o cfg f s = (Res.ok true, s')) :
    GoodEnq cfg s'.fs f := by
  rcases hv : validate_file f s.fs with ⟨⟩ | e
  · rcases hp : s.fs.parseCsv f with - | df
    · simp only [enqueue_one_raw, hv, hp] at h
      exact Res.noConfusion (congrArg Prod.fst h)
    · rcases hc : create_run_payloads df SOURCE_ROOTDOMAIN_NAME cfg.processor with m | e2
      · rcases hr : o.runIdsFor ("tg" ++ toString s.nextGroupId) m.length with em | rids
        · simp only [enqueue_one_raw, hv, hp, hd, hc, createGroup, St.logEv, hr] at h
          exact Res.noConfusion (congrArg Prod.fst h)
        · rcases hb : buildStateRows rids ("tg" ++ toString s.nextGroupId) m 0 with - | srows
          · simp only [enqueue_one_raw, hv, hp, hd, hc, createGroup, St.logEv, hr, hb] at h
            exact Res.noConfusion (congrArg Prod.fst h)
          · rcases hw : (ensureDir
                { s with
                  nextGroupId := s.nextGroupId + 1
                  created := s.created ++ ["tg" ++ toString s.nextGroupId]
                  events := (s.events ++
                    [Event.createdGroup ("tg" ++ toString s.nextGroupId)]) ++
                    [Event.addedRuns ("tg" ++ toString s.nextGroupId) m.length] }
                (pjoin cfg.outputDir (stageStr Stage.runs))).fs.write
                (pathOf cfg.outputDir f Stage.runs)
                (mkTable stateHeader srows) with - | fs2
            · simp only [enqueue_one_raw, hv, hp, hd, hc, createGroup, St.logEv, hr, hb,
                output_file_path, hw] at h
              exact Res.noConfusion (congrArg Prod.fst h)
            · simp only [enqueue_one_raw, hv, hp, hd, hc, createGroup, St.logEv, hr, hb,
                output_file_path, hw] at h
              injection h with h1 h2
              refine Or.inl ?_
              rw [← h2]
              show fs2.existsP (pathOf cfg.outputDir f Stage.runs) = true
              unfold FS.existsP
              rw [write_lookup_self _ fs2 _ _ hw]
              rfl
      · simp only [enqueue_one_raw, hv, hp, hd, hc] at h
        exact Res.noConfusion (congrArg Prod.fst h)
  · cases e with
    | validation m =>
      simp only [enqueue_one_raw, hv] at h
      exact Res.noConfusion (congrArg Prod.fst h)
    | nonRetryable m =>
      by_cases hs : cfg.skipInvalid = true
      · simp only [enqueue_one_raw, hv] at h
        rw [if_neg (not_not_intro hs)] at h
        injection h with h1 h2
        refine Or.inr ⟨hs, m, ?_⟩
        rw [← h2]
        show validate_file f s.fs = Res.err (PyErr.nonRetryable m)
        exact hv
      · simp only [enqueue_one_raw, hv] at h
        rw [if_pos hs] at h
        exact Res.noConfusion (congrArg Prod.fst h)
    | generic m =>
      simp only [enqueue_one_raw, hv] at h
      exact Res.noConfusion (congrArg Prod.fst h)
    | fuelOut =>
      simp only [enqueue_one_raw, hv] at h
      exact Res.noConfusion (congrArg Prod.fst h)

theorem enqueue_one_true {o : Oracle} {cfg : Config} {f : String} {s s' : St}
    (h : enqueue_one o cfg f s = (Res.ok true, s')) :
    enqueue_one_raw o cfg f s = (Res.ok true, s') := by
  rcases hr : enqueue_one_raw o cfg f s with ⟨r, s1⟩
  simp only [enqueue_one, hr] at h
  cases r with
  | ok b =>
    injection h with h1 h2
    injection h1 with h3
    rw [h3, h2]
  | err e =>
    cases e with
    | validation m => exact absurd h (fun hh => Res.noConfusion (congrArg Prod.fst hh))
    | nonRetryable m =>
      exact Res.noConfusion (congrArg Prod.fst h) (fun hb => Bool.noConfusion hb)
    | generic m =>
      exact Res.noConfusion (congrArg Prod.fst h) (fun hb => Bool.noConfusion hb)
    | fuelOut =>
      exact Res.noConfusion (congrArg Prod.fst h) (fun hb => Bool.noConfusion hb)

theorem enqueuePass_ok_good {o : Oracle} {cfg : Config} (hd : cfg.dryRun = false) :
    ∀ (files : List String) (s s' : St),
      (∀ f ∈ files, ¬ TouchedBy (pjoin cfg.outputDir "runs") f) →
      enqueuePass o cfg files s = (Res.ok true, s') →
      ∀ f ∈ files, GoodEnq cfg s'.fs f := by
  intro files
  induction files with
  | nil =>
    intro s s' hnt h f hf
    exact absurd hf (List.not_mem_nil f)
  | cons g rest ih =>
    intro s s' hnt h f hf
    rcases haf : already_enqueued cfg.outputDir g s with ⟨b, s2⟩
    have hspec := already_enqueued_spec cfg.outputDir g s
    rw [haf] at hspec
    injection hspec with hb hs2
    simp only [enqueuePass, haf] at h
    cases b with
    | true =>
      rw [if_pos rfl] at h
      have hk := keeps_enqueuePass o cfg rest (s2.logEv (Event.infoSkipEnqueued g))
      rw [h] at hk
      rcases List.mem_cons.mp hf with rfl | hf'
      · refine Or.inl (keeps_exists_mono hk _ ?_)
        show s2.fs.existsP (pathOf cfg.outputDir f Stage.runs) = true
        rw [hs2]
        exact hb.symm
      · exact ih _ _ (fun x hx => hnt x (List.mem_cons_of_mem g hx)) h f hf'
    | false =>
      rw [if_neg (show ¬(false = true) from fun hh => Bool.noConfusion hh)] at h
      split at h
      next e s3 heq => exact absurd (congrArg Prod.fst h) (fun hh => Res.noConfusion hh)
      next completed s3 heq =>
        split at h
        next allRest s4 heq2 =>
          injection h with h1 h2
          injection h1 with h3
          have hca : completed = true ∧ allRest = true := by simpa using h3
          have hcomp : completed = true := hca.1
          have hall : allRest = true := hca.2
          rcases List.mem_cons.mp hf with rfl | hf'
          · rw [hcomp] at heq
            have hraw := enqueue_one_true heq
            have hgood := enqueue_one_raw_true hd hraw
            have hk := keeps_enqueuePass o cfg rest s3
            rw [heq2] at hk
            rw [← h2]
            exact goodEnq_keeps hk (hnt f (List.mem_cons_self f rest)) hgood
          · rw [hall] at heq2
            have := ih _ _ (fun x hx => hnt x (List.mem_cons_of_mem g hx)) heq2 f hf'
            rw [← h2]
            exact this
        next e2 s4 heq2 =>
          exact absurd (congrArg Prod.fst h) (fun hh => Res.noConfusion hh)

theorem enqueuePass_cons_ensures (o : Oracle) (cfg : Config) (g : String)
    (rest : List String) (s : St) :
    ((enqueuePass o cfg (g :: rest) s).2).fs.existsP (pjoin cfg.outputDir "runs") =
      true := by
  rcases haf : already_enqueued cfg.outputDir g s with ⟨b, s2⟩
  have hspec := already_enqueued_spec cfg.outputDir g s
  rw [haf] at hspec
  injection hspec with hb hs2
  have hex2 : s2.fs.existsP (pjoin cfg.outputDir "runs") = true := by
    rw [hs2]
    exact ensureDir_exists_self s _
  simp only [enqueuePass, haf]
  cases b with
  | true =>
    rw [if_pos rfl]
    exact keeps_exists_mono
      (keeps_enqueuePass o cfg rest (s2.logEv (Event.infoSkipEnqueued g))) _ hex2
  | false =>
    rw [if_neg (show ¬(false = true) from fun hh => Bool.noConfusion hh)]
    split
    next e s3 heq =>
      have hk := keeps_enqueue_one o cfg g s2
      rw [heq] at hk
      exact keeps_exists_mono hk _ hex2
    next completed s3 heq =>
      have hk := keeps_enqueue_one o cfg g s2
      rw [heq] at hk
      split
      next allRest s4 heq2 =>
        have hk2 := keeps_enqueuePass o cfg rest s3
        rw [heq2] at hk2
        exact keeps_exists_mono hk2 _ (keeps_exists_mono hk _ hex2)
      next e2 s4 heq2 =>
        have hk2 := keeps_enqueuePass o cfg rest s3
        rw [heq2] at hk2
        exact keeps_exists_mono hk2 _ (keeps_exists_mono hk _ hex2)

theorem enqueue_all_ok {o : Oracle} {cfg : Config} (hd : cfg.dryRun = false) :
    ∀ (fuel : Nat) (s s' : St),
      enqueue_all o cfg fuel s = (Res.ok (), s') →
      ∃ files sp, iter_files cfg.inputDir sp.fs = Res.ok files ∧
        enqueuePass o cfg files sp = (Res.ok true, s') := by
  intro fuel
  induction fuel with
  | zero =>
    intro s s' h
    exact absurd (congrArg Prod.fst h) (fun hh => Res.noConfusion hh)
  | succ n ih =>
    intro s s' h
    rcases hi : iter_files cfg.inputDir s.fs with files | e
    · simp only [enqueue_all, hi] at h
      split at h
      next e s2 heq => exact absurd (congrArg Prod.fst h) (fun hh => Res.noConfusion hh)
      next s2 heq =>
        injection h with h1 h2
        exact ⟨files, s, hi, by rw [heq, h2]⟩
      next s2 heq =>
        rw [if_neg (show ¬(cfg.dryRun = true) by rw [hd]; exact fun hh => Bool.noConfusion hh)] at h
        exact ih s2 s' h
    · simp only [enqueue_all, hi] at h
      exact absurd (congrArg Prod.fst h) (fun hh => Res.noConfusion hh)

/-! ## Run-1 extraction: what a successful fetch stage guarantees -/

theorem fetch_one_raw_true {o : Oracle} {od f : String} {s s' : St}
    (h : fetch_one_raw o od f s = (Res.ok true, s')) :
    s'.fs.existsP (pathOf od f Stage.results) = true := by
  rcases hp : s.fs.parseCsv f with - | t
  · simp only [fetch_one_raw, hp] at h
    exact Res.noConfusion (congrArg Prod.fst h)
  · rcases hci : colIdx t.header taskGroupIdCol with - | ci
    · simp only [fetch_one_raw, hp, hci] at h
      exact Res.noConfusion (congrArg Prod.fst h)
    · rcases hh : t.rows.head? with - | row0
      · simp only [fetch_one_raw, hp, hci, hh] at h
        exact Res.noConfusion (congrArg Prod.fst h)
      · rcases hg : row0.get? ci with - | tgid
        · simp only [fetch_one_raw, hp, hci, hh, hg] at h
          exact Res.noConfusion (congrArg Prod.fst h)
        · rcases ha : o.isActive tgid with em | act
          · simp only [fetch_one_raw, hp, hci, hh, hg, ha] at h
            exact Res.noConfusion (congrArg Prod.fst h)
          · cases act with
            | true =>
              simp only [fetch_one_raw, hp, hci, hh, hg, ha] at h
              exact Res.noConfusion (congrArg Prod.fst h) (fun hb => Bool.noConfusion hb)
            | false =>
              rcases hc : collectResults o f t.header tgid t.rows
                  (s.logEv (Event.statusQuery tgid)) with ⟨r, s1⟩
              cases r with
              | err e =>
                simp only [fetch_one_raw, hp, hci, hh, hg, ha, hc] at h
                exact Res.noConfusion (congrArg Prod.fst h)
              | ok results =>
                rcases hw : (ensureDir s1 (pjoin od (stageStr Stage.results))).fs.write
                    (pathOf od f Stage.results)
                    (mkTable resultsHeader results) with - | fs2
                · simp only [fetch_one_raw, hp, hci, hh, hg, ha, hc,
                    output_file_path, hw] at h
                  exact Res.noConfusion (congrArg Prod.fst h)
                · simp only [fetch_one_raw, hp, hci, hh, hg, ha, hc,
                    output_file_path, hw] at h
                  injection h with h1 h2
                  rw [← h2]
                  show fs2.existsP (pathOf od f Stage.results) = true
                  unfold FS.existsP
                  rw [write_lookup_self _ fs2 _ _ hw]
                  rfl

theorem fetch_one_true {o : Oracle} {od f : String} {s s' : St}
    (h : fetch_one o od f s = (Res.ok true, s')) :
    fetch_one_raw o od f s = (Res.ok true, s') := by
  rcases hr : fetch_one_raw o od f s with ⟨r, s1⟩
  simp only [fetch_one, hr] at h
  cases r with
  | ok b =>
    injection h with h1 h2
    injection h1 with h3
    rw [h3, h2]
  | err e =>
    exact Res.noConfusion (congrArg Prod.fst h) (fun hb => Bool.noConfusion hb)

theorem fetchPass_ok_fetched {o : Oracle} {od : String} :
    ∀ (files : List String) (s s' : St),
      fetchPass o od files s = (Res.ok true, s') →
      ∀ f ∈ files, s'.fs.existsP (pathOf od f Stage.results) = true := by
  intro files
  induction files with
  | nil =>
    intro s s' h f hf
    exact absurd hf (List.not_mem_nil f)
  | cons g rest ih =>
    intro s s' h f hf
    rcases haf : already_fetched od g s with ⟨b, s2⟩
    have hspec := already_fetched_spec od g s
    rw [haf] at hspec
    injection hspec with hb hs2
    simp only [fetchPass, haf] at h
    cases b with
    | true =>
      rw [if_pos rfl] at h
      have hk := keeps_fetchPass o od rest (s2.logEv (Event.infoSkipFetched g))
      rw [h] at hk
      rcases List.mem_cons.mp hf with rfl | hf'
      · refine keeps_exists_mono hk _ ?_
        show s2.fs.existsP (pathOf od f Stage.results) = true
        rw [hs2]
        exact hb.symm
      · exact ih _ _ h f hf'
    | false =>
      rw [if_neg (show ¬(false = true) from fun hh => Bool.noConfusion hh)] at h
      split at h
      next e s3 heq => exact absurd (congrArg Prod.fst h) (fun hh => Res.noConfusion hh)
      next s3 heq =>
        rcases List.mem_cons.mp hf with rfl | hf'
        · have hraw := fetch_one_true heq
          have hex3 := fetch_one_raw_true hraw
          have hk := keeps_fetchPass o od rest s3
          rw [h] at hk
          exact keeps_exists_mono hk _ hex3
        · exact ih _ _ h f hf'
      next s3 heq =>
        exact Res.noConfusion (congrArg Prod.fst h) (fun hb => Bool.noConfusion hb)

theorem fetchPass_cons_ensures (o : Oracle) (od : String) (g : String)
    (rest : List String) (s : St) :
    ((fetchPass o od (g :: rest) s).2).fs.existsP (pjoin od "results") = true := by
  rcases haf : already_fetched od g s with ⟨b, s2⟩
  have hspec := already_fetched_spec od g s
  rw [haf] at hspec
  injection hspec with hb hs2
  have hex2 : s2.fs.existsP (pjoin od "results") = true := by
    rw [hs2]
    exact ensureDir_exists_self s _
  simp only [fetchPass, haf]
  cases b with
  | true =>
    rw [if_pos rfl]
    exact keeps_exists_mono
      (keeps_fetchPass o od rest (s2.logEv (Event.infoSkipFetched g))) _ hex2
  | false =>
    rw [if_neg (show ¬(false = true) from fun hh => Bool.noConfusion hh)]
    split
    next e s3 heq =>
      have hk := keeps_fetch_one o od g s2
      rw [heq] at hk
      exact keeps_exists_mono hk _ hex2
    next s3 heq =>
      have hk := keeps_fetch_one o od g s2
      rw [heq] at hk
      exact keeps_exists_mono (keeps_fetchPass o od rest s3) _
        (keeps_exists_mono hk _ hex2)
    next s3 heq =>
      have hk := keeps_fetch_one o od g s2
      rw [heq] at hk
      exact keeps_exists_mono hk _ hex2

theorem fetch_all_ok {o : Oracle} {od : String} :
    ∀ (fuel : Nat) (s s' : St),
      fetch_all o od fuel s = (Res.ok (), s') →
      ∃ files sp, iter_files (pjoin od "runs") sp.fs = Res.ok files ∧
        fetchPass o od files sp = (Res.ok true, s') := by
  intro fuel
  induction fuel with
  | zero =>
    intro s s' h
    exact absurd (congrArg Prod.fst h) (fun hh => Res.noConfusion hh)
  | succ n ih =>
    intro s s' h
    rcases hi : iter_files (get_output_dir od Stage.runs) s.fs with files | e
    · simp only [fetch_all, hi] at h
      split at h
      next e s2 heq => exact absurd (congrArg Prod.fst h) (fun hh => Res.noConfusion hh)
      next s2 heq =>
        injection h with h1 h2
        exact ⟨files, s, hi, by rw [heq, h2]⟩
      next s2 heq => exact ih s2 s' h
    · simp only [fetch_all, hi] at h
      exact absurd (congrArg Prod.fst h) (fun hh => Res.noConfusion hh)

/-! ## The merge stage as a pure function of the filesystem -/

theorem mergeCollect_pure_val (od : String) :
    ∀ (files : List String) (s : St),
      s.fs.existsP (pjoin od "results") = true →
      (mergeCollect od files s).1 = mergeCollectFs s.fs od files := by
  intro files
  induction files with
  | nil =>
    intro s hex
    rfl
  | cons f rest ih =>
    intro s hex
    have hed : ensureDir s (pjoin od (stageStr Stage.results)) = s :=
      ensureDir_noop s _ hex
    simp only [mergeCollect, mergeCollectFs, already_fetched, output_file_path, hed]
    by_cases hfe : s.fs.existsP (pathOf od f Stage.results) = true
    · rw [if_neg (not_not_intro hfe), hfe,
        if_neg (show ¬(true = false) from fun hh => Bool.noConfusion hh)]
      split
      next heq => rfl
      next rt heq =>
        split
        next heq2 => rfl
        next it heq2 =>
          split
          next heq3 => rfl
          next mt heq3 =>
            have hv := ih s hex
            rcases hmc : mergeCollect od rest s with ⟨r, s3⟩
            rw [hmc] at hv
            rw [← hv]
            cases r with
            | ok tl => rfl
            | err e => rfl
    · have hfe' : s.fs.existsP (pathOf od f Stage.results) = false := by
        rcases hq : s.fs.existsP (pathOf od f Stage.results) with - | -
        · rfl
        · exact absurd hq hfe
      rw [if_pos hfe, hfe', if_pos rfl]
      exact ih (s.logEv (Event.infoSkipMerge f)) hex

theorem mergeCollect_pure_st (od : String) :
    ∀ (files : List String) (s : St),
      s.fs.existsP (pjoin od "results") = true →
      ((mergeCollect od files s).2).fs = s.fs ∧
      ((mergeCollect od files s).2).created = s.created ∧
      ((mergeCollect od files s).2).nextGroupId = s.nextGroupId := by
  intro files
  induction files with
  | nil =>
    intro s hex
    exact ⟨rfl, rfl, rfl⟩
  | cons f rest ih =>
    intro s hex
    have hed : ensureDir s (pjoin od (stageStr Stage.results)) = s :=
      ensureDir_noop s _ hex
    simp only [mergeCollect, already_fetched, output_file_path, hed]
    by_cases hfe : s.fs.existsP (pathOf od f Stage.results) = true
    · rw [if_neg (not_not_intro hfe)]
      split
      next heq => exact ⟨rfl, rfl, rfl⟩
      next rt heq =>
        split
        next heq2 => exact ⟨rfl, rfl, rfl⟩
        next it heq2 =>
          split
          next heq3 => exact ⟨rfl, rfl, rfl⟩
          next mt heq3 =>
            have hst := ih s hex
            rcases hmc : mergeCollect od rest s with ⟨r, s3⟩
            rw [hmc] at hst
            cases r with
            | ok tl => exact hst
            | err e => exact hst
    · rw [if_pos hfe]
      exact ih (s.logEv (Event.infoSkipMerge f)) hex

/-- What a successful `merge_results` call did, stated over the starting
filesystem. -/
theorem merge_results_ok {input_dir od : String} {s s' : St}
    (hres : s.fs.existsP (pjoin od "results") = true)
    (h : merge_results input_dir od s = (Res.ok (), s')) :
    ∃ files dfs mt,
      iter_files input_dir s.fs = Res.ok files ∧
      mergeCollectFs s.fs od files = Res.ok dfs ∧
      concatTables dfs = some mt ∧
      s.fs.write (pathOf od "merged" Stage.results) mt = some s'.fs ∧
      s'.created = s.created ∧ s'.nextGroupId = s.nextGroupId := by
  rcases hi : iter_files input_dir s.fs with files | e
  · simp only [merge_results, hi] at h
    split at h
    next e s2 heq => exact absurd (congrArg Prod.fst h) (fun hh => Res.noConfusion hh)
    next dfs s2 heq =>
      have hval := mergeCollect_pure_val od files s hres
      have hst := mergeCollect_pure_st od files s hres
      rw [heq] at hval hst
      have hfs2 : s2.fs = s.fs := hst.1
      have hcr2 : s2.created = s.created := hst.2.1
      have hng2 : s2.nextGroupId = s.nextGroupId := hst.2.2
      split at h
      next heq2 => exact absurd (congrArg Prod.fst h) (fun hh => Res.noConfusion hh)
      next mt heq2 =>
        have hres2 : s2.fs.existsP (pjoin od "results") = true := by
          rw [hfs2]
          exact hres
        have hed : ensureDir s2 (pjoin od (stageStr Stage.results)) = s2 :=
          ensureDir_noop s2 _ hres2
        simp only [output_file_path, hed] at h
        split at h
        next heq3 => exact absurd (congrArg Prod.fst h) (fun hh => Res.noConfusion hh)
        next fs2 heq3 =>
          injection h with h1 h2
          refine ⟨files, dfs, mt, rfl, hval.symm, heq2, ?_, ?_, ?_⟩
          · rw [← hfs2, ← h2]
            exact heq3
          · rw [← h2]
            show s2.created = s.created
            exact hcr2
          · rw [← h2]
            show s2.nextGroupId = s.nextGroupId
            exact hng2
  · simp only [merge_results, hi] at h
    exact absurd (congrArg Prod.fst h) (fun hh => Res.noConfusion hh)

/-- Re-running the merge over a world whose merged artifact already holds
exactly the table the merge would recompute changes nothing. -/
theorem merge_results_rerun {input_dir od : String} {s : St} {files : List String}
    {dfs : List Table} {mt : Table}
    (hres : s.fs.existsP (pjoin od "results") = true)
    (hit : iter_files input_dir s.fs = Res.ok files)
    (hfs : mergeCollectFs s.fs od files = Res.ok dfs)
    (hct : concatTables dfs = some mt)
    (hlook : s.fs.lookup (pathOf od "merged" Stage.results) = some (Node.file mt)) :
    ∃ s', merge_results input_dir od s = (Res.ok (), s') ∧
      s'.fs = s.fs ∧ s'.created = s.created ∧ s'.nextGroupId = s.nextGroupId := by
  have hval := mergeCollect_pure_val od files s hres
  have hst := mergeCollect_pure_st od files s hres
  rcases hmc : mergeCollect od files s with ⟨r, s2⟩
  rw [hmc] at hval hst
  have hfs2 : s2.fs = s.fs := hst.1
  have hr : r = Res.ok dfs := by
    have hv2 : r = mergeCollectFs s.fs od files := hval
    rw [hv2, hfs]
  subst hr
  have hres2 : s2.fs.existsP (pjoin od "results") = true := by
    rw [hfs2]
    exact hres
  have hed : ensureDir s2 (pjoin od (stageStr Stage.results)) = s2 :=
    ensureDir_noop s2 _ hres2
  have hw : s2.fs.write (pathOf od "merged" Stage.results) mt = some s2.fs := by
    rw [hfs2]
    exact write_noop s.fs _ mt hlook
  simp only [merge_results, hit, hmc, hct, output_file_path, hed, hw]
  refine ⟨{s2 with fs := s2.fs}, rfl, ?_, ?_, ?_⟩
  · show s2.fs = s.fs
    exact hfs2
  · show s2.created = s.created
    exact hst.2.1
  · show s2.nextGroupId = s.nextGroupId
    exact hst.2.2

/-! ## Run 2: every stage re-runs as a no-op -/

theorem enqueuePass_rerun (o : Oracle) (cfg : Config) :
    ∀ (files : List String) (s : St),
      s.fs.existsP (pjoin cfg.outputDir "runs") = true →
      (∀ f ∈ files, GoodEnq cfg s.fs f) →
      ∃ s', enqueuePass o cfg files s = (Res.ok true, s') ∧
        s'.fs = s.fs ∧ s'.created = s.created ∧ s'.nextGroupId = s.nextGroupId := by
  intro files
  induction files with
  | nil =>
    intro s hex hgood
    exact ⟨s, rfl, rfl, rfl, rfl⟩
  | cons f rest ih =>
    intro s hex hgood
    have hed : ensureDir s (pjoin cfg.outputDir "runs") = s := ensureDir_noop s _ hex
    have hspec : already_enqueued cfg.outputDir f s =
        (s.fs.existsP (pathOf cfg.outputDir f Stage.runs), s) := by
      rw [already_enqueued_spec, hed]
    simp only [enqueuePass, hspec]
    rcases hgood f (List.mem_cons_self f rest) with hexf | ⟨hs, m, hv⟩
    · rw [hexf, if_pos rfl]
      exact ih (s.logEv (Event.infoSkipEnqueued f)) hex
        (fun g hg => hgood g (List.mem_cons_of_mem f hg))
    · by_cases hexf : s.fs.existsP (pathOf cfg.outputDir f Stage.runs) = true
      · rw [hexf, if_pos rfl]
        exact ih (s.logEv (Event.infoSkipEnqueued f)) hex
          (fun g hg => hgood g (List.mem_cons_of_mem f hg))
      · have hexf' : s.fs.existsP (pathOf cfg.outputDir f Stage.runs) = false := by
          rcases hq : s.fs.existsP (pathOf cfg.outputDir f Stage.runs) with - | -
          · rfl
          · exact absurd hq hexf
        rw [hexf', if_neg (show ¬(false = true) from fun hh => Bool.noConfusion hh)]
        have hone : enqueue_one o cfg f s =
            (Res.ok true, s.logEv (Event.warnSkipInvalid f)) := by
          have hraw : enqueue_one_raw o cfg f s =
              (Res.ok true, s.logEv (Event.warnSkipInvalid f)) := by
            simp only [enqueue_one_raw, hv]
            rw [if_neg (not_not_intro hs)]
          simp only [enqueue_one, hraw]
        obtain ⟨s', hps, h1, h2, h3⟩ := ih (s.logEv (Event.warnSkipInvalid f)) hex
          (fun g hg => hgood g (List.mem_cons_of_mem f hg))
        refine ⟨s', ?_, h1, h2, h3⟩
        split
        next e s3 heq =>
          rw [hone] at heq
          exact absurd (congrArg Prod.fst heq) (fun hh => Res.noConfusion hh)
        next completed s3 heq =>
          rw [hone] at heq
          injection heq with he1 he2
          injection he1 with he3
          split
          next allRest s4 heq2 =>
            rw [← he2] at heq2
            have h4 := hps.symm.trans heq2
            injection h4 with th1 th2
            injection th1 with th3
            rw [← th3, ← he3, ← th2]
            rfl
          next e s4 heq2 =>
            rw [← he2] at heq2
            exact absurd (congrArg Prod.fst (hps.symm.trans heq2))
              (fun hh => Res.noConfusion hh)

theorem enqueue_all_rerun {o : Oracle} {cfg : Config} {fuel : Nat} {s : St}
    {files : List String} (hfuel : fuel ≠ 0)
    (hit : iter_files cfg.inputDir s.fs = Res.ok files)
    (hex : s.fs.existsP (pjoin cfg.outputDir "runs") = true)
    (hgood : ∀ f ∈ files, GoodEnq cfg s.fs f) :
    ∃ s', enqueue_all o cfg fuel s = (Res.ok (), s') ∧
      s'.fs = s.fs ∧ s'.created = s.created ∧ s'.nextGroupId = s.nextGroupId := by
  obtain ⟨s', hps, h1, h2, h3⟩ := enqueuePass_rerun o cfg files s hex hgood
  cases fuel with
  | zero => exact absurd rfl hfuel
  | succ n =>
    refine ⟨s', ?_, h1, h2, h3⟩
    simp only [enqueue_all, hit]
    split
    next e s2 heq =>
      exact absurd (congrArg Prod.fst (hps.symm.trans heq))
        (fun hh => Res.noConfusion hh)
    next s2 heq =>
      have h4 := hps.symm.trans heq
      injection h4 with th1 th2
      rw [th2]
    next s2 heq =>
      exact absurd (congrArg Prod.fst (hps.symm.trans heq))
        (fun hh => Bool.noConfusion (Res.ok.inj hh))

theorem fetchPass_rerun (o : Oracle) (od : String) :
    ∀ (files : List String) (s : St),
      s.fs.existsP (pjoin od "results") = true →
      (∀ f ∈ files, s.fs.existsP (pathOf od f Stage.results) = true) →
      ∃ s', fetchPass o od files s = (Res.ok true, s') ∧
        s'.fs = s.fs ∧ s'.created = s.created ∧ s'.nextGroupId = s.nextGroupId := by
  intro files
  induction files with
  | nil =>
    intro s hex hf
    exact ⟨s, rfl, rfl, rfl, rfl⟩
  | cons f rest ih =>
    intro s hex hf
    have hed : ensureDir s (pjoin od "results") = s := ensureDir_noop s _ hex
    have hspec : already_fetched od f s =
        (s.fs.existsP (pathOf od f Stage.results), s) := by
      rw [already_fetched_spec, hed]
    simp only [fetchPass, hspec]
    rw [hf f (List.mem_cons_self f rest), if_pos rfl]
    exact ih (s.logEv (Event.infoSkipFetched f)) hex
      (fun g hg => hf g (List.mem_cons_of_mem f hg))

theorem fetch_all_rerun {o : Oracle} {od : String} {fuel : Nat} {s : St}
    {files : List String} (hfuel : fuel ≠ 0)
    (hit : iter_files (pjoin od "runs") s.fs = Res.ok files)
    (hex : s.fs.existsP (pjoin od "results") = true)
    (hf : ∀ f ∈ files, s.fs.existsP (pathOf od f Stage.results) = true) :
    ∃ s', fetch_all o od fuel s = (Res.ok (), s') ∧
      s'.fs = s.fs ∧ s'.created = s.created ∧ s'.nextGroupId = s.nextGroupId := by
  obtain ⟨s', hps, h1, h2, h3⟩ := fetchPass_rerun o od files s hex hf
  cases fuel with
  | zero => exact absurd rfl hfuel
  | succ n =>
    refine ⟨s', ?_, h1, h2, h3⟩
    simp only [fetch_all, get_output_dir, stageStr, hit]
    split
    next e s2 heq =>
      exact absurd (congrArg Prod.fst (hps.symm.trans heq))
        (fun hh => Res.noConfusion hh)
    next s2 heq =>
      have h4 := hps.symm.trans heq
      injection h4 with th1 th2
      rw [th2]
    next s2 heq =>
      exact absurd (congrArg Prod.fst (hps.symm.trans heq))
        (fun hh => Bool.noConfusion (Res.ok.inj hh))

/-! ## The orchestrator, re-run -/

theorem run_batch_ok {o : Oracle} {cfg : Config} {fuel : Nat} {s s' : St}
    (hd : cfg.dryRun = false)
    (h : run_batch o cfg fuel s = (Res.ok (), s')) :
    ∃ se sf, enqueue_all o cfg fuel s = (Res.ok (), se) ∧
      fetch_all o cfg.outputDir fuel se = (Res.ok (), sf) ∧
      merge_results cfg.inputDir cfg.outputDir sf = (Res.ok (), s') := by
  simp only [run_batch] at h
  split at h
  next e se heq => exact absurd (congrArg Prod.fst h) (fun hh => Res.noConfusion hh)
  next se heq =>
    rw [if_neg (show ¬(cfg.dryRun = true) by
      rw [hd]; exact fun hh => Bool.noConfusion hh)] at h
    split at h
    next e sf heq2 => exact absurd (congrArg Prod.fst h) (fun hh => Res.noConfusion hh)
    next sf heq2 => exact ⟨se, sf, heq, heq2, h⟩

/-- C1 (amended): a second `run_batch` over the same configuration is a
filesystem-level no-op, under the amended side conditions: live mode, an
input directory distinct from both stage subdirectories, and no input
file whose results artifact collides with the merged artifact path. -/
theorem c1_rerun_idempotent (o : Oracle) (cfg : Config) (fuel₁ fuel₂ : Nat)
    (s₀ s₁ : St)
    (hd : cfg.dryRun = false)
    (hir : cfg.inputDir ≠ pjoin cfg.outputDir "runs")
    (hie : cfg.inputDir ≠ pjoin cfg.outputDir "results")
    (h1 : run_batch o cfg fuel₁ s₀ = (Res.ok (), s₁))
    (hm : ∀ files, iter_files cfg.inputDir s₁.fs = Res.ok files →
      ∀ f ∈ files, pathOf cfg.outputDir f Stage.results ≠
        pathOf cfg.outputDir "merged" Stage.results)
    (hfuel : fuel₂ ≠ 0) :
    ∃ s₂, run_batch o cfg fuel₂ s₁ = (Res.ok (), s₂) ∧ SameCore s₁ s₂ := by
  obtain ⟨se, sf, hea, hfa, hmr⟩ := run_batch_ok hd h1
  obtain ⟨pfiles, sp, hitp, hpass⟩ := enqueue_all_ok hd fuel₁ s₀ se hea
  have hshape : ∀ f ∈ pfiles, ∃ n, '/' ∉ n.data ∧ n ≠ "" ∧
      endsWithS n ".csv" = true ∧ f = pjoin cfg.inputDir n :=
    fun f hf => iter_files_mem hitp hf
  have hntr : ∀ f ∈ pfiles, ¬ TouchedBy (pjoin cfg.outputDir "runs") f := by
    intro f hf
    obtain ⟨n, hn, -, hcsv, rfl⟩ := hshape f hf
    exact listed_not_touched hn hcsv Stage.runs hir
  have hnte : ∀ f ∈ pfiles, ¬ TouchedBy (pjoin cfg.outputDir "results") f := by
    intro f hf
    obtain ⟨n, hn, -, hcsv, rfl⟩ := hshape f hf
    exact listed_not_touched hn hcsv Stage.results hie
  have hgood_se : ∀ f ∈ pfiles, GoodEnq cfg se.fs f :=
    enqueuePass_ok_good hd pfiles sp se hntr hpass
  have hpne : pfiles ≠ [] := by
    obtain ⟨-, hcne, hmapp⟩ := iter_files_ok hitp
    intro hnil
    rw [hnil] at hmapp
    exact hcne (List.map_eq_nil.mp hmapp.symm)
  have hexr_se : se.fs.existsP (pjoin cfg.outputDir "runs") = true := by
    rcases pfiles with - | ⟨g, rest⟩
    · exact absurd rfl hpne
    · have hens := enqueuePass_cons_ensures o cfg g rest sp
      rw [hpass] at hens
      exact hens
  obtain ⟨rfiles, sq, hitq, hqass⟩ := fetch_all_ok fuel₁ se sf hfa
  have hfetched_sf : ∀ f ∈ rfiles,
      sf.fs.existsP (pathOf cfg.outputDir f Stage.results) = true :=
    fetchPass_ok_fetched rfiles sq sf hqass
  have hrne : rfiles ≠ [] := by
    obtain ⟨-, hcne, hmapp⟩ := iter_files_ok hitq
    intro hnil
    rw [hnil] at hmapp
    exact hcne (List.map_eq_nil.mp hmapp.symm)
  have hexres_sf : sf.fs.existsP (pjoin cfg.outputDir "results") = true := by
    rcases rfiles with - | ⟨g, rest⟩
    · exact absurd rfl hrne
    · have hens := fetchPass_cons_ensures o cfg.outputDir g rest sq
      rw [hqass] at hens
      exact hens
  obtain ⟨mfiles, dfs, mt, hitm, hmcfs, hct, hwrite, hcr1, hng1⟩ :=
    merge_results_ok hexres_sf hmr
  have hkE : Keeps (TouchedBy (pjoin cfg.outputDir "runs")) sp.fs se.fs := by
    have hk := keeps_enqueuePass o cfg pfiles sp
    rw [hpass] at hk
    exact hk
  have hkF : Keeps (TouchedBy (pjoin cfg.outputDir "results")) sq.fs sf.fs := by
    have hk := keeps_fetchPass o cfg.outputDir rfiles sq
    rw [hqass] at hk
    exact hk
  have hkF2 : Keeps (TouchedBy (pjoin cfg.outputDir "results")) se.fs sf.fs := by
    have hk := keeps_fetch_all o cfg.outputDir fuel₁ se
    rw [hfa] at hk
    exact hk
  have hkM : Keeps (TouchedBy (pjoin cfg.outputDir "results")) sf.fs s₁.fs :=
    keeps_write _ _ _ (pathOf_touched cfg.outputDir "merged" Stage.results) hwrite
  have hitse : iter_files cfg.inputDir se.fs = Res.ok pfiles :=
    iter_files_stable hkE (csv_hyp_runs cfg.outputDir cfg.inputDir hir) hitp
  have hitsf : iter_files cfg.inputDir sf.fs = Res.ok pfiles :=
    iter_files_stable hkF2 (csv_hyp_results cfg.outputDir cfg.inputDir hie) hitse
  have hit1 : iter_files cfg.inputDir s₁.fs = Res.ok mfiles :=
    iter_files_stable hkM (csv_hyp_results cfg.outputDir cfg.inputDir hie) hitm
  have hmp : pfiles = mfiles := Res.ok.inj (hitsf.symm.trans hitm)
  subst hmp
  have hgood1 : ∀ f ∈ pfiles, GoodEnq cfg s₁.fs f := by
    intro f hf
    exact goodEnq_keeps hkM (hnte f hf)
      (goodEnq_keeps hkF2 (hnte f hf) (hgood_se f hf))
  have hexr1 : s₁.fs.existsP (pjoin cfg.outputDir "runs") = true :=
    keeps_exists_mono hkM _ (keeps_exists_mono hkF2 _ hexr_se)
  have hexres1 : s₁.fs.existsP (pjoin cfg.outputDir "results") = true :=
    keeps_exists_mono hkM _ hexres_sf
  have hitr_sf : iter_files (pjoin cfg.outputDir "runs") sf.fs = Res.ok rfiles :=
    iter_files_stable hkF
      (csv_hyp_results cfg.outputDir (pjoin cfg.outputDir "runs")
        (runs_ne_results cfg.outputDir)) hitq
  have hitr1 : iter_files (pjoin cfg.outputDir "runs") s₁.fs = Res.ok rfiles :=
    iter_files_stable hkM
      (csv_hyp_results cfg.outputDir (pjoin cfg.outputDir "runs")
        (runs_ne_results cfg.outputDir)) hitr_sf
  have hfetched1 : ∀ f ∈ rfiles,
      s₁.fs.existsP (pathOf cfg.outputDir f Stage.results) = true :=
    fun f hf => keeps_exists_mono hkM _ (hfetched_sf f hf)
  have hlook1 : s₁.fs.lookup (pathOf cfg.outputDir "merged" Stage.results) =
      some (Node.file mt) := write_lookup_self _ _ _ _ hwrite
  have harg : ∀ f ∈ pfiles, s₁.fs.lookup f = sf.fs.lookup f ∧
      s₁.fs.lookup (pathOf cfg.outputDir f Stage.results) =
        sf.fs.lookup (pathOf cfg.outputDir f Stage.results) := by
    intro f hf
    obtain ⟨n, hn, hne0, hcsv, hfe⟩ := hshape f hf
    constructor
    · refine write_lookup_other _ _ _ _ _ hwrite ?_
      rw [hfe]
      obtain ⟨nm, hnm, hpe⟩ := pathOf_shape cfg.outputDir "merged" Stage.results
      rw [hpe]
      intro hcontra
      obtain ⟨hdeq, -⟩ := pjoin_inj cfg.inputDir
        (pjoin cfg.outputDir (stageStr Stage.results)) n nm hn hnm hcontra
      exact hie hdeq
    · exact write_lookup_other _ _ _ _ _ hwrite (hm pfiles hit1 f hf)
  have hmcfs1 : mergeCollectFs s₁.fs cfg.outputDir pfiles = Res.ok dfs :=
    ((@mergeCollectFs_congr sf.fs s₁.fs cfg.outputDir) pfiles harg).trans hmcfs
  obtain ⟨s₂a, hea2, ha1, ha2, ha3⟩ :=
    @enqueue_all_rerun o cfg fuel₂ s₁ pfiles hfuel hit1 hexr1 hgood1
  have hitr2 : iter_files (pjoin cfg.outputDir "runs") s₂a.fs = Res.ok rfiles := by
    rw [ha1]
    exact hitr1
  have hexres2 : s₂a.fs.existsP (pjoin cfg.outputDir "results") = true := by
    rw [ha1]
    exact hexres1
  have hfetched2 : ∀ f ∈ rfiles,
      s₂a.fs.existsP (pathOf cfg.outputDir f Stage.results) = true := by
    intro f hf
    rw [ha1]
    exact hfetched1 f hf
  obtain ⟨s₂b, hfa2, hb1, hb2, hb3⟩ :=
    @fetch_all_rerun o cfg.outputDir fuel₂ s₂a rfiles hfuel hitr2 hexres2 hfetched2
  have hfs2b : s₂b.fs = s₁.fs := by
    rw [hb1, ha1]
  have hres2b : s₂b.fs.existsP (pjoin cfg.outputDir "results") = true := by
    rw [hfs2b]
    exact hexres1
  have hit2b : iter_files cfg.inputDir s₂b.fs = Res.ok pfiles := by
    rw [hfs2b]
    exact hit1
  have hmcfs2b : mergeCollectFs s₂b.fs cfg.outputDir pfiles = Res.ok dfs := by
    rw [hfs2b]
    exact hmcfs1
  have hlook2b : s₂b.fs.lookup (pathOf cfg.outputDir "merged" Stage.results) =
      some (Node.file mt) := by
    rw [hfs2b]
    exact hlook1
  obtain ⟨s₂, hmr2, hc1, hc2, hc3⟩ :=
    merge_results_rerun hres2b hit2b hmcfs2b hct hlook2b
  refine ⟨s₂, ?_, ?_, ?_, ?_⟩
  · simp only [run_batch]
    split
    next e se2 heq =>
      exact absurd (congrArg Prod.fst (hea2.symm.trans heq))
        (fun hh => Res.noConfusion hh)
    next se2 heq =>
      have h4 := hea2.symm.trans heq
      injection h4 with th1 th2
      rw [if_neg (show ¬(cfg.dryRun = true) by
        rw [hd]; exact fun hh => Bool.noConfusion hh), ← th2]
      split
      next e sf2 heq2 =>
        exact absurd (congrArg Prod.fst (hfa2.symm.trans heq2))
          (fun hh => Res.noConfusion hh)
      next sf2 heq2 =>
        have h5 := hfa2.symm.trans heq2
        injection h5 with th3 th4
        rw [← th4]
        exact hmr2
  · rw [hc1, hb1, ha1]
  · rw [hc2, hb2, ha2]
  · rw [hc3, hb3, ha3]

/-- C1, counterexample to the unconditional claim: with an input file
named `merged.csv`, the first batch succeeds and the second batch also
reports success, yet the second run changes the stored artifacts — the
file's own results artifact occupies the merged-artifact path, so the
first run's merge overwrote it with the joined table and the re-run's
fetch stage rebuilds it differently instead of skipping. -/
theorem c1_counterexample :
    (run_batch wOracle wCfg 3 wStMerged).1 = Res.ok () ∧
    (run_batch wOracle wCfg 3 (run_batch wOracle wCfg 3 wStMerged).2).1 =
      Res.ok () ∧
    (run_batch wOracle wCfg 3 (run_batch wOracle wCfg 3 wStMerged).2).2.fs ≠
      (run_batch wOracle wCfg 3 wStMerged).2.fs := by decide

/-- Witness for the amended C1 theorem at a concrete happy-path world:
one input file `in/a.csv`, a second batch over the post-run world is a
filesystem-level no-op. -/
theorem c1_witness :
    ∃ s₂, run_batch wOracle wCfg 1 wS1 = (Res.ok (), s₂) ∧ SameCore wS1 s₂ :=
  c1_rerun_idempotent wOracle wCfg 2 1 wSt wS1 (by decide) (by decide) (by decide)
    (by decide)
    (by
      intro files hf f hff
      have hcalc : iter_files wCfg.inputDir wS1.fs = Res.ok ["in/a.csv"] := by
        decide
      rw [hcalc] at hf
      have hfiles := Res.ok.inj hf
      rw [← hfiles] at hff
      have hfe : f = "in/a.csv" := List.mem_singleton.mp hff
      rw [hfe]
      decide)
    (by decide)

end Recipe
